import Mathlib

/-!
# Layered compositor of `util/uiutil/widget/multilayer.go`

A shallow embedding of the paint-invalidation code of the widget package:
the four-layer compositor `MultiLayer`, the overlay pre-marking pass of
`MultiLayer.PaintMarked`, `FloatLayer.Layout`, and the two recursive helpers
`intersectingNodeNeedingPaintExists` and `markIntersectingNodesNotNeedingPaint`.

Mutable Go state is made explicit:

* a node is a value `Node` holding its bounds, its marks and its ordered children;
* a Go pointer to a child of a float layer is the index of that child;
* the parent links used by `MarkNeedsPaint` are the list of the marks of the
  ancestors of the node (nearest first), passed in and returned;
* `IterateWrappers` and `IterateWrappers2` (child iteration of `EmbedNode`, not among the
  sources) are recursion over the ordered list of children, the first one stopping as
  soon as its callback returns false.

The parts of the widget package that are not among the sources (`Marks`, `EmbedNode`,
`MarkNeedsPaint`, `ENode.PaintMarked`) are modelled from the specification and marked
as such. `Rectangle` follows the Go standard library.
-/

namespace Widget

/-! ## Rectangles (Go standard library, package `image`) -/

/-- Go `image.Point`. -/
structure Point where
  X : Int
  Y : Int
deriving DecidableEq, Repr

/-- Go `image.Rectangle`: `Min` inclusive, `Max` exclusive. -/
structure Rectangle where
  Min : Point
  Max : Point
deriving DecidableEq, Repr

/-- Go `image.Rectangle{}` (the zero rectangle, which is empty). -/
def ZR : Rectangle := ⟨⟨0, 0⟩, ⟨0, 0⟩⟩

/-- Go `image.Rect`: the rectangle with the given corners, coordinates put in order. -/
def Rect (x0 y0 x1 y1 : Int) : Rectangle :=
  ⟨⟨if x0 > x1 then x1 else x0, if y0 > y1 then y1 else y0⟩,
   ⟨if x0 > x1 then x0 else x1, if y0 > y1 then y0 else y1⟩⟩

/-- Go `Rectangle.Empty`. -/
def Rectangle.Empty (r : Rectangle) : Bool :=
  decide (r.Min.X ≥ r.Max.X) || decide (r.Min.Y ≥ r.Max.Y)

/-- Go `Rectangle.Overlaps`. -/
def Rectangle.Overlaps (r s : Rectangle) : Bool :=
  !r.Empty && !s.Empty &&
    decide (r.Min.X < s.Max.X) && decide (s.Min.X < r.Max.X) &&
    decide (r.Min.Y < s.Max.Y) && decide (s.Min.Y < r.Max.Y)

/-- Go `Rectangle.In`: every point of `r` is in `s`. -/
def Rectangle.In (r s : Rectangle) : Bool :=
  if r.Empty then true
  else
    decide (s.Min.X ≤ r.Min.X) && decide (r.Max.X ≤ s.Max.X) &&
      decide (s.Min.Y ≤ r.Min.Y) && decide (r.Max.Y ≤ s.Max.Y)

/-- Go `Rectangle.Union`: the smallest rectangle containing both; an empty operand is
dropped. -/
def Rectangle.Union (r s : Rectangle) : Rectangle :=
  if r.Empty then s
  else if s.Empty then r
  else
    ⟨⟨if r.Min.X > s.Min.X then s.Min.X else r.Min.X,
      if r.Min.Y > s.Min.Y then s.Min.Y else r.Min.Y⟩,
     ⟨if r.Max.X < s.Max.X then s.Max.X else r.Max.X,
      if r.Max.Y < s.Max.Y then s.Max.Y else r.Max.Y⟩⟩

/-- Go `Rectangle.Intersect`: the largest rectangle contained in both, `ZR` when that is
empty. -/
def Rectangle.Intersect (r s : Rectangle) : Rectangle :=
  let t : Rectangle :=
    ⟨⟨if r.Min.X < s.Min.X then s.Min.X else r.Min.X,
      if r.Min.Y < s.Min.Y then s.Min.Y else r.Min.Y⟩,
     ⟨if r.Max.X > s.Max.X then s.Max.X else r.Max.X,
      if r.Max.Y > s.Max.Y then s.Max.Y else r.Max.Y⟩⟩
  if t.Empty then ZR else t

/-! ## Marks and nodes -/

/-- Modelled from the spec: the mark bitset of a node (type `Marks` of the widget package,
whose declaration is not among the sources): one bit for each of NeedsPaint,
ChildNeedsPaint, NeedsLayout, ChildNeedsLayout, NotDraggable and ForceZeroBounds. -/
structure Marks where
  NeedsPaint : Bool
  ChildNeedsPaint : Bool
  NeedsLayout : Bool
  ChildNeedsLayout : Bool
  NotDraggable : Bool
  ForceZeroBounds : Bool
deriving DecidableEq, Repr

/-- The empty mark set. -/
def Marks.none : Marks := ⟨false, false, false, false, false, false⟩

/-- Mask `MarkNeedsPaint`. -/
def MarkNeedsPaint : Marks := ⟨true, false, false, false, false, false⟩
/-- Mask `MarkChildNeedsPaint`. -/
def MarkChildNeedsPaint : Marks := ⟨false, true, false, false, false, false⟩
/-- Mask `MarkNeedsLayout`. -/
def MarkNeedsLayout : Marks := ⟨false, false, true, false, false, false⟩
/-- Mask `MarkChildNeedsLayout`. -/
def MarkChildNeedsLayout : Marks := ⟨false, false, false, true, false, false⟩
/-- Mask `MarkNotDraggable`. -/
def MarkNotDraggable : Marks := ⟨false, false, false, false, true, false⟩
/-- Mask `MarkForceZeroBounds`. -/
def MarkForceZeroBounds : Marks := ⟨false, false, false, false, false, true⟩

/-- Modelled from the spec: `Marks.Add` (bitwise or of the two mark sets). -/
def Marks.Add (m u : Marks) : Marks :=
  ⟨m.NeedsPaint || u.NeedsPaint, m.ChildNeedsPaint || u.ChildNeedsPaint,
   m.NeedsLayout || u.NeedsLayout, m.ChildNeedsLayout || u.ChildNeedsLayout,
   m.NotDraggable || u.NotDraggable, m.ForceZeroBounds || u.ForceZeroBounds⟩

/-- Modelled from the spec: `Marks.Remove` (clears the bits of `u` in `m`). -/
def Marks.Remove (m u : Marks) : Marks :=
  ⟨m.NeedsPaint && !u.NeedsPaint, m.ChildNeedsPaint && !u.ChildNeedsPaint,
   m.NeedsLayout && !u.NeedsLayout, m.ChildNeedsLayout && !u.ChildNeedsLayout,
   m.NotDraggable && !u.NotDraggable, m.ForceZeroBounds && !u.ForceZeroBounds⟩

/-- Modelled from the spec: `Marks.HasAny` (some bit of `u` is set in `m`). -/
def Marks.HasAny (m u : Marks) : Bool :=
  (m.NeedsPaint && u.NeedsPaint) || (m.ChildNeedsPaint && u.ChildNeedsPaint) ||
  (m.NeedsLayout && u.NeedsLayout) || (m.ChildNeedsLayout && u.ChildNeedsLayout) ||
  (m.NotDraggable && u.NotDraggable) || (m.ForceZeroBounds && u.ForceZeroBounds)

/-- Modelled from the spec: a tree node (`EmbedNode` of the widget package): bounds, marks
and the ordered list of owned children. The parent back-reference is not stored; the
operations that walk upward receive the marks of the ancestors. -/
inductive Node where
  | mk (Bounds : Rectangle) (Marks : Marks) (childs : List Node)
deriving Repr

/-- Field `Bounds` of a node. -/
def Node.Bounds : Node → Rectangle
  | .mk b _ _ => b

/-- Field `Marks` of a node. -/
def Node.Marks : Node → Marks
  | .mk _ m _ => m

/-- The children of a node, first to last. -/
def Node.childs : Node → List Node
  | .mk _ _ cs => cs

/-- The node with its marks replaced. -/
def Node.setMarks (n : Node) (m : Widget.Marks) : Node :=
  match n with
  | .mk b _ cs => .mk b m cs

/-! ## `intersectingNodeNeedingPaintExists` -/

mutual
/-- Source `intersectingNodeNeedingPaintExists(node, r)`: `found` starts false and the
children of `node` are iterated until `found`. -/
def intersectingNodeNeedingPaintExists (node : Node) (r : Rectangle) : Bool :=
  match node with
  | .mk _ _ cs => intersectingNodeNeedingPaintExists.iter cs r
/-- The `IterateWrappers` loop of `intersectingNodeNeedingPaintExists` over the remaining
children: the callback sets `found` for the child and the iteration stops once it is
true. -/
def intersectingNodeNeedingPaintExists.iter (cs : List Node) (r : Rectangle) : Bool :=
  match cs with
  | [] => false
  | child :: rest =>
    let found :=
      if child.Bounds.Overlaps r then
        if child.Marks.HasAny MarkNeedsPaint then true
        else if child.Marks.HasAny MarkChildNeedsPaint then
          intersectingNodeNeedingPaintExists child r
        else false
      else false
    if found then true else intersectingNodeNeedingPaintExists.iter rest r
end

/-! ## `MarkNeedsPaint` and `markIntersectingNodesNotNeedingPaint` -/

/-- Modelled from the spec: the upward walk of a mark call (`EmbedNode.MarkNeedsPaint`, not
among the sources): ChildNeedsPaint is set on each ancestor, nearest first, until an
ancestor that already carries the flag is reached. -/
def markUp : List Marks → List Marks
  | [] => []
  | m :: ms =>
    if m.HasAny MarkChildNeedsPaint then m :: ms
    else m.Add MarkChildNeedsPaint :: markUp ms

/-- Modelled from the spec: `EmbedNode.MarkNeedsPaint` (not among the sources): the node
gets NeedsPaint and the walk `markUp` runs over its ancestors. -/
def EmbedNode.MarkNeedsPaint (en : Node) (parents : List Marks) : Node × List Marks :=
  (en.setMarks (en.Marks.Add Widget.MarkNeedsPaint), markUp parents)

mutual
/-- Source `markIntersectingNodesNotNeedingPaint(node, r)`. `parents` are the marks of the
ancestors of `node`; the result is the node after the call, the marks of its ancestors
after the call, and the returned rectangle `u`. -/
def markIntersectingNodesNotNeedingPaint (node : Node) (parents : List Marks)
    (r : Rectangle) : Node × List Marks × Rectangle :=
  match node with
  | .mk b m cs =>
    let res := markIntersectingNodesNotNeedingPaint.iter cs (m :: parents) r ZR
    (.mk b (res.2.1.headD m) res.1, res.2.1.tail, res.2.2)
/-- The `IterateWrappers2` loop of `markIntersectingNodesNotNeedingPaint` over the remaining
children. `chain` holds the marks of the iterated node followed by those of its
ancestors, `u` is the rectangle accumulated so far. -/
def markIntersectingNodesNotNeedingPaint.iter (cs : List Node) (chain : List Marks)
    (r : Rectangle) (u : Rectangle) : List Node × List Marks × Rectangle :=
  match cs with
  | [] => ([], chain, u)
  | child :: rest =>
    let step : Node × List Marks × Rectangle :=
      if child.Bounds.Overlaps r then
        if !child.Marks.HasAny MarkNeedsPaint then
          if r.In child.Bounds then
            -- improve selection with subchilds
            let sub := markIntersectingNodesNotNeedingPaint child chain r
            let w := sub.2.2
            if r.In w then
              (sub.1, sub.2.1, u.Union w)
            else
              let mk := EmbedNode.MarkNeedsPaint sub.1 sub.2.1
              (mk.1, mk.2, (u.Union w).Union child.Bounds)
          else
            let mk := EmbedNode.MarkNeedsPaint child chain
            (mk.1, mk.2, u.Union child.Bounds)
        else (child, chain, u)
      else (child, chain, u)
    let res := markIntersectingNodesNotNeedingPaint.iter rest step.2.1 r step.2.2
    (step.1 :: res.1, res.2.1, res.2.2)
end

/-! ## The compositor -/

/-- Source `MultiLayer`: the embedded root `ENode` (its bounds and marks) and the four
layers, which are the children of the root in this order (first is the bottom layer).
The field `layers`, set once by `NewMultiLayer`, is the constant `MultiLayer.layers`. -/
structure MultiLayer where
  Bounds : Rectangle
  Marks : Marks
  BgLayer : Node
  SeparatorLayer : Node
  ContextLayer : Node
  MenuLayer : Node
deriving Repr

/-- A reference to one of the two layers of type `*FloatLayer`. -/
inductive FloatLayer where
  | Context
  | Menu
deriving DecidableEq, Repr

/-- An entry of `ml.layers`: a reference to a layer together with its dynamic type. -/
inductive Layer where
  | Bg
  | Separator
  | Float (fl : FloatLayer)
deriving DecidableEq, Repr

/-- Source `ml.layers` as filled by `NewMultiLayer` (order matters). -/
def MultiLayer.layers : List Layer :=
  [Layer.Bg, Layer.Separator, Layer.Float FloatLayer.Context, Layer.Float FloatLayer.Menu]

/-- The node of a float layer. -/
def MultiLayer.floatLayer (ml : MultiLayer) : FloatLayer → Node
  | .Context => ml.ContextLayer
  | .Menu => ml.MenuLayer

/-- The compositor with the node of a float layer replaced. -/
def MultiLayer.setFloatLayer (ml : MultiLayer) (fl : FloatLayer) (n : Node) : MultiLayer :=
  match fl with
  | .Context => { ml with ContextLayer := n }
  | .Menu => { ml with MenuLayer := n }

/-- Source `BgLayer.RectNeedsPaint(r)`: `markIntersectingNodesNotNeedingPaint(bgl, r)`, the
returned rectangle dropped. The only ancestor of the background layer is the root. -/
def BgLayer.RectNeedsPaint (ml : MultiLayer) (r : Rectangle) : MultiLayer :=
  let res := markIntersectingNodesNotNeedingPaint ml.BgLayer [ml.Marks] r
  { ml with BgLayer := res.1, Marks := res.2.1.getD 0 ml.Marks }

/-- The `IterateWrappers2` loop of `visibleChildNodes`: the children still to visit, the
index of the first of them; appends the references (indices) of the visible ones. -/
def visibleChildNodes.iter : List Node → Nat → List Nat
  | [], _ => []
  | child :: rest, i =>
    if !child.Marks.HasAny MarkForceZeroBounds then i :: visibleChildNodes.iter rest (i + 1)
    else visibleChildNodes.iter rest (i + 1)

/-- Source `visibleChildNodes(node)`: the children without ForceZeroBounds, in child
order, each given by its index among the children. -/
def visibleChildNodes (node : Node) : List Nat :=
  visibleChildNodes.iter node.childs 0

/-- Source `FloatLayer.visibleNodes`. -/
def FloatLayer.visibleNodes (ml : MultiLayer) (fl : FloatLayer) : List Nat :=
  visibleChildNodes (ml.floatLayer fl)

/-- The call `n.Embed().MarkNeedsPaint()` for the child `n` of the float layer `fl`: the
ancestors of `n` are the float layer and the root. -/
def MultiLayer.floatChildMarkNeedsPaint (ml : MultiLayer) (fl : FloatLayer) (n : Nat) : MultiLayer :=
  match ml.floatLayer fl with
  | .mk b m cs =>
    match cs[n]? with
    | Option.none => ml
    | some c =>
      let res := EmbedNode.MarkNeedsPaint c [m, ml.Marks]
      let ml1 := ml.setFloatLayer fl (.mk b (res.2.getD 0 m) (cs.set n res.1))
      { ml1 with Marks := res.2.getD 1 ml.Marks }

/-- The body of the loop over `vnodes` in `markFloatLayerNodes`, for the visible node `n`
of `fl`. -/
def MultiLayer.markFloatLayerNodes.body (fl : FloatLayer) (ml : MultiLayer) (n : Nat) :
    MultiLayer :=
  match (ml.floatLayer fl).childs[n]? with
  | Option.none => ml
  | some c =>
    if intersectingNodeNeedingPaintExists ml.BgLayer c.Bounds then
      -- mark bglayer nodes as needing paint if intersecting with floatlayer visible nodes
      BgLayer.RectNeedsPaint (ml.floatChildMarkNeedsPaint fl n) c.Bounds
    else ml

/-- Source `MultiLayer.markFloatLayerNodes(fl)`. -/
def MultiLayer.markFloatLayerNodes (ml : MultiLayer) (fl : FloatLayer) : MultiLayer :=
  let vnodes := FloatLayer.visibleNodes ml fl
  if vnodes.length = 0 then ml
  else vnodes.foldl (MultiLayer.markFloatLayerNodes.body fl) ml

/-- The body of the loop of `FloatLayer.Layout`, for the visible node `n` of `fl`. -/
def FloatLayer.Layout.body (fl : FloatLayer) (ml : MultiLayer) (n : Nat) : MultiLayer :=
  match (ml.floatLayer fl).childs[n]? with
  | Option.none => ml
  | some c => BgLayer.RectNeedsPaint (ml.floatChildMarkNeedsPaint fl n) c.Bounds

/-- Source `FloatLayer.Layout`. -/
def FloatLayer.Layout (ml : MultiLayer) (fl : FloatLayer) : MultiLayer :=
  (FloatLayer.visibleNodes ml fl).foldl (FloatLayer.Layout.body fl) ml

/-- The first loop of `MultiLayer.PaintMarked` (the overlay pre-marking pass): every entry
of `ml.layers` that is a `*FloatLayer` is passed to `markFloatLayerNodes`. -/
def MultiLayer.markFloatLayers (ml : MultiLayer) : MultiLayer :=
  MultiLayer.layers.foldl
    (fun ml l =>
      match l with
      | Layer.Float fl => ml.markFloatLayerNodes fl
      | _ => ml)
    ml

/-! ## The traversal pass -/

/-- The paint marks `MarkNeedsPaint | MarkChildNeedsPaint`. -/
def paintMarks : Marks := MarkNeedsPaint.Add MarkChildNeedsPaint

/-- A node of the tree, given by the child indices leading to it from the root. -/
abbrev Path := List Nat

mutual
/-- Modelled from the spec: the pruned traversal `ENode.PaintMarked` (not among the sources)
at the node with path `path`: a node carrying NeedsPaint is drawn and its bounds are
accumulated; a node carrying NeedsPaint or ChildNeedsPaint has its children visited in
order and its paint marks cleared; any other node is skipped with its subtree. The
result is the node after the pass, the paths of the drawn nodes in drawing order, and
the accumulated rectangle. -/
def ENode.PaintMarked (n : Node) (path : Path) : Node × List Path × Rectangle :=
  match n with
  | .mk b m cs =>
    if m.HasAny paintMarks then
      let res := ENode.PaintMarked.iter cs path 0
      (.mk b (m.Remove paintMarks) res.1,
       (if m.HasAny MarkNeedsPaint then [path] else []) ++ res.2.1,
       (if m.HasAny MarkNeedsPaint then b else ZR).Union res.2.2)
    else (.mk b m cs, [], ZR)
/-- Modelled from the spec: the part of the traversal `ENode.PaintMarked` that visits, in
order, the children of the node with path `path`, from the child of index `i` on. -/
def ENode.PaintMarked.iter (cs : List Node) (path : Path) (i : Nat) :
    List Node × List Path × Rectangle :=
  match cs with
  | [] => ([], [], ZR)
  | child :: rest =>
    let rc := ENode.PaintMarked child (path ++ [i])
    let rs := ENode.PaintMarked.iter rest path (i + 1)
    (rc.1 :: rs.1, rc.2.1 ++ rs.2.1, rc.2.2.Union rs.2.2)
end

/-- The root of the compositor as a node: its children are the four layers in the order
of `ml.layers`. -/
def MultiLayer.toNode (ml : MultiLayer) : Node :=
  .mk ml.Bounds ml.Marks [ml.BgLayer, ml.SeparatorLayer, ml.ContextLayer, ml.MenuLayer]

/-- Modelled from the spec: the call `ml.ENode.PaintMarked()`, that is the traversal
`ENode.PaintMarked` (not among the sources) started at the root, whose children are the
four layers (paths `[0]` to `[3]`); see `enodePaintMarked_eq_paintMarked_toNode`. -/
def MultiLayer.ENodePaintMarked (ml : MultiLayer) : MultiLayer × List Path × Rectangle :=
  if ml.Marks.HasAny paintMarks then
    let bg := ENode.PaintMarked ml.BgLayer [0]
    let sep := ENode.PaintMarked ml.SeparatorLayer [1]
    let ctx := ENode.PaintMarked ml.ContextLayer [2]
    let menu := ENode.PaintMarked ml.MenuLayer [3]
    (⟨ml.Bounds, ml.Marks.Remove paintMarks, bg.1, sep.1, ctx.1, menu.1⟩,
     (if ml.Marks.HasAny MarkNeedsPaint then [[]] else []) ++
       (bg.2.1 ++ (sep.2.1 ++ (ctx.2.1 ++ (menu.2.1 ++ [])))),
     (if ml.Marks.HasAny MarkNeedsPaint then ml.Bounds else ZR).Union
       (bg.2.2.Union (sep.2.2.Union (ctx.2.2.Union (menu.2.2.Union ZR)))))
  else (ml, [], ZR)

/-- Source `MultiLayer.PaintMarked`: the pre-marking pass, then the traversal from the
root. The result is the compositor after the call, the paths of the nodes drawn, and the
returned rectangle. -/
def MultiLayer.PaintMarked (ml : MultiLayer) : MultiLayer × List Path × Rectangle :=
  ml.markFloatLayers.ENodePaintMarked

/-! ## Predicates used in the statements -/

/-- The downward path relation: `IsChildPath node mids d` says that `d` is a strict
descendant of `node` and `mids` are the nodes strictly between them, top to bottom. -/
def IsChildPath : Node → List Node → Node → Prop
  | node, [], d => d ∈ node.childs
  | node, c :: rest, d => c ∈ node.childs ∧ IsChildPath c rest d

/-- Pending paint under `node` within `r`, in the words of the specification: some strict
descendant carries NeedsPaint and overlaps `r`, and every node strictly between overlaps
`r` and carries ChildNeedsPaint. -/
inductive PendingDescendant (r : Rectangle) : Node → Prop where
  | direct (node d : Node) : d ∈ node.childs → d.Marks.NeedsPaint = true →
      d.Bounds.Overlaps r = true → PendingDescendant r node
  | deeper (node c : Node) : c ∈ node.childs → c.Bounds.Overlaps r = true →
      c.Marks.ChildNeedsPaint = true → PendingDescendant r c → PendingDescendant r node

/-- A child through which the search of `intersectingNodeNeedingPaintExists` succeeds. -/
def PendingChild (r : Rectangle) (c : Node) : Prop :=
  c.Bounds.Overlaps r = true ∧
    (c.Marks.NeedsPaint = true ∨ (c.Marks.ChildNeedsPaint = true ∧ PendingDescendant r c))

/-- The callback that `markIntersectingNodesNotNeedingPaint` passes to `IterateWrappers2`,
applied to one child: the state reached so far is the marks `chain` of the iterated node
and of its ancestors and the accumulated rectangle `u`; the result is the child, the
chain and `u` after the callback. The loop
`markIntersectingNodesNotNeedingPaint.iter` applies it to each child in turn
(`markIntersecting_iter_cons`). -/
def markIntersectingNodesNotNeedingPaint.callback (child : Node) (chain : List Marks)
    (r : Rectangle) (u : Rectangle) : Node × List Marks × Rectangle :=
  if child.Bounds.Overlaps r then
    if !child.Marks.HasAny MarkNeedsPaint then
      if r.In child.Bounds then
        let sub := markIntersectingNodesNotNeedingPaint child chain r
        let w := sub.2.2
        if r.In w then
          (sub.1, sub.2.1, u.Union w)
        else
          let mk := EmbedNode.MarkNeedsPaint sub.1 sub.2.1
          (mk.1, mk.2, (u.Union w).Union child.Bounds)
      else
        let mk := EmbedNode.MarkNeedsPaint child chain
        (mk.1, mk.2, u.Union child.Bounds)
    else (child, chain, u)
  else (child, chain, u)

/-- The marks `m2` are the marks `m1` with possibly NeedsPaint and ChildNeedsPaint added:
nothing is removed and no other mark is added. -/
def Marks.PaintGrows (m1 m2 : Marks) : Prop :=
  (m1.NeedsPaint = true → m2.NeedsPaint = true) ∧
  (m1.ChildNeedsPaint = true → m2.ChildNeedsPaint = true) ∧
  m2.NeedsLayout = m1.NeedsLayout ∧ m2.ChildNeedsLayout = m1.ChildNeedsLayout ∧
  m2.NotDraggable = m1.NotDraggable ∧ m2.ForceZeroBounds = m1.ForceZeroBounds

mutual
/-- The tree `n2` is the tree `n1` (same shape, same bounds) with paint marks added:
at every node the marks grow in the sense of `Marks.PaintGrows`. -/
def Node.PaintGrows : Node → Node → Prop
  | .mk b1 m1 cs1, .mk b2 m2 cs2 =>
    b2 = b1 ∧ Widget.Marks.PaintGrows m1 m2 ∧ Node.PaintGrowsList cs1 cs2
/-- The relation `Node.PaintGrows` on lists of children, position by position. -/
def Node.PaintGrowsList : List Node → List Node → Prop
  | [], [] => True
  | c1 :: cs1, c2 :: cs2 => Node.PaintGrows c1 c2 ∧ Node.PaintGrowsList cs1 cs2
  | [], _ :: _ => False
  | _ :: _, [] => False
end

/-- The node reached from `n` by the child indices `p`, when there is one. -/
def Node.descend (n : Node) : Path → Option Node
  | [] => some n
  | i :: p =>
    match n.childs[i]? with
    | Option.none => Option.none
    | some c => Node.descend c p

/-- The union (`Rectangle.Union`, starting from the zero rectangle) of a list of
rectangles. -/
def unionAll (l : List Rectangle) : Rectangle :=
  l.foldl Rectangle.Union ZR

mutual
/-- The bounds of the nodes of a tree that carry NeedsPaint in `after` and did not in
`before`, children before their parent, children in order. -/
def newlyMarked : Node → Node → List Rectangle
  | .mk b m1 cs1, .mk _ m2 cs2 =>
    newlyMarkedList cs1 cs2 ++ (if !m1.NeedsPaint && m2.NeedsPaint then [b] else [])
/-- The list `newlyMarked` of a list of children, position by position. -/
def newlyMarkedList : List Node → List Node → List Rectangle
  | c1 :: cs1, c2 :: cs2 => newlyMarked c1 c2 ++ newlyMarkedList cs1 cs2
  | [], _ => []
  | _ :: _, [] => []
end

/-- What a call on `node` does to the node and to its ancestors. -/
def MarkNodeSpec (r : Rectangle) (node : Node) : Prop :=
  ∀ parents : List Marks,
    Node.PaintGrows node (markIntersectingNodesNotNeedingPaint node parents r).1 ∧
    (markIntersectingNodesNotNeedingPaint node parents r).1.Marks.NeedsPaint =
      node.Marks.NeedsPaint ∧
    ((markIntersectingNodesNotNeedingPaint node parents r).2.1 = parents ∨
      (markIntersectingNodesNotNeedingPaint node parents r).2.1 = markUp parents)

/-- The compositor `ml2` is the compositor `ml1` with paint marks added: same tree, same
bounds, and at every node (root, layers and all their descendants) the marks grow in the
sense of `Marks.PaintGrows`. -/
def MultiLayer.PaintGrows (ml1 ml2 : MultiLayer) : Prop :=
  Node.PaintGrows ml1.toNode ml2.toNode

/-- The rectangle returned by a call on `node` is the union of the bounds it newly
marked, all of which overlap `r`. -/
def MarkUnionSpec (r : Rectangle) (node : Node) : Prop :=
  ∀ parents : List Marks,
    (markIntersectingNodesNotNeedingPaint node parents r).2.2 =
      unionAll (newlyMarkedList node.childs
        (markIntersectingNodesNotNeedingPaint node parents r).1.childs) ∧
    ∀ x ∈ newlyMarkedList node.childs
        (markIntersectingNodesNotNeedingPaint node parents r).1.childs, x.Overlaps r = true

/-- The rectangle `a` is a proper subset of the rectangle `b` (as sets of points). -/
def Rectangle.ProperSubset (a b : Rectangle) : Prop :=
  a.In b = true ∧ b.In a = false

instance (a b : Rectangle) : Decidable (Rectangle.ProperSubset a b) :=
  inferInstanceAs (Decidable (_ ∧ _))

/-- A leaf node. -/
def leaf (b : Rectangle) (m : Marks) : Node := Node.mk b m []

/-- The NeedsPaint bits of a list of nodes, in order. -/
def needsPaintBits (cs : List Node) : List Bool :=
  cs.map (fun c => c.Marks.NeedsPaint)

mutual
/-- No node of the tree carries NeedsPaint or ChildNeedsPaint. -/
def Node.paintClean : Node → Bool
  | .mk _ m cs => !m.HasAny paintMarks && Node.paintCleanList cs
/-- Every tree of the list is `Node.paintClean`. -/
def Node.paintCleanList : List Node → Bool
  | [] => true
  | c :: cs => Node.paintClean c && Node.paintCleanList cs
end

/-- No node of the compositor tree (root, layers, descendants) carries NeedsPaint or
ChildNeedsPaint. -/
def MultiLayer.paintClean (ml : MultiLayer) : Bool :=
  ml.toNode.paintClean

/-- Some node of the list carries NeedsPaint or ChildNeedsPaint. -/
def anyPaintMarked (cs : List Node) : Bool :=
  cs.any (fun c => c.Marks.HasAny paintMarks)

mutual
/-- The upward half of the paint-mark invariant of the data model, on a whole tree: every
node that has a child carrying NeedsPaint or ChildNeedsPaint carries ChildNeedsPaint
(so every marked node is reachable by the pruned traversal from the root of the tree,
once that root is marked). -/
def Node.paintClosed : Node → Bool
  | .mk _ m cs => (!anyPaintMarked cs || m.ChildNeedsPaint) && Node.paintClosedList cs
/-- Every tree of the list is `Node.paintClosed`. -/
def Node.paintClosedList : List Node → Bool
  | [] => true
  | c :: cs => Node.paintClosed c && Node.paintClosedList cs
end

/-- The upward half of the paint-mark invariant on the compositor tree. -/
def MultiLayer.paintClosed (ml : MultiLayer) : Bool :=
  ml.toNode.paintClosed

/-- The bounds used for the root and the layers in the examples. -/
def screen : Rectangle := Rect 0 0 100 100

/-- Example: no paint mark anywhere; the background has the childless child B with bounds
(0,0,10,10); the context layer has the visible overlay F with bounds (2,2,8,8). -/
def sampleCleanOverlay : MultiLayer :=
  ⟨screen, Marks.none,
    Node.mk screen Marks.none [leaf (Rect 0 0 10 10) Marks.none],
    leaf screen Marks.none,
    Node.mk screen Marks.none [leaf (Rect 2 2 8 8) Marks.none],
    leaf screen Marks.none⟩

/-- The index of a float layer among the children of the root (see `MultiLayer.layers`). -/
def FloatLayer.index : FloatLayer → Nat
  | .Context => 2
  | .Menu => 3

/-- The child of index `i` of the float layer `fl` carries NeedsPaint and the float layer
carries ChildNeedsPaint. -/
def FloatChildMarked (ml : MultiLayer) (fl : FloatLayer) (i : Nat) : Prop :=
  ∃ c, (ml.floatLayer fl).childs[i]? = some c ∧ c.Marks.NeedsPaint = true ∧
    (ml.floatLayer fl).Marks.ChildNeedsPaint = true

/-- Example (overlay forcing): the background child A with bounds (0,0,10,10) has been
marked with `MarkNeedsPaint` (A carries NeedsPaint, the background layer and the root
carry ChildNeedsPaint), nothing else is marked, and the context layer has the visible
overlay F with bounds (5,5,15,15). -/
def sampleOverlayForcing : MultiLayer :=
  ⟨screen, MarkChildNeedsPaint,
    Node.mk screen MarkChildNeedsPaint [leaf (Rect 0 0 10 10) MarkNeedsPaint],
    leaf screen Marks.none,
    Node.mk screen Marks.none [leaf (Rect 5 5 15 15) Marks.none],
    leaf screen Marks.none⟩

/-- Example (two overlays): the background has the children A (0,0,10,10), marked with
`MarkNeedsPaint`, and B (10,0,30,10), unmarked; the context layer has the visible overlays
n1 (20,0,25,5), which lies over B only, and n2 (5,0,15,5), which lies over A and B, in
this order. -/
def sampleTwoOverlays : MultiLayer :=
  ⟨screen, MarkChildNeedsPaint,
    Node.mk screen MarkChildNeedsPaint
      [leaf (Rect 0 0 10 10) MarkNeedsPaint, leaf (Rect 10 0 30 10) Marks.none],
    leaf screen Marks.none,
    Node.mk screen Marks.none
      [leaf (Rect 20 0 25 5) Marks.none, leaf (Rect 5 0 15 5) Marks.none],
    leaf screen Marks.none⟩

/-- What a call on a closed `node` does: the node stays closed. -/
def MarkClosedSpec (r : Rectangle) (node : Node) : Prop :=
  ∀ parents : List Marks, node.paintClosed = true →
    (markIntersectingNodesNotNeedingPaint node parents r).1.paintClosed = true

/-- The list `cs` with `h` inserted at position `k` (at the end when `cs` is shorter). -/
def insertAt (k : Nat) (h : Node) (cs : List Node) : List Node :=
  match k, cs with
  | 0, cs => h :: cs
  | _ + 1, [] => [h]
  | k + 1, x :: xs => x :: insertAt k h xs

/-- The index, after the insertion of a node at position `k`, of the node that had
index `i`. -/
def shiftIndex (k i : Nat) : Nat :=
  if i < k then i else i + 1

/-- The compositor with the node `h` inserted as the child of index `k` of the float
layer `fl`. -/
def MultiLayer.insertFloatChild (ml : MultiLayer) (fl : FloatLayer) (k : Nat) (h : Node) :
    MultiLayer :=
  ml.setFloatLayer fl
    (Node.mk (ml.floatLayer fl).Bounds (ml.floatLayer fl).Marks
      (insertAt k h (ml.floatLayer fl).childs))

/-- The compositor with the child of index `k` removed from the float layer `fl`. -/
def MultiLayer.removeFloatChild (ml : MultiLayer) (fl : FloatLayer) (k : Nat) : MultiLayer :=
  ml.setFloatLayer fl
    (Node.mk (ml.floatLayer fl).Bounds (ml.floatLayer fl).Marks
      ((ml.floatLayer fl).childs.eraseIdx k))

/-- Example (hidden overlay): the background child A with bounds (0,0,10,10) has been
marked with `MarkNeedsPaint`; the only child of the context layer overlaps A but carries
ForceZeroBounds. -/
def sampleHiddenOverlay : MultiLayer :=
  ⟨screen, MarkChildNeedsPaint,
    Node.mk screen MarkChildNeedsPaint [leaf (Rect 0 0 10 10) MarkNeedsPaint],
    leaf screen Marks.none,
    Node.mk screen Marks.none [leaf (Rect 5 5 15 15) MarkForceZeroBounds],
    leaf screen Marks.none⟩

/-! ## Construction and insertion -/

/-- Source `MultiLayer.InsertBefore(col, next)`: the body is a `panic`, modelled as the
error result carrying the panic message; no compositor state is produced. `next` is a
reference to a child (its path) or `none` for nil. -/
def MultiLayer.InsertBefore (_ml : MultiLayer) (_col : Node) (_next : Option Path) :
    Except String MultiLayer :=
  Except.error "nodes should be inserted into one of the layers directly"

/-- Modelled from the spec: `ENode.InsertBefore(n, next)` on a child list (not among the
sources): the children are an ordered sequence, first child at the bottom; with `next`
nil the node becomes the last child, otherwise it is put before the child of index
`next`. -/
def ENode.InsertBefore {α : Type} (childs : List α) (n : α) (next : Option Nat) : List α :=
  match next with
  | Option.none => childs ++ [n]
  | some k => childs.take k ++ n :: childs.drop k

/-- A layer object allocated by `NewMultiLayer`: its embedded `ENode` and, for `BgLayer`
and `FloatLayer`, the field `ml` (an address, `none` when the type has no such field,
as for the separator, which is a plain `ENode`). -/
structure LayerObject where
  ENode : Node
  ml : Option Nat
deriving Repr

/-- The `MultiLayer` object while `NewMultiLayer` runs, with its pointers explicit: the
child list of the embedded root `ENode` holds references to layers, the four named
fields are pointers (`none` is nil) and `layers` is the slice of references. -/
structure Construction where
  rootChilds : List Layer
  BgLayer : Option LayerObject
  SeparatorLayer : Option LayerObject
  ContextLayer : Option LayerObject
  MenuLayer : Option LayerObject
  layers : List Layer
deriving Repr

/-- The object a layer reference points to. -/
def Construction.get (c : Construction) : Layer → Option LayerObject
  | Layer.Bg => c.BgLayer
  | Layer.Separator => c.SeparatorLayer
  | Layer.Float FloatLayer.Context => c.ContextLayer
  | Layer.Float FloatLayer.Menu => c.MenuLayer

/-- The call `u.Embed().Marks.Add(m)` on the object the reference `u` points to. -/
def Construction.addMark (c : Construction) (u : Layer) (m : Marks) : Construction :=
  let f : Option LayerObject → Option LayerObject :=
    fun o => o.map (fun x => { x with ENode := x.ENode.setMarks (x.ENode.Marks.Add m) })
  match u with
  | Layer.Bg => { c with BgLayer := f c.BgLayer }
  | Layer.Separator => { c with SeparatorLayer := f c.SeparatorLayer }
  | Layer.Float FloatLayer.Context => { c with ContextLayer := f c.ContextLayer }
  | Layer.Float FloatLayer.Menu => { c with MenuLayer := f c.MenuLayer }

/-- Source `NewMultiLayer`, for a compositor allocated at the address `self`: the four
layer objects are allocated with zero-valued nodes (the back-references set to `self`),
`layers` is filled in order, and each non-nil entry is inserted at the end of the child
list of the root and given `MarkNotDraggable`. -/
def NewMultiLayer (self : Nat) : Construction :=
  let zero : Node := Node.mk ZR Marks.none []
  let ml : Construction :=
    { rootChilds := []
      BgLayer := some ⟨zero, some self⟩
      SeparatorLayer := some ⟨zero, Option.none⟩
      ContextLayer := some ⟨zero, some self⟩
      MenuLayer := some ⟨zero, some self⟩
      -- order matters
      layers := [Layer.Bg, Layer.Separator, Layer.Float FloatLayer.Context,
        Layer.Float FloatLayer.Menu] }
  ml.layers.foldl
    (fun ml u =>
      match ml.get u with
      | Option.none => ml
      | some _ =>
        let ml1 := { ml with rootChilds := ENode.InsertBefore ml.rootChilds u Option.none }
        -- allow drag events to fall through to lower layers nodes
        ml1.addMark u MarkNotDraggable)
    ml

/-- The compositor value built by a finished construction: the root is zero-valued and its
children are the objects its child list refers to; defined when that list is the four
layers in the order of `MultiLayer.layers` and no pointer is nil. -/
def Construction.toMultiLayer (c : Construction) : Option MultiLayer :=
  if c.rootChilds = MultiLayer.layers then
    match c.BgLayer, c.SeparatorLayer, c.ContextLayer, c.MenuLayer with
    | some bg, some sep, some ctx, some menu =>
      some ⟨ZR, Marks.none, bg.ENode, sep.ENode, ctx.ENode, menu.ENode⟩
    | _, _, _, _ => Option.none
  else Option.none

/-! ## The layout hook of a float layer -/

/-- Modelled from the spec: the upward walk of `EmbedNode.MarkNeedsLayout` (not among the
sources): ChildNeedsLayout is set on each ancestor, nearest first, until an ancestor that
already carries the flag is reached. -/
def markUpLayout : List Marks → List Marks
  | [] => []
  | m :: ms =>
    if m.HasAny MarkChildNeedsLayout then m :: ms
    else m.Add MarkChildNeedsLayout :: markUpLayout ms

/-- Modelled from the spec: `EmbedNode.MarkNeedsLayout` (not among the sources): the node
gets NeedsLayout and the walk `markUpLayout` runs over its ancestors. -/
def EmbedNode.MarkNeedsLayout (en : Node) (parents : List Marks) : Node × List Marks :=
  (en.setMarks (en.Marks.Add Widget.MarkNeedsLayout), markUpLayout parents)

/-- The call `fl.MarkNeedsLayout()` on a float layer, whose only ancestor is the root. -/
def FloatLayer.MarkNeedsLayout (ml : MultiLayer) (fl : FloatLayer) : MultiLayer :=
  let res := EmbedNode.MarkNeedsLayout (ml.floatLayer fl) [ml.Marks]
  let ml1 := ml.setFloatLayer fl res.1
  { ml1 with Marks := res.2.getD 0 ml.Marks }

/-- Source `FloatLayer.OnChildMarked(child, newMarks)`; `child` is the index of the
child. -/
def FloatLayer.OnChildMarked (ml : MultiLayer) (fl : FloatLayer) (_child : Nat)
    (newMarks : Marks) : MultiLayer :=
  if newMarks.HasAny (Widget.MarkNeedsLayout.Add MarkChildNeedsLayout) then
    FloatLayer.MarkNeedsLayout ml fl
  else ml

/-- Where a call on `node` can add NeedsPaint: a strict descendant `d` (reached by the
non-empty path `p`) that gains NeedsPaint overlaps `r`, and every node strictly between
`node` and `d` (reached by a non-empty proper initial part `q` of `p`) contains `r`. -/
def MarkWithinSpec (r : Rectangle) (node : Node) : Prop :=
  ∀ (parents : List Marks) (p : Path) (d d2 : Node), p ≠ [] →
    node.descend p = some d →
    (markIntersectingNodesNotNeedingPaint node parents r).1.descend p = some d2 →
    d.Marks.NeedsPaint = false → d2.Marks.NeedsPaint = true →
    d.Bounds.Overlaps r = true ∧
    ∀ (q t : Path) (x : Node), q ≠ [] → t ≠ [] → p = q ++ t → node.descend q = some x →
      r.In x.Bounds = true

mutual
/-- Some strict descendant of the node carries NeedsPaint or ChildNeedsPaint. -/
def Node.anyDescendantMarked : Node → Bool
  | .mk _ _ cs => Node.anyDescendantMarkedList cs
/-- Some node of the list, or some descendant of one, carries NeedsPaint or
ChildNeedsPaint. -/
def Node.anyDescendantMarkedList : List Node → Bool
  | [] => false
  | c :: cs =>
    c.Marks.HasAny paintMarks || Node.anyDescendantMarked c || Node.anyDescendantMarkedList cs
end

mutual
/-- The paint-mark invariant of the data model on a whole tree: every node carries
ChildNeedsPaint if and only if at least one of its strict descendants carries NeedsPaint
or ChildNeedsPaint. -/
def Node.paintInvariant : Node → Bool
  | .mk _ m cs =>
    (m.ChildNeedsPaint == Node.anyDescendantMarkedList cs) && Node.paintInvariantList cs
/-- Every tree of the list satisfies `Node.paintInvariant`. -/
def Node.paintInvariantList : List Node → Bool
  | [] => true
  | c :: cs => Node.paintInvariant c && Node.paintInvariantList cs
end

/-- The paint-mark invariant on the compositor tree. -/
def MultiLayer.paintInvariant (ml : MultiLayer) : Bool :=
  ml.toNode.paintInvariant

mutual
/-- The downward half of the paint-mark invariant, on a whole tree: every node that
carries ChildNeedsPaint has a child carrying NeedsPaint or ChildNeedsPaint. -/
def Node.paintSupported : Node → Bool
  | .mk _ m cs => (!m.ChildNeedsPaint || anyPaintMarked cs) && Node.paintSupportedList cs
/-- Every tree of the list is `Node.paintSupported`. -/
def Node.paintSupportedList : List Node → Bool
  | [] => true
  | c :: cs => Node.paintSupported c && Node.paintSupportedList cs
end

/-- The downward half of the paint-mark invariant on the compositor tree. -/
def MultiLayer.paintSupported (ml : MultiLayer) : Bool :=
  ml.toNode.paintSupported

/-- What a call on a supported `node` does: the node stays supported. -/
def MarkSupportedSpec (r : Rectangle) (node : Node) : Prop :=
  ∀ parents : List Marks, node.paintSupported = true →
    (markIntersectingNodesNotNeedingPaint node parents r).1.paintSupported = true

/-- Example (overlay chain): the background has the children A (0,0,10,10), marked with
`MarkNeedsPaint`, and B (10,0,30,10), unmarked; the context layer has the visible overlay
n (5,0,15,5), which lies over A and B; the menu layer has the visible overlay g
(20,0,25,5), which lies over B only. -/
def sampleOverlayChain : MultiLayer :=
  ⟨screen, MarkChildNeedsPaint,
    Node.mk screen MarkChildNeedsPaint
      [leaf (Rect 0 0 10 10) MarkNeedsPaint, leaf (Rect 10 0 30 10) Marks.none],
    leaf screen Marks.none,
    Node.mk screen Marks.none [leaf (Rect 5 0 15 5) Marks.none],
    Node.mk screen Marks.none [leaf (Rect 20 0 25 5) Marks.none]⟩

end Widget

/-! # Lemmas and theorems -/

namespace Widget

/-! ## Marks and nodes -/

@[simp] theorem Marks.hasAny_needsPaint (m : Marks) : m.HasAny MarkNeedsPaint = m.NeedsPaint := by
  simp [Marks.HasAny, MarkNeedsPaint]

@[simp] theorem Marks.hasAny_childNeedsPaint (m : Marks) :
    m.HasAny MarkChildNeedsPaint = m.ChildNeedsPaint := by
  simp [Marks.HasAny, MarkChildNeedsPaint]

@[simp] theorem Marks.hasAny_forceZeroBounds (m : Marks) :
    m.HasAny MarkForceZeroBounds = m.ForceZeroBounds := by
  simp [Marks.HasAny, MarkForceZeroBounds]

@[simp] theorem Marks.hasAny_paintMarks (m : Marks) :
    m.HasAny paintMarks = (m.NeedsPaint || m.ChildNeedsPaint) := by
  simp [Marks.HasAny, paintMarks, MarkNeedsPaint, MarkChildNeedsPaint, Marks.Add]

@[simp] theorem node_Bounds_mk (b : Rectangle) (m : Marks) (cs : List Node) :
    (Node.mk b m cs).Bounds = b := rfl
@[simp] theorem node_Marks_mk (b : Rectangle) (m : Marks) (cs : List Node) :
    (Node.mk b m cs).Marks = m := rfl
@[simp] theorem node_childs_mk (b : Rectangle) (m : Marks) (cs : List Node) :
    (Node.mk b m cs).childs = cs := rfl

theorem node_eta (n : Node) : Node.mk n.Bounds n.Marks n.childs = n := by
  cases n; rfl

theorem intersecting_iter_cons (c : Node) (rest : List Node) (r : Rectangle) :
    intersectingNodeNeedingPaintExists.iter (c :: rest) r =
      ((c.Bounds.Overlaps r &&
          (c.Marks.NeedsPaint ||
            (c.Marks.ChildNeedsPaint && intersectingNodeNeedingPaintExists c r))) ||
        intersectingNodeNeedingPaintExists.iter rest r) := by
  rw [intersectingNodeNeedingPaintExists.iter]
  cases h1 : c.Bounds.Overlaps r <;> cases h2 : c.Marks.NeedsPaint <;>
    cases h3 : c.Marks.ChildNeedsPaint <;> simp [h1, h2, h3]

theorem intersecting_node (node : Node) (r : Rectangle) :
    intersectingNodeNeedingPaintExists node r =
      intersectingNodeNeedingPaintExists.iter node.childs r := by
  cases node; rw [intersectingNodeNeedingPaintExists]; rfl

theorem pendingDescendant_iff (r : Rectangle) (node : Node) :
    PendingDescendant r node ↔ ∃ c ∈ node.childs, PendingChild r c := by
  constructor
  · intro h
    cases h with
    | direct _ d hd hn ho => exact ⟨d, hd, ho, Or.inl hn⟩
    | deeper _ c hc ho hn hp => exact ⟨c, hc, ho, Or.inr ⟨hn, hp⟩⟩
  · rintro ⟨c, hc, ho, h | ⟨hn, hp⟩⟩
    · exact PendingDescendant.direct node c hc h ho
    · exact PendingDescendant.deeper node c hc ho hn hp

mutual
theorem intersecting_iff (node : Node) (r : Rectangle) :
    intersectingNodeNeedingPaintExists node r = true ↔ PendingDescendant r node := by
  match node with
  | .mk b m cs =>
    rw [intersecting_node, pendingDescendant_iff]
    exact intersecting_iter_iff cs r
theorem intersecting_iter_iff (cs : List Node) (r : Rectangle) :
    intersectingNodeNeedingPaintExists.iter cs r = true ↔ ∃ c ∈ cs, PendingChild r c := by
  match cs with
  | [] => simp [intersectingNodeNeedingPaintExists.iter]
  | c :: rest =>
    have ih1 := intersecting_iff c r
    have ih2 := intersecting_iter_iff rest r
    rw [intersecting_iter_cons]
    simp only [Bool.or_eq_true, Bool.and_eq_true, ih1, ih2, List.mem_cons, exists_eq_or_imp,
      PendingChild]
end

theorem pendingDescendant_iff_path (r : Rectangle) (node : Node) :
    PendingDescendant r node ↔
      ∃ (mids : List Node) (d : Node), IsChildPath node mids d ∧
        d.Marks.NeedsPaint = true ∧ d.Bounds.Overlaps r = true ∧
        ∀ c ∈ mids, c.Bounds.Overlaps r = true ∧ c.Marks.ChildNeedsPaint = true := by
  constructor
  · intro h
    induction h with
    | direct node d hd hn ho => exact ⟨[], d, hd, hn, ho, by simp⟩
    | deeper node c hc ho hn _ ih =>
      obtain ⟨mids, d, hp, h1, h2, h3⟩ := ih
      refine ⟨c :: mids, d, ⟨hc, hp⟩, h1, h2, ?_⟩
      intro x hx
      rcases List.mem_cons.mp hx with rfl | hx
      · exact ⟨ho, hn⟩
      · exact h3 x hx
  · rintro ⟨mids, d, hp, h1, h2, h3⟩
    induction mids generalizing node with
    | nil => exact PendingDescendant.direct node d hp h1 h2
    | cons c rest ih =>
      obtain ⟨hc, hp⟩ := hp
      have hc2 := h3 c (List.mem_cons_self _ _)
      exact PendingDescendant.deeper node c hc hc2.1 hc2.2
        (ih c hp (fun x hx => h3 x (List.mem_cons_of_mem _ hx)))

theorem intersecting_iter_skip (pre : List Node) (c : Node) (post : List Node) (r : Rectangle)
    (h : c.Bounds.Overlaps r = false ∨
      (c.Marks.NeedsPaint = false ∧ c.Marks.ChildNeedsPaint = false)) :
    intersectingNodeNeedingPaintExists.iter (pre ++ c :: post) r =
      intersectingNodeNeedingPaintExists.iter (pre ++ post) r := by
  induction pre with
  | nil =>
    rw [List.nil_append, List.nil_append, intersecting_iter_cons]
    rcases h with h | ⟨h1, h2⟩
    · simp [h]
    · simp [h1, h2]
  | cons p pre ih =>
    rw [List.cons_append, List.cons_append, intersecting_iter_cons, intersecting_iter_cons, ih]

/-- C5: `intersectingNodeNeedingPaintExists(node, r)` is true exactly when `node` has a
strict descendant `d` that carries NeedsPaint and overlaps `r`, every node strictly between
`node` and `d` overlapping `r` and carrying ChildNeedsPaint. A child that does not overlap
`r`, or that overlaps but carries neither NeedsPaint nor ChildNeedsPaint, can be removed
together with its subtree without changing the result (it is never descended into and
never makes the result true). The function only returns a boolean: it changes no mark. -/
theorem C5_intersectingNodeNeedingPaintExists_spec (node : Node) (r : Rectangle) :
    (intersectingNodeNeedingPaintExists node r = true ↔
      ∃ (mids : List Node) (d : Node), IsChildPath node mids d ∧
        d.Marks.NeedsPaint = true ∧ d.Bounds.Overlaps r = true ∧
        ∀ c ∈ mids, c.Bounds.Overlaps r = true ∧ c.Marks.ChildNeedsPaint = true) ∧
    (∀ (pre : List Node) (c : Node) (post : List Node),
      node.childs = pre ++ c :: post →
      (c.Bounds.Overlaps r = false ∨
        (c.Marks.NeedsPaint = false ∧ c.Marks.ChildNeedsPaint = false)) →
      intersectingNodeNeedingPaintExists node r =
        intersectingNodeNeedingPaintExists (Node.mk node.Bounds node.Marks (pre ++ post)) r) := by
  refine ⟨?_, ?_⟩
  · rw [intersecting_iff, pendingDescendant_iff_path]
  · intro pre c post hcs h
    rw [intersecting_node, intersecting_node, hcs, node_childs_mk]
    exact intersecting_iter_skip pre c post r h

/-- Witness for C5 -/
theorem C5_witness :
    intersectingNodeNeedingPaintExists
      (Node.mk (Rect 0 0 20 20) MarkChildNeedsPaint
        [Node.mk (Rect 12 12 20 20) MarkNeedsPaint [],
         Node.mk (Rect 0 0 10 10) MarkChildNeedsPaint
           [Node.mk (Rect 0 0 5 5) MarkNeedsPaint []]]) (Rect 1 1 3 3) =
    intersectingNodeNeedingPaintExists
      (Node.mk (Rect 0 0 20 20) MarkChildNeedsPaint
        [Node.mk (Rect 0 0 10 10) MarkChildNeedsPaint
           [Node.mk (Rect 0 0 5 5) MarkNeedsPaint []]]) (Rect 1 1 3 3) :=
  (C5_intersectingNodeNeedingPaintExists_spec
    (Node.mk (Rect 0 0 20 20) MarkChildNeedsPaint
        [Node.mk (Rect 12 12 20 20) MarkNeedsPaint [],
         Node.mk (Rect 0 0 10 10) MarkChildNeedsPaint
           [Node.mk (Rect 0 0 5 5) MarkNeedsPaint []]]) (Rect 1 1 3 3)).2
    [] (Node.mk (Rect 12 12 20 20) MarkNeedsPaint []) _ rfl (Or.inl (by decide))

theorem Rectangle.empty_iff (r : Rectangle) :
    r.Empty = true ↔ (r.Max.X ≤ r.Min.X ∨ r.Max.Y ≤ r.Min.Y) := by
  simp [Rectangle.Empty]

theorem Rectangle.empty_false_iff (r : Rectangle) :
    r.Empty = false ↔ (r.Min.X < r.Max.X ∧ r.Min.Y < r.Max.Y) := by
  rw [← Bool.not_eq_true, Rectangle.empty_iff]; omega

theorem ZR_empty : ZR.Empty = true := by decide

@[simp] theorem ZR_union (s : Rectangle) : ZR.Union s = s := by
  simp [Rectangle.Union, ZR_empty]

theorem Rectangle.union_empty_right (r s : Rectangle) (hr : r.Empty = false)
    (hs : s.Empty = true) : r.Union s = r := by
  simp [Rectangle.Union, hr, hs]

theorem Rectangle.union_nonempty_left (r s : Rectangle) (hr : r.Empty = false) :
    (r.Union s).Empty = false := by
  cases hs : s.Empty
  · rw [Rectangle.empty_false_iff] at hr hs ⊢
    simp only [Rectangle.Union, (Rectangle.empty_false_iff r).mpr hr,
      (Rectangle.empty_false_iff s).mpr hs]
    simp only [Bool.false_eq_true, if_false]
    split_ifs <;> omega
  · rw [Rectangle.union_empty_right r s hr hs]; exact hr

theorem Rectangle.union_nonempty_right (r s : Rectangle) (hs : s.Empty = false) :
    (r.Union s).Empty = false := by
  cases hr : r.Empty
  · exact Rectangle.union_nonempty_left r s hr
  · simp [Rectangle.Union, hr, hs]

theorem Rectangle.union_assoc (a b c : Rectangle) :
    (a.Union b).Union c = a.Union (b.Union c) := by
  cases ha : a.Empty
  · cases hb : b.Empty
    · cases hc : c.Empty
      · have hab := Rectangle.union_nonempty_left a b ha
        have hbc := Rectangle.union_nonempty_left b c hb
        rw [Rectangle.Union, if_neg (by simp [hab]), if_neg (by simp [hc])]
        conv_rhs => rw [Rectangle.Union, if_neg (by simp [ha]), if_neg (by simp [hbc])]
        simp only [Rectangle.Union, ha, hb, hc, Bool.false_eq_true, if_false,
          Rectangle.mk.injEq, Point.mk.injEq]
        refine ⟨⟨?_, ?_⟩, ⟨?_, ?_⟩⟩ <;> split_ifs <;> omega
      · rw [Rectangle.union_empty_right _ c (Rectangle.union_nonempty_left a b ha) hc,
          Rectangle.union_empty_right b c hb hc]
    · have h1 : a.Union b = a := Rectangle.union_empty_right a b ha hb
      have h2 : b.Union c = c := by simp [Rectangle.Union, hb]
      rw [h1, h2]
  · have h1 : a.Union b = b := by simp [Rectangle.Union, ha]
    have h2 : ∀ s, a.Union s = s := by intro s; simp [Rectangle.Union, ha]
    rw [h1, h2]

/-- A rectangle that is either non-empty or the zero rectangle. -/
theorem Rectangle.union_ZR (r : Rectangle) (h : r.Empty = true → r = ZR) : r.Union ZR = r := by
  cases hr : r.Empty
  · exact Rectangle.union_empty_right r ZR hr ZR_empty
  · rw [h hr]; rfl

theorem Rectangle.overlaps_nonempty_left (r s : Rectangle) (h : r.Overlaps s = true) :
    r.Empty = false := by
  simp only [Rectangle.Overlaps, Bool.and_eq_true, Bool.not_eq_true'] at h
  exact h.1.1.1.1.1

theorem Rectangle.overlaps_nonempty_right (r s : Rectangle) (h : r.Overlaps s = true) :
    s.Empty = false := by
  simp only [Rectangle.Overlaps, Bool.and_eq_true, Bool.not_eq_true'] at h
  exact h.1.1.1.1.2

theorem Rectangle.in_ZR (r : Rectangle) (h : r.Empty = false) : r.In ZR = false := by
  rw [Rectangle.empty_false_iff] at h
  simp only [Rectangle.In, (Rectangle.empty_false_iff r).mpr h, ZR]
  simp only [Bool.false_eq_true, if_false, Bool.and_eq_false_imp, Bool.and_eq_true,
    decide_eq_true_eq, decide_eq_false_iff_not]
  omega

theorem Rectangle.in_of_empty (r s : Rectangle) (h : r.Empty = true) : r.In s = true := by
  simp [Rectangle.In, h]

theorem Rectangle.in_iff (r s : Rectangle) (h : r.Empty = false) :
    r.In s = true ↔ (s.Min.X ≤ r.Min.X ∧ r.Max.X ≤ s.Max.X ∧ s.Min.Y ≤ r.Min.Y ∧
      r.Max.Y ≤ s.Max.Y) := by
  simp [Rectangle.In, h, and_assoc]

theorem Rectangle.in_union_left (t a b : Rectangle) (h : t.In a = true) :
    t.In (a.Union b) = true := by
  cases ht : t.Empty
  · rw [Rectangle.in_iff t a ht] at h
    have ht2 := (Rectangle.empty_false_iff t).mp ht
    have ha : a.Empty = false := by rw [Rectangle.empty_false_iff]; omega
    cases hb : b.Empty
    · rw [Rectangle.in_iff _ _ ht]
      simp only [Rectangle.Union, ha, hb, Bool.false_eq_true, if_false]
      refine ⟨?_, ?_, ?_, ?_⟩ <;> split_ifs <;> omega
    · rw [Rectangle.union_empty_right a b ha hb, Rectangle.in_iff _ _ ht]; exact h
  · exact Rectangle.in_of_empty _ _ ht

theorem Rectangle.in_union_right (t a b : Rectangle) (h : t.In b = true) :
    t.In (a.Union b) = true := by
  cases ht : t.Empty
  · rw [Rectangle.in_iff t b ht] at h
    have ht2 := (Rectangle.empty_false_iff t).mp ht
    have hb : b.Empty = false := by rw [Rectangle.empty_false_iff]; omega
    cases ha : a.Empty
    · rw [Rectangle.in_iff _ _ ht]
      simp only [Rectangle.Union, ha, hb, Bool.false_eq_true, if_false]
      refine ⟨?_, ?_, ?_, ?_⟩ <;> split_ifs <;> omega
    · have : a.Union b = b := by simp [Rectangle.Union, ha]
      rw [this, Rectangle.in_iff _ _ ht]; exact h
  · exact Rectangle.in_of_empty _ _ ht

theorem Rectangle.in_refl (t : Rectangle) : t.In t = true := by
  cases ht : t.Empty
  · rw [Rectangle.in_iff _ _ ht]; omega
  · exact Rectangle.in_of_empty _ _ ht

/-! ## Growth of marks -/

theorem marks_paintGrows_refl (m : Marks) : Marks.PaintGrows m m :=
  ⟨id, id, rfl, rfl, rfl, rfl⟩

theorem marks_paintGrows_trans {a b c : Marks} (h1 : Marks.PaintGrows a b)
    (h2 : Marks.PaintGrows b c) : Marks.PaintGrows a c :=
  ⟨fun h => h2.1 (h1.1 h), fun h => h2.2.1 (h1.2.1 h), h2.2.2.1.trans h1.2.2.1,
    h2.2.2.2.1.trans h1.2.2.2.1, h2.2.2.2.2.1.trans h1.2.2.2.2.1,
    h2.2.2.2.2.2.trans h1.2.2.2.2.2⟩

theorem Marks.paintGrows_add_needsPaint (m : Marks) :
    Marks.PaintGrows m (m.Add MarkNeedsPaint) := by
  simp [Marks.PaintGrows, Marks.Add, MarkNeedsPaint]

theorem Marks.paintGrows_add_childNeedsPaint (m : Marks) :
    Marks.PaintGrows m (m.Add MarkChildNeedsPaint) := by
  simp [Marks.PaintGrows, Marks.Add, MarkChildNeedsPaint]

@[simp] theorem Marks.add_needsPaint_needsPaint (m : Marks) :
    (m.Add MarkNeedsPaint).NeedsPaint = true := by
  simp [Marks.Add, MarkNeedsPaint]

@[simp] theorem Marks.add_needsPaint_childNeedsPaint (m : Marks) :
    (m.Add MarkNeedsPaint).ChildNeedsPaint = m.ChildNeedsPaint := by
  simp [Marks.Add, MarkNeedsPaint]

@[simp] theorem Marks.add_childNeedsPaint_childNeedsPaint (m : Marks) :
    (m.Add MarkChildNeedsPaint).ChildNeedsPaint = true := by
  simp [Marks.Add, MarkChildNeedsPaint]

@[simp] theorem Marks.add_childNeedsPaint_needsPaint (m : Marks) :
    (m.Add MarkChildNeedsPaint).NeedsPaint = m.NeedsPaint := by
  simp [Marks.Add, MarkChildNeedsPaint]

theorem Marks.add_childNeedsPaint_of (m : Marks) (h : m.ChildNeedsPaint = true) :
    m.Add MarkChildNeedsPaint = m := by
  cases m; simp_all [Marks.Add, MarkChildNeedsPaint]

mutual
theorem Node.paintGrows_refl (n : Node) : Node.PaintGrows n n := by
  match n with
  | .mk b m cs =>
    rw [Node.PaintGrows]
    exact ⟨rfl, marks_paintGrows_refl m, Node.paintGrowsList_refl cs⟩
theorem Node.paintGrowsList_refl (cs : List Node) : Node.PaintGrowsList cs cs := by
  match cs with
  | [] => rw [Node.PaintGrowsList]; trivial
  | c :: rest =>
    rw [Node.PaintGrowsList]
    exact ⟨Node.paintGrows_refl c, Node.paintGrowsList_refl rest⟩
end

mutual
theorem Node.paintGrows_trans (a b c : Node) (h1 : Node.PaintGrows a b)
    (h2 : Node.PaintGrows b c) : Node.PaintGrows a c := by
  match a, b, c with
  | .mk b1 m1 cs1, .mk b2 m2 cs2, .mk b3 m3 cs3 =>
    rw [Node.PaintGrows] at h1 h2 ⊢
    exact ⟨h2.1.trans h1.1, marks_paintGrows_trans h1.2.1 h2.2.1,
      Node.paintGrowsList_trans cs1 cs2 cs3 h1.2.2 h2.2.2⟩
theorem Node.paintGrowsList_trans (a b c : List Node) (h1 : Node.PaintGrowsList a b)
    (h2 : Node.PaintGrowsList b c) : Node.PaintGrowsList a c := by
  match a, b, c with
  | [], [], [] => rw [Node.PaintGrowsList]; trivial
  | x :: a, y :: b, z :: c =>
    rw [Node.PaintGrowsList] at h1 h2 ⊢
    exact ⟨Node.paintGrows_trans x y z h1.1 h2.1, Node.paintGrowsList_trans a b c h1.2 h2.2⟩
  | [], [], _ :: _ => rw [Node.PaintGrowsList] at h2; exact h2.elim
  | [], _ :: _, _ => rw [Node.PaintGrowsList] at h1; exact h1.elim
  | _ :: _, [], _ => rw [Node.PaintGrowsList] at h1; exact h1.elim
  | _ :: _, _ :: _, [] => rw [Node.PaintGrowsList] at h2; exact h2.elim
end

theorem Node.paintGrows_iff (n1 n2 : Node) :
    Node.PaintGrows n1 n2 ↔ n2.Bounds = n1.Bounds ∧
      Widget.Marks.PaintGrows n1.Marks n2.Marks ∧
      Node.PaintGrowsList n1.childs n2.childs := by
  cases n1; cases n2; rw [Node.PaintGrows]; rfl

theorem Node.paintGrows_setMarks (n : Node) (m : Widget.Marks)
    (h : Widget.Marks.PaintGrows n.Marks m) :
    Node.PaintGrows n (n.setMarks m) := by
  cases n
  rw [Node.setMarks, Node.PaintGrows]
  exact ⟨rfl, h, Node.paintGrowsList_refl _⟩

/-! ## The upward walk -/

theorem markUp_length (l : List Marks) : (markUp l).length = l.length := by
  induction l with
  | nil => rfl
  | cons m ms ih =>
    rw [markUp]; split
    · rfl
    · simp [ih]

theorem markUp_idem (l : List Marks) : markUp (markUp l) = markUp l := by
  cases l with
  | nil => rfl
  | cons m ms =>
    by_cases h : m.HasAny MarkChildNeedsPaint = true
    · have : markUp (m :: ms) = m :: ms := by rw [markUp, if_pos h]
      rw [this, this]
    · have : markUp (m :: ms) = m.Add MarkChildNeedsPaint :: markUp ms := by
        rw [markUp, if_neg h]
      rw [this, markUp, if_pos (by simp)]

theorem markUp_grows (l : List Marks) : List.Forall₂ Marks.PaintGrows l (markUp l) := by
  induction l with
  | nil => exact List.Forall₂.nil
  | cons m ms ih =>
    rw [markUp]; split
    · exact List.Forall₂.cons (marks_paintGrows_refl m)
        (List.forall₂_same.mpr (fun x _ => marks_paintGrows_refl x))
    · exact List.Forall₂.cons (Marks.paintGrows_add_childNeedsPaint m) ih

theorem markUp_cons (m : Marks) (ms : List Marks) :
    markUp (m :: ms) =
      m.Add MarkChildNeedsPaint :: (if m.ChildNeedsPaint then ms else markUp ms) := by
  rw [markUp]
  by_cases h : m.ChildNeedsPaint = true
  · simp [h, Marks.add_childNeedsPaint_of m h]
  · simp [h]

/-! ## Unfolding `markIntersectingNodesNotNeedingPaint` -/

theorem markIntersecting_mk (b : Rectangle) (m : Marks) (cs : List Node)
    (parents : List Marks) (r : Rectangle) :
    markIntersectingNodesNotNeedingPaint (Node.mk b m cs) parents r =
      (Node.mk b ((markIntersectingNodesNotNeedingPaint.iter cs (m :: parents) r ZR).2.1.headD m)
          (markIntersectingNodesNotNeedingPaint.iter cs (m :: parents) r ZR).1,
        (markIntersectingNodesNotNeedingPaint.iter cs (m :: parents) r ZR).2.1.tail,
        (markIntersectingNodesNotNeedingPaint.iter cs (m :: parents) r ZR).2.2) := by
  rw [markIntersectingNodesNotNeedingPaint]

theorem markIntersecting_iter_nil (chain : List Marks) (r u : Rectangle) :
    markIntersectingNodesNotNeedingPaint.iter [] chain r u = ([], chain, u) := by
  rw [markIntersectingNodesNotNeedingPaint.iter]

theorem markIntersecting_iter_cons (c : Node) (rest : List Node) (chain : List Marks)
    (r u : Rectangle) :
    markIntersectingNodesNotNeedingPaint.iter (c :: rest) chain r u =
      ((markIntersectingNodesNotNeedingPaint.callback c chain r u).1 ::
          (markIntersectingNodesNotNeedingPaint.iter rest
            (markIntersectingNodesNotNeedingPaint.callback c chain r u).2.1 r
            (markIntersectingNodesNotNeedingPaint.callback c chain r u).2.2).1,
        (markIntersectingNodesNotNeedingPaint.iter rest
            (markIntersectingNodesNotNeedingPaint.callback c chain r u).2.1 r
            (markIntersectingNodesNotNeedingPaint.callback c chain r u).2.2).2.1,
        (markIntersectingNodesNotNeedingPaint.iter rest
            (markIntersectingNodesNotNeedingPaint.callback c chain r u).2.1 r
            (markIntersectingNodesNotNeedingPaint.callback c chain r u).2.2).2.2) := by
  rw [markIntersectingNodesNotNeedingPaint.iter]
  rfl

/-- The four ways the callback can go for a child. -/
theorem markIntersecting_callback_cases (c : Node) (chain : List Marks) (r u : Rectangle) :
    ((c.Bounds.Overlaps r = false ∨ c.Marks.NeedsPaint = true) ∧
      markIntersectingNodesNotNeedingPaint.callback c chain r u = (c, chain, u)) ∨
    (c.Bounds.Overlaps r = true ∧ c.Marks.NeedsPaint = false ∧ r.In c.Bounds = true ∧
      r.In (markIntersectingNodesNotNeedingPaint c chain r).2.2 = true ∧
      markIntersectingNodesNotNeedingPaint.callback c chain r u =
        ((markIntersectingNodesNotNeedingPaint c chain r).1,
          (markIntersectingNodesNotNeedingPaint c chain r).2.1,
          u.Union (markIntersectingNodesNotNeedingPaint c chain r).2.2)) ∨
    (c.Bounds.Overlaps r = true ∧ c.Marks.NeedsPaint = false ∧ r.In c.Bounds = true ∧
      r.In (markIntersectingNodesNotNeedingPaint c chain r).2.2 = false ∧
      markIntersectingNodesNotNeedingPaint.callback c chain r u =
        ((markIntersectingNodesNotNeedingPaint c chain r).1.setMarks
            ((markIntersectingNodesNotNeedingPaint c chain r).1.Marks.Add MarkNeedsPaint),
          markUp (markIntersectingNodesNotNeedingPaint c chain r).2.1,
          (u.Union (markIntersectingNodesNotNeedingPaint c chain r).2.2).Union c.Bounds)) ∨
    (c.Bounds.Overlaps r = true ∧ c.Marks.NeedsPaint = false ∧ r.In c.Bounds = false ∧
      markIntersectingNodesNotNeedingPaint.callback c chain r u =
        (c.setMarks (c.Marks.Add MarkNeedsPaint), markUp chain, u.Union c.Bounds)) := by
  unfold markIntersectingNodesNotNeedingPaint.callback
  cases h1 : c.Bounds.Overlaps r
  · simp
  · cases h2 : c.Marks.NeedsPaint
    · cases h3 : r.In c.Bounds
      · simp [EmbedNode.MarkNeedsPaint, h2]
      · cases h4 : r.In (markIntersectingNodesNotNeedingPaint c chain r).2.2
        · simp [EmbedNode.MarkNeedsPaint, h4, h2]
        · simp [h4, h2]
    · simp [h2]

/-! ## Induction over trees -/

mutual
theorem Node.induction {P : Node → Prop}
    (h : ∀ b m cs, (∀ c ∈ cs, P c) → P (Node.mk b m cs)) (n : Node) : P n :=
  match n with
  | .mk b m cs => h b m cs (Node.induction_list h cs)
theorem Node.induction_list {P : Node → Prop}
    (h : ∀ b m cs, (∀ c ∈ cs, P c) → P (Node.mk b m cs)) (cs : List Node) :
    ∀ c ∈ cs, P c :=
  match cs with
  | [] => fun _ hx => absurd hx (List.not_mem_nil _)
  | c :: rest => fun x hx =>
    (List.mem_cons.mp hx).elim (fun e => e ▸ Node.induction h c)
      (fun hx => Node.induction_list h rest x hx)
end

/-! ## Growth and the ancestor chain under `markIntersectingNodesNotNeedingPaint` -/

theorem markIntersecting_callback_grows (r : Rectangle) (c : Node) (ih : MarkNodeSpec r c)
    (chain : List Marks) (u : Rectangle) :
    Node.PaintGrows c (markIntersectingNodesNotNeedingPaint.callback c chain r u).1 ∧
    ((markIntersectingNodesNotNeedingPaint.callback c chain r u).2.1 = chain ∨
      (markIntersectingNodesNotNeedingPaint.callback c chain r u).2.1 = markUp chain) := by
  obtain ⟨hg, _, hc⟩ := ih chain
  rcases markIntersecting_callback_cases c chain r u with
    ⟨_, e⟩ | ⟨_, _, _, _, e⟩ | ⟨_, _, _, _, e⟩ | ⟨_, _, _, e⟩
  · rw [e]; exact ⟨Node.paintGrows_refl c, Or.inl rfl⟩
  · rw [e]; exact ⟨hg, hc⟩
  · rw [e]
    refine ⟨Node.paintGrows_trans _ _ _ hg
      (Node.paintGrows_setMarks _ _ (Marks.paintGrows_add_needsPaint _)), Or.inr ?_⟩
    rcases hc with hc | hc <;> simp only [hc, markUp_idem]
  · rw [e]
    exact ⟨Node.paintGrows_setMarks _ _ (Marks.paintGrows_add_needsPaint _), Or.inr rfl⟩

theorem markIntersecting_iter_grows (r : Rectangle) (cs : List Node)
    (ih : ∀ c ∈ cs, MarkNodeSpec r c) (chain : List Marks) (u : Rectangle) :
    Node.PaintGrowsList cs (markIntersectingNodesNotNeedingPaint.iter cs chain r u).1 ∧
    ((markIntersectingNodesNotNeedingPaint.iter cs chain r u).2.1 = chain ∨
      (markIntersectingNodesNotNeedingPaint.iter cs chain r u).2.1 = markUp chain) := by
  induction cs generalizing chain u with
  | nil =>
    rw [markIntersecting_iter_nil]
    exact ⟨by rw [Node.PaintGrowsList]; trivial, Or.inl rfl⟩
  | cons c rest ihl =>
    rw [markIntersecting_iter_cons]
    obtain ⟨hg, hc⟩ :=
      markIntersecting_callback_grows r c (ih c (List.mem_cons_self _ _)) chain u
    obtain ⟨hg2, hc2⟩ := ihl (fun x hx => ih x (List.mem_cons_of_mem _ hx))
      (markIntersectingNodesNotNeedingPaint.callback c chain r u).2.1
      (markIntersectingNodesNotNeedingPaint.callback c chain r u).2.2
    refine ⟨by rw [Node.PaintGrowsList]; exact ⟨hg, hg2⟩, ?_⟩
    rcases hc with hc | hc <;> rcases hc2 with hc2 | hc2
    · left; rw [hc2, hc]
    · right; rw [hc2, hc]
    · right; rw [hc2, hc]
    · right; rw [hc2, hc, markUp_idem]

theorem markIntersecting_nodeSpec (r : Rectangle) (node : Node) : MarkNodeSpec r node := by
  induction node using Node.induction with
  | h b m cs ih =>
    intro parents
    obtain ⟨hg, hc⟩ := markIntersecting_iter_grows r cs ih (m :: parents) ZR
    rw [markIntersecting_mk]
    rcases hc with hc | hc
    · rw [hc]
      refine ⟨?_, rfl, Or.inl rfl⟩
      rw [Node.PaintGrows]
      exact ⟨rfl, marks_paintGrows_refl m, hg⟩
    · rw [hc, markUp_cons]
      refine ⟨?_, by simp, ?_⟩
      · rw [Node.PaintGrows]
        exact ⟨rfl, Marks.paintGrows_add_childNeedsPaint m, hg⟩
      · by_cases h : m.ChildNeedsPaint = true
        · simp [h]
        · simp [h]

theorem Node.paintGrowsList_getElem? (cs1 cs2 : List Node) (h : Node.PaintGrowsList cs1 cs2)
    (i : Nat) (c : Node) (hc : cs1[i]? = some c) :
    ∃ c2, cs2[i]? = some c2 ∧ Node.PaintGrows c c2 := by
  induction cs1 generalizing cs2 i with
  | nil => simp at hc
  | cons x xs ih =>
    cases cs2 with
    | nil => rw [Node.PaintGrowsList] at h; exact h.elim
    | cons y ys =>
      rw [Node.PaintGrowsList] at h
      cases i with
      | zero =>
        simp only [List.getElem?_cons_zero, Option.some.injEq] at hc
        exact ⟨y, by simp, hc ▸ h.1⟩
      | succ j =>
        simp only [List.getElem?_cons_succ] at hc ⊢
        exact ih ys h.2 j hc

theorem Node.paintGrowsList_length (cs1 cs2 : List Node) (h : Node.PaintGrowsList cs1 cs2) :
    cs2.length = cs1.length := by
  induction cs1 generalizing cs2 with
  | nil =>
    cases cs2 with
    | nil => rfl
    | cons y ys => rw [Node.PaintGrowsList] at h; exact h.elim
  | cons x xs ih =>
    cases cs2 with
    | nil => rw [Node.PaintGrowsList] at h; exact h.elim
    | cons y ys =>
      rw [Node.PaintGrowsList] at h
      simp [ih ys h.2]

theorem Node.paintGrows_descend (p : Path) (n1 n2 : Node) (h : Node.PaintGrows n1 n2)
    (n : Node) (hn : n1.descend p = some n) :
    ∃ n', n2.descend p = some n' ∧ Node.PaintGrows n n' := by
  induction p generalizing n1 n2 with
  | nil =>
    simp only [Node.descend, Option.some.injEq] at hn
    exact ⟨n2, rfl, hn ▸ h⟩
  | cons i p ih =>
    rw [Node.descend] at hn ⊢
    cases hc : n1.childs[i]? with
    | none => simp [hc] at hn
    | some c =>
      rw [hc] at hn
      obtain ⟨c2, hc2, hg⟩ :=
        Node.paintGrowsList_getElem? _ _ ((Node.paintGrows_iff n1 n2).mp h).2.2 i c hc
      rw [hc2]
      exact ih c c2 hg hn

theorem ml_paintGrows_iff (ml1 ml2 : MultiLayer) :
    MultiLayer.PaintGrows ml1 ml2 ↔
      ml2.Bounds = ml1.Bounds ∧ Widget.Marks.PaintGrows ml1.Marks ml2.Marks ∧
      Node.PaintGrows ml1.BgLayer ml2.BgLayer ∧
      Node.PaintGrows ml1.SeparatorLayer ml2.SeparatorLayer ∧
      Node.PaintGrows ml1.ContextLayer ml2.ContextLayer ∧
      Node.PaintGrows ml1.MenuLayer ml2.MenuLayer := by
  simp only [MultiLayer.PaintGrows, MultiLayer.toNode, Node.PaintGrows, Node.PaintGrowsList,
    and_true]

theorem ml_paintGrows_refl (ml : MultiLayer) : MultiLayer.PaintGrows ml ml :=
  Node.paintGrows_refl _

theorem ml_paintGrows_trans {a b c : MultiLayer} (h1 : MultiLayer.PaintGrows a b)
    (h2 : MultiLayer.PaintGrows b c) : MultiLayer.PaintGrows a c :=
  Node.paintGrows_trans _ _ _ h1 h2

/-- What `BgLayer.RectNeedsPaint` changes: the background subtree is the result of
`markIntersectingNodesNotNeedingPaint`, the root may gain ChildNeedsPaint, nothing else
changes. -/
theorem rectNeedsPaint_fields (ml : MultiLayer) (r : Rectangle) :
    (BgLayer.RectNeedsPaint ml r).Bounds = ml.Bounds ∧
    (BgLayer.RectNeedsPaint ml r).BgLayer =
      (markIntersectingNodesNotNeedingPaint ml.BgLayer [ml.Marks] r).1 ∧
    (BgLayer.RectNeedsPaint ml r).SeparatorLayer = ml.SeparatorLayer ∧
    (BgLayer.RectNeedsPaint ml r).ContextLayer = ml.ContextLayer ∧
    (BgLayer.RectNeedsPaint ml r).MenuLayer = ml.MenuLayer ∧
    ((BgLayer.RectNeedsPaint ml r).Marks = ml.Marks ∨
      (BgLayer.RectNeedsPaint ml r).Marks = ml.Marks.Add MarkChildNeedsPaint) := by
  refine ⟨rfl, rfl, rfl, rfl, rfl, ?_⟩
  have h := (markIntersecting_nodeSpec r ml.BgLayer [ml.Marks]).2.2
  simp only [BgLayer.RectNeedsPaint]
  rcases h with h | h
  · left; rw [h]; rfl
  · right; rw [h, markUp_cons]; rfl

theorem rectNeedsPaint_grows (ml : MultiLayer) (r : Rectangle) :
    MultiLayer.PaintGrows ml (BgLayer.RectNeedsPaint ml r) := by
  obtain ⟨h1, h2, h3, h4, h5, h6⟩ := rectNeedsPaint_fields ml r
  rw [ml_paintGrows_iff, h1, h2, h3, h4, h5]
  refine ⟨rfl, ?_, (markIntersecting_nodeSpec r ml.BgLayer [ml.Marks]).1,
    Node.paintGrows_refl _, Node.paintGrows_refl _, Node.paintGrows_refl _⟩
  rcases h6 with h6 | h6 <;> rw [h6]
  · exact marks_paintGrows_refl _
  · exact Marks.paintGrows_add_childNeedsPaint _

/-- C10: `BgLayer.RectNeedsPaint(r)` only adds marks. The compositor tree keeps its shape
and bounds, and for every node of the tree (given by its path from the root) the marks
after the call contain the marks before the call, NeedsPaint and ChildNeedsPaint being
the only marks that can have been added. -/
theorem C10_rectNeedsPaint_only_adds_marks (ml : MultiLayer) (r : Rectangle) :
    Node.PaintGrows ml.toNode (BgLayer.RectNeedsPaint ml r).toNode ∧
    ∀ (p : Path) (n : Node), ml.toNode.descend p = some n →
      ∃ n2, (BgLayer.RectNeedsPaint ml r).toNode.descend p = some n2 ∧
        n2.Bounds = n.Bounds ∧
        (n.Marks.NeedsPaint = true → n2.Marks.NeedsPaint = true) ∧
        (n.Marks.ChildNeedsPaint = true → n2.Marks.ChildNeedsPaint = true) ∧
        n2.Marks.NeedsLayout = n.Marks.NeedsLayout ∧
        n2.Marks.ChildNeedsLayout = n.Marks.ChildNeedsLayout ∧
        n2.Marks.NotDraggable = n.Marks.NotDraggable ∧
        n2.Marks.ForceZeroBounds = n.Marks.ForceZeroBounds := by
  refine ⟨rectNeedsPaint_grows ml r, ?_⟩
  intro p n hn
  obtain ⟨n2, h2, hg⟩ := Node.paintGrows_descend p _ _ (rectNeedsPaint_grows ml r) n hn
  have hg2 := (Node.paintGrows_iff n n2).mp hg
  exact ⟨n2, h2, hg2.1, hg2.2.1⟩

/-! ## The returned rectangle -/

theorem unionAll_nil : unionAll [] = ZR := rfl

theorem unionAll_singleton (b : Rectangle) : unionAll [b] = b := by
  simp [unionAll]

theorem foldl_union_eq (l : List Rectangle) (u : Rectangle) (hu : u.Empty = true → u = ZR)
    (hl : ∀ x ∈ l, x.Empty = false) :
    l.foldl Rectangle.Union u = u.Union (unionAll l) ∧
      ((l.foldl Rectangle.Union u).Empty = true → l.foldl Rectangle.Union u = ZR) := by
  induction l generalizing u with
  | nil => exact ⟨by rw [unionAll_nil, Rectangle.union_ZR u hu]; rfl, hu⟩
  | cons x l ih =>
    have hx : x.Empty = false := hl x (List.mem_cons_self _ _)
    have hl2 : ∀ y ∈ l, y.Empty = false := fun y hy => hl y (List.mem_cons_of_mem _ hy)
    have hux : (u.Union x).Empty = true → u.Union x = ZR := by
      intro h; rw [Rectangle.union_nonempty_right u x hx] at h; cases h
    have h1 := ih (u.Union x) hux hl2
    have h2 := ih x (fun h => by rw [hx] at h; cases h) hl2
    refine ⟨?_, h1.2⟩
    rw [List.foldl_cons, h1.1]
    have : unionAll (x :: l) = x.Union (unionAll l) := by
      rw [unionAll, List.foldl_cons, ZR_union, h2.1]
    rw [this, Rectangle.union_assoc]

theorem unionAll_good (l : List Rectangle) (hl : ∀ x ∈ l, x.Empty = false) :
    (unionAll l).Empty = true → unionAll l = ZR :=
  (foldl_union_eq l ZR (fun _ => rfl) hl).2

theorem unionAll_append (l1 l2 : List Rectangle) (h1 : ∀ x ∈ l1, x.Empty = false)
    (h2 : ∀ x ∈ l2, x.Empty = false) :
    unionAll (l1 ++ l2) = (unionAll l1).Union (unionAll l2) := by
  rw [unionAll, List.foldl_append]
  exact (foldl_union_eq l2 _ (unionAll_good l1 h1) h2).1

theorem newlyMarked_eq (n1 n2 : Node) :
    newlyMarked n1 n2 = newlyMarkedList n1.childs n2.childs ++
      (if !n1.Marks.NeedsPaint && n2.Marks.NeedsPaint then [n1.Bounds] else []) := by
  cases n1; cases n2; rw [newlyMarked]; rfl

mutual
theorem newlyMarked_self (n : Node) : newlyMarked n n = [] := by
  match n with
  | .mk b m cs =>
    rw [newlyMarked, newlyMarkedList_self cs]
    cases m.NeedsPaint <;> simp
theorem newlyMarkedList_self (cs : List Node) : newlyMarkedList cs cs = [] := by
  match cs with
  | [] => rw [newlyMarkedList]
  | c :: rest =>
    rw [newlyMarkedList, newlyMarked_self c, newlyMarkedList_self rest]; rfl
end

theorem node_setMarks_fields (n : Node) (m : Marks) :
    (n.setMarks m).Bounds = n.Bounds ∧ (n.setMarks m).Marks = m ∧
      (n.setMarks m).childs = n.childs := by
  cases n; exact ⟨rfl, rfl, rfl⟩

theorem markIntersecting_callback_union (r : Rectangle) (c : Node) (ih : MarkUnionSpec r c)
    (chain : List Marks) (u : Rectangle) (hu : u.Empty = true → u = ZR) :
    (markIntersectingNodesNotNeedingPaint.callback c chain r u).2.2 =
      u.Union (unionAll
        (newlyMarked c (markIntersectingNodesNotNeedingPaint.callback c chain r u).1)) ∧
    ∀ x ∈ newlyMarked c (markIntersectingNodesNotNeedingPaint.callback c chain r u).1,
      x.Overlaps r = true := by
  obtain ⟨hw, hov⟩ := ih chain
  have hnp := (markIntersecting_nodeSpec r c chain).2.1
  have hne : ∀ x ∈ newlyMarkedList c.childs
      (markIntersectingNodesNotNeedingPaint c chain r).1.childs, x.Empty = false :=
    fun x hx => Rectangle.overlaps_nonempty_left x r (hov x hx)
  rcases markIntersecting_callback_cases c chain r u with
    ⟨_, e⟩ | ⟨_, h2, _, _, e⟩ | ⟨h1, h2, _, _, e⟩ | ⟨h1, h2, _, e⟩
  · rw [e]
    simp only [newlyMarked_self, unionAll_nil, Rectangle.union_ZR u hu]
    exact ⟨trivial, fun x hx => absurd hx (List.not_mem_nil _)⟩
  · rw [e]
    have hN : newlyMarked c (markIntersectingNodesNotNeedingPaint c chain r).1 =
        newlyMarkedList c.childs (markIntersectingNodesNotNeedingPaint c chain r).1.childs := by
      rw [newlyMarked_eq, hnp, h2]; simp
    simp only [hN]
    exact ⟨by rw [hw], hov⟩
  · rw [e]
    obtain ⟨f1, f2, f3⟩ := node_setMarks_fields (markIntersectingNodesNotNeedingPaint c chain r).1
      ((markIntersectingNodesNotNeedingPaint c chain r).1.Marks.Add MarkNeedsPaint)
    have hN : newlyMarked c ((markIntersectingNodesNotNeedingPaint c chain r).1.setMarks
          ((markIntersectingNodesNotNeedingPaint c chain r).1.Marks.Add MarkNeedsPaint)) =
        newlyMarkedList c.childs (markIntersectingNodesNotNeedingPaint c chain r).1.childs ++
          [c.Bounds] := by
      rw [newlyMarked_eq, f2, f3, h2]; simp
    simp only [hN]
    constructor
    · rw [unionAll_append _ _ hne
        (fun x hx => by
          rw [List.mem_singleton.mp hx]; exact Rectangle.overlaps_nonempty_left _ r h1),
        unionAll_singleton, ← hw, Rectangle.union_assoc]
    · intro x hx
      rcases List.mem_append.mp hx with hx | hx
      · exact hov x hx
      · rw [List.mem_singleton.mp hx]; exact h1
  · rw [e]
    obtain ⟨f1, f2, f3⟩ := node_setMarks_fields c (c.Marks.Add MarkNeedsPaint)
    have hN : newlyMarked c (c.setMarks (c.Marks.Add MarkNeedsPaint)) = [c.Bounds] := by
      rw [newlyMarked_eq, f2, f3, h2, newlyMarkedList_self]; simp
    simp only [hN, unionAll_singleton]
    exact ⟨trivial, fun x hx => by rw [List.mem_singleton.mp hx]; exact h1⟩

theorem markIntersecting_iter_union (r : Rectangle) (cs : List Node)
    (ih : ∀ c ∈ cs, MarkUnionSpec r c) (chain : List Marks) (u : Rectangle)
    (hu : u.Empty = true → u = ZR) :
    (markIntersectingNodesNotNeedingPaint.iter cs chain r u).2.2 =
      u.Union (unionAll
        (newlyMarkedList cs (markIntersectingNodesNotNeedingPaint.iter cs chain r u).1)) ∧
    ∀ x ∈ newlyMarkedList cs (markIntersectingNodesNotNeedingPaint.iter cs chain r u).1,
      x.Overlaps r = true := by
  induction cs generalizing chain u with
  | nil =>
    rw [markIntersecting_iter_nil]
    simp only [newlyMarkedList, unionAll_nil, Rectangle.union_ZR u hu]
    exact ⟨trivial, fun x hx => absurd hx (List.not_mem_nil _)⟩
  | cons c rest ihl =>
    rw [markIntersecting_iter_cons]
    obtain ⟨h1, h2⟩ :=
      markIntersecting_callback_union r c (ih c (List.mem_cons_self _ _)) chain u hu
    have ihr := fun ch v hv => ihl (fun x hx => ih x (List.mem_cons_of_mem _ hx)) ch v hv
    generalize markIntersectingNodesNotNeedingPaint.callback c chain r u = cb at h1 h2 ⊢
    have hne1 : ∀ x ∈ newlyMarked c cb.1, x.Empty = false :=
      fun x hx => Rectangle.overlaps_nonempty_left x r (h2 x hx)
    have hu1 : cb.2.2.Empty = true → cb.2.2 = ZR := by
      rw [h1]
      intro he
      cases hue : u.Empty
      · rw [Rectangle.union_nonempty_left u _ hue] at he; cases he
      · have hz := hu hue
        rw [hz, ZR_union] at he ⊢
        exact unionAll_good _ hne1 he
    obtain ⟨h3, h4⟩ := ihr cb.2.1 cb.2.2 hu1
    generalize markIntersectingNodesNotNeedingPaint.iter rest cb.2.1 r cb.2.2 = res at h3 h4 ⊢
    have hne2 : ∀ x ∈ newlyMarkedList rest res.1, x.Empty = false :=
      fun x hx => Rectangle.overlaps_nonempty_left x r (h4 x hx)
    simp only [newlyMarkedList]
    constructor
    · rw [h3, h1, unionAll_append _ _ hne1 hne2, Rectangle.union_assoc]
    · intro x hx
      rcases List.mem_append.mp hx with hx | hx
      · exact h2 x hx
      · exact h4 x hx

theorem markIntersecting_unionSpec (r : Rectangle) (node : Node) : MarkUnionSpec r node := by
  induction node using Node.induction with
  | h b m cs ih =>
    intro parents
    have h := markIntersecting_iter_union r cs ih (m :: parents) ZR (fun _ => rfl)
    rw [markIntersecting_mk]
    simp only [node_childs_mk]
    rw [ZR_union] at h
    exact h

/-- C9: the rectangle returned by `markIntersectingNodesNotNeedingPaint(node, r)` is the
union (`Rectangle.Union` folded from the zero rectangle) of the bounds of exactly the strict
descendants of `node` that carry NeedsPaint after the call and did not before; it is the
zero (empty) rectangle when the call marks nothing. Nodes that carried NeedsPaint before
the call are not in that list, so they contribute nothing. -/
theorem C9_returned_rectangle_is_union_of_newly_marked (node : Node) (parents : List Marks)
    (r : Rectangle) :
    (markIntersectingNodesNotNeedingPaint node parents r).2.2 =
      unionAll (newlyMarkedList node.childs
        (markIntersectingNodesNotNeedingPaint node parents r).1.childs) ∧
    (newlyMarkedList node.childs
        (markIntersectingNodesNotNeedingPaint node parents r).1.childs = [] →
      (markIntersectingNodesNotNeedingPaint node parents r).2.2 = ZR) := by
  have h := (markIntersecting_unionSpec r node parents).1
  refine ⟨h, fun he => ?_⟩
  rw [h, he]; rfl

/-- C8 (as stated) fails: for the child `C` with bounds (3,3,10,10), no marks and one child
`D` with bounds (3,3,5,5), and `r` = (0,0,5,5), the overlap of `r` with `C.Bounds` is a
proper subset of `C.Bounds` and recursing into `C` would mark `D`; but the callback marks
`C` directly, accumulates `C.Bounds` and leaves `D` unmarked: it did not recurse. -/
theorem C8_counterexample :
    (Rect 3 3 10 10).Overlaps (Rect 0 0 5 5) = true ∧
    Rectangle.ProperSubset ((Rect 0 0 5 5).Intersect (Rect 3 3 10 10)) (Rect 3 3 10 10) ∧
    needsPaintBits (markIntersectingNodesNotNeedingPaint
      (Node.mk (Rect 3 3 10 10) Marks.none [leaf (Rect 3 3 5 5) Marks.none]) []
      (Rect 0 0 5 5)).1.childs = [true] ∧
    needsPaintBits (markIntersectingNodesNotNeedingPaint.callback
      (Node.mk (Rect 3 3 10 10) Marks.none [leaf (Rect 3 3 5 5) Marks.none]) []
      (Rect 0 0 5 5) ZR).1.childs = [false] ∧
    (markIntersectingNodesNotNeedingPaint.callback
      (Node.mk (Rect 3 3 10 10) Marks.none [leaf (Rect 3 3 5 5) Marks.none]) []
      (Rect 0 0 5 5) ZR).1.Marks.NeedsPaint = true ∧
    (markIntersectingNodesNotNeedingPaint.callback
      (Node.mk (Rect 3 3 10 10) Marks.none [leaf (Rect 3 3 5 5) Marks.none]) []
      (Rect 0 0 5 5) ZR).2.2 = Rect 3 3 10 10 := by
  decide

/-- C8 (amended): the loop applies the callback to each child in turn, and for a child `c`
that overlaps `r` and does not carry NeedsPaint the callback recurses into `c` exactly
when `r` lies inside `c.Bounds` (`r.In(c.Bounds)`): then the child is the result of the
recursive call, its rectangle `w` is accumulated, and `c` is marked NeedsPaint with its
bounds accumulated too unless `r` lies inside `w`. When `r` does not lie inside
`c.Bounds`, `c` is marked NeedsPaint directly, its children are left as they are, and
`c.Bounds` is accumulated. -/
theorem C8_recursion_exactly_when_rect_inside_child (c : Node) (rest : List Node)
    (chain : List Marks) (r u : Rectangle)
    (hov : c.Bounds.Overlaps r = true) (hnp : c.Marks.NeedsPaint = false) :
    (markIntersectingNodesNotNeedingPaint.iter (c :: rest) chain r u).1 =
      (markIntersectingNodesNotNeedingPaint.callback c chain r u).1 ::
        (markIntersectingNodesNotNeedingPaint.iter rest
          (markIntersectingNodesNotNeedingPaint.callback c chain r u).2.1 r
          (markIntersectingNodesNotNeedingPaint.callback c chain r u).2.2).1 ∧
    (r.In c.Bounds = true →
      r.In (markIntersectingNodesNotNeedingPaint c chain r).2.2 = true →
      markIntersectingNodesNotNeedingPaint.callback c chain r u =
        ((markIntersectingNodesNotNeedingPaint c chain r).1,
          (markIntersectingNodesNotNeedingPaint c chain r).2.1,
          u.Union (markIntersectingNodesNotNeedingPaint c chain r).2.2)) ∧
    (r.In c.Bounds = true →
      r.In (markIntersectingNodesNotNeedingPaint c chain r).2.2 = false →
      markIntersectingNodesNotNeedingPaint.callback c chain r u =
        ((markIntersectingNodesNotNeedingPaint c chain r).1.setMarks
            ((markIntersectingNodesNotNeedingPaint c chain r).1.Marks.Add MarkNeedsPaint),
          markUp (markIntersectingNodesNotNeedingPaint c chain r).2.1,
          (u.Union (markIntersectingNodesNotNeedingPaint c chain r).2.2).Union c.Bounds)) ∧
    (r.In c.Bounds = false →
      markIntersectingNodesNotNeedingPaint.callback c chain r u =
        (c.setMarks (c.Marks.Add MarkNeedsPaint), markUp chain, u.Union c.Bounds)) := by
  refine ⟨by rw [markIntersecting_iter_cons], ?_, ?_, ?_⟩
  · intro h1 h2
    rcases markIntersecting_callback_cases c chain r u with
      ⟨h, _⟩ | ⟨_, _, _, _, e⟩ | ⟨_, _, _, h, _⟩ | ⟨_, _, h, _⟩
    · rcases h with h | h
      · rw [hov] at h; cases h
      · rw [hnp] at h; cases h
    · exact e
    · rw [h2] at h; cases h
    · rw [h1] at h; cases h
  · intro h1 h2
    rcases markIntersecting_callback_cases c chain r u with
      ⟨h, _⟩ | ⟨_, _, _, h, _⟩ | ⟨_, _, _, _, e⟩ | ⟨_, _, h, _⟩
    · rcases h with h | h
      · rw [hov] at h; cases h
      · rw [hnp] at h; cases h
    · rw [h2] at h; cases h
    · exact e
    · rw [h1] at h; cases h
  · intro h1
    rcases markIntersecting_callback_cases c chain r u with
      ⟨h, _⟩ | ⟨_, _, h, _⟩ | ⟨_, _, h, _⟩ | ⟨_, _, _, e⟩
    · rcases h with h | h
      · rw [hov] at h; cases h
      · rw [hnp] at h; cases h
    · rw [h1] at h; cases h
    · rw [h1] at h; cases h
    · exact e

/-- Witness for C8: the child (0,0,10,10) with an unmarked child (0,0,4,4) and
`r` = (2,2,8,8): `r` lies inside the child, the callback recurses, the grandchild is marked
and, since `r` is not inside (0,0,4,4), the child is marked too. -/
theorem C8_witness :
    needsPaintBits (markIntersectingNodesNotNeedingPaint.callback
      (Node.mk (Rect 0 0 10 10) Marks.none [leaf (Rect 0 0 4 4) Marks.none]) [Marks.none]
      (Rect 2 2 8 8) ZR).1.childs = [true] :=
  ((C8_recursion_exactly_when_rect_inside_child
      (Node.mk (Rect 0 0 10 10) Marks.none [leaf (Rect 0 0 4 4) Marks.none]) []
      [Marks.none] (Rect 2 2 8 8) ZR (by decide) (by decide)).2.2.1
    (by decide) (by decide)) ▸ (by decide)

/-! ## Marking a child of a float layer -/

theorem floatLayer_setFloatLayer (ml : MultiLayer) (fl : FloatLayer) (n : Node) :
    (ml.setFloatLayer fl n).floatLayer fl = n := by
  cases fl <;> rfl

theorem markUp_pair (m root : Marks) :
    markUp [m, root] =
      [m.Add MarkChildNeedsPaint,
        if m.ChildNeedsPaint then root else root.Add MarkChildNeedsPaint] := by
  rw [markUp_cons]
  by_cases h : m.ChildNeedsPaint = true
  · simp [h]
  · simp only [h, Bool.false_eq_true, if_false, markUp_cons, markUp]
    by_cases h2 : root.ChildNeedsPaint = true
    · simp [h2, Marks.add_childNeedsPaint_of root h2]
    · simp [h2]

theorem floatChild_none (ml : MultiLayer) (fl : FloatLayer) (n : Nat)
    (h : (ml.floatLayer fl).childs[n]? = Option.none) :
    ml.floatChildMarkNeedsPaint fl n = ml := by
  unfold MultiLayer.floatChildMarkNeedsPaint
  cases hfl : ml.floatLayer fl with
  | mk b m cs =>
    rw [hfl] at h
    simp only [node_childs_mk] at h
    simp only [h]

theorem floatChild_some (ml : MultiLayer) (fl : FloatLayer) (n : Nat) (c : Node)
    (h : (ml.floatLayer fl).childs[n]? = some c) :
    ml.floatChildMarkNeedsPaint fl n =
      { ml.setFloatLayer fl
          (Node.mk (ml.floatLayer fl).Bounds ((ml.floatLayer fl).Marks.Add MarkChildNeedsPaint)
            ((ml.floatLayer fl).childs.set n (c.setMarks (c.Marks.Add MarkNeedsPaint)))) with
        Marks := if (ml.floatLayer fl).Marks.ChildNeedsPaint then ml.Marks
          else ml.Marks.Add MarkChildNeedsPaint } := by
  unfold MultiLayer.floatChildMarkNeedsPaint
  cases hfl : ml.floatLayer fl with
  | mk b m cs =>
    rw [hfl] at h
    simp only [node_childs_mk] at h
    simp only [h, EmbedNode.MarkNeedsPaint, markUp_pair, node_childs_mk, node_Bounds_mk,
      node_Marks_mk]
    rfl

theorem Node.paintGrowsList_set (cs : List Node) (n : Nat) (c c2 : Node)
    (h : cs[n]? = some c) (hg : Node.PaintGrows c c2) :
    Node.PaintGrowsList cs (cs.set n c2) := by
  induction cs generalizing n with
  | nil => simp at h
  | cons x xs ih =>
    cases n with
    | zero =>
      simp only [List.getElem?_cons_zero, Option.some.injEq] at h
      rw [List.set_cons_zero, Node.PaintGrowsList]
      exact ⟨h ▸ hg, Node.paintGrowsList_refl xs⟩
    | succ j =>
      simp only [List.getElem?_cons_succ] at h
      rw [List.set_cons_succ, Node.PaintGrowsList]
      exact ⟨Node.paintGrows_refl x, ih j h⟩

theorem floatChild_grows (ml : MultiLayer) (fl : FloatLayer) (n : Nat) :
    MultiLayer.PaintGrows ml (ml.floatChildMarkNeedsPaint fl n) := by
  cases h : (ml.floatLayer fl).childs[n]? with
  | none => rw [floatChild_none ml fl n h]; exact ml_paintGrows_refl ml
  | some c =>
    rw [floatChild_some ml fl n c h, ml_paintGrows_iff]
    have hroot : Marks.PaintGrows ml.Marks
        (if (ml.floatLayer fl).Marks.ChildNeedsPaint then ml.Marks
          else ml.Marks.Add MarkChildNeedsPaint) := by
      split
      · exact marks_paintGrows_refl _
      · exact Marks.paintGrows_add_childNeedsPaint _
    have hfl : Node.PaintGrows (ml.floatLayer fl)
        (Node.mk (ml.floatLayer fl).Bounds ((ml.floatLayer fl).Marks.Add MarkChildNeedsPaint)
          ((ml.floatLayer fl).childs.set n (c.setMarks (c.Marks.Add MarkNeedsPaint)))) := by
      rw [Node.paintGrows_iff]
      exact ⟨rfl, Marks.paintGrows_add_childNeedsPaint _,
        Node.paintGrowsList_set _ n c _ h
          (Node.paintGrows_setMarks c _ (Marks.paintGrows_add_needsPaint _))⟩
    cases fl
    · exact ⟨rfl, hroot, Node.paintGrows_refl _, Node.paintGrows_refl _, hfl,
        Node.paintGrows_refl _⟩
    · exact ⟨rfl, hroot, Node.paintGrows_refl _, Node.paintGrows_refl _,
        Node.paintGrows_refl _, hfl⟩

theorem markFloatLayerNodes_body_grows (fl : FloatLayer) (ml : MultiLayer) (n : Nat) :
    MultiLayer.PaintGrows ml (MultiLayer.markFloatLayerNodes.body fl ml n) := by
  unfold MultiLayer.markFloatLayerNodes.body
  split
  · exact ml_paintGrows_refl ml
  · split
    · exact ml_paintGrows_trans (floatChild_grows ml fl n) (rectNeedsPaint_grows _ _)
    · exact ml_paintGrows_refl ml

theorem layout_body_grows (fl : FloatLayer) (ml : MultiLayer) (n : Nat) :
    MultiLayer.PaintGrows ml (FloatLayer.Layout.body fl ml n) := by
  unfold FloatLayer.Layout.body
  split
  · exact ml_paintGrows_refl ml
  · exact ml_paintGrows_trans (floatChild_grows ml fl n) (rectNeedsPaint_grows _ _)

theorem foldl_grows (f : MultiLayer → Nat → MultiLayer)
    (hf : ∀ ml n, MultiLayer.PaintGrows ml (f ml n)) (l : List Nat) (ml : MultiLayer) :
    MultiLayer.PaintGrows ml (l.foldl f ml) := by
  induction l generalizing ml with
  | nil => exact ml_paintGrows_refl ml
  | cons n l ih => exact ml_paintGrows_trans (hf ml n) (ih (f ml n))

theorem markFloatLayerNodes_eq (ml : MultiLayer) (fl : FloatLayer) :
    ml.markFloatLayerNodes fl =
      (FloatLayer.visibleNodes ml fl).foldl (MultiLayer.markFloatLayerNodes.body fl) ml := by
  unfold MultiLayer.markFloatLayerNodes
  simp only
  split
  · rename_i h
    rw [List.length_eq_zero.mp h]; rfl
  · rfl

theorem markFloatLayerNodes_grows (ml : MultiLayer) (fl : FloatLayer) :
    MultiLayer.PaintGrows ml (ml.markFloatLayerNodes fl) := by
  rw [markFloatLayerNodes_eq]
  exact foldl_grows _ (markFloatLayerNodes_body_grows fl) _ ml

theorem markFloatLayers_eq (ml : MultiLayer) :
    ml.markFloatLayers =
      (ml.markFloatLayerNodes FloatLayer.Context).markFloatLayerNodes FloatLayer.Menu := rfl

theorem markFloatLayers_grows (ml : MultiLayer) :
    MultiLayer.PaintGrows ml ml.markFloatLayers := by
  rw [markFloatLayers_eq]
  exact ml_paintGrows_trans (markFloatLayerNodes_grows ml _)
    (markFloatLayerNodes_grows _ _)

theorem layout_grows (ml : MultiLayer) (fl : FloatLayer) :
    MultiLayer.PaintGrows ml (FloatLayer.Layout ml fl) :=
  foldl_grows _ (layout_body_grows fl) _ ml

/-! ## Clean trees -/

theorem Node.paintClean_iff (n : Node) :
    n.paintClean = true ↔ n.Marks.NeedsPaint = false ∧ n.Marks.ChildNeedsPaint = false ∧
      Node.paintCleanList n.childs = true := by
  cases n
  rw [Node.paintClean]
  simp [and_assoc]

theorem Node.paintCleanList_iff (cs : List Node) :
    Node.paintCleanList cs = true ↔ ∀ c ∈ cs, c.paintClean = true := by
  induction cs with
  | nil => simp [Node.paintCleanList]
  | cons c cs ih => rw [Node.paintCleanList]; simp [ih]

theorem anyPaintMarked_eq_false_iff (cs : List Node) :
    anyPaintMarked cs = false ↔
      ∀ c ∈ cs, c.Marks.NeedsPaint = false ∧ c.Marks.ChildNeedsPaint = false := by
  simp [anyPaintMarked]

theorem anyPaintMarked_of_paintClean (n : Node) (h : n.paintClean = true) :
    anyPaintMarked n.childs = false := by
  rw [anyPaintMarked_eq_false_iff]
  intro c hc
  have h2 := (Node.paintCleanList_iff _).mp ((Node.paintClean_iff n).mp h).2.2 c hc
  have h3 := (Node.paintClean_iff c).mp h2
  exact ⟨h3.1, h3.2.1⟩

theorem intersecting_iter_false (cs : List Node) (r : Rectangle)
    (h : anyPaintMarked cs = false) : intersectingNodeNeedingPaintExists.iter cs r = false := by
  induction cs with
  | nil => rw [intersectingNodeNeedingPaintExists.iter]
  | cons c cs ih =>
    rw [anyPaintMarked_eq_false_iff] at h ih
    have hc := h c (List.mem_cons_self _ _)
    rw [intersecting_iter_cons, ih (fun x hx => h x (List.mem_cons_of_mem _ hx)), hc.1, hc.2]
    simp

theorem intersecting_false_of_unmarked (node : Node) (r : Rectangle)
    (h : anyPaintMarked node.childs = false) :
    intersectingNodeNeedingPaintExists node r = false := by
  rw [intersecting_node]; exact intersecting_iter_false _ r h

theorem markFloatLayerNodes_body_of_false (fl : FloatLayer) (ml : MultiLayer) (n : Nat)
    (h : ∀ r, intersectingNodeNeedingPaintExists ml.BgLayer r = false) :
    MultiLayer.markFloatLayerNodes.body fl ml n = ml := by
  unfold MultiLayer.markFloatLayerNodes.body
  split
  · rfl
  · rw [h]; rfl

theorem foldl_fixed (f : MultiLayer → Nat → MultiLayer) (ml : MultiLayer)
    (hf : ∀ n, f ml n = ml) (l : List Nat) : l.foldl f ml = ml := by
  induction l with
  | nil => rfl
  | cons n l ih => rw [List.foldl_cons, hf n, ih]

theorem markFloatLayerNodes_of_unmarked (ml : MultiLayer) (fl : FloatLayer)
    (h : anyPaintMarked ml.BgLayer.childs = false) : ml.markFloatLayerNodes fl = ml := by
  rw [markFloatLayerNodes_eq]
  exact foldl_fixed _ ml
    (fun n => markFloatLayerNodes_body_of_false fl ml n
      (fun r => intersecting_false_of_unmarked _ r h)) _

theorem markFloatLayers_of_unmarked (ml : MultiLayer)
    (h : anyPaintMarked ml.BgLayer.childs = false) : ml.markFloatLayers = ml := by
  rw [markFloatLayers_eq, markFloatLayerNodes_of_unmarked ml _ h,
    markFloatLayerNodes_of_unmarked ml _ h]

/-- C3 (as stated) fails: in `sampleCleanOverlay` the background carries no paint mark, its
childless child B (0,0,10,10) overlaps the visible overlay (2,2,8,8) of the context layer,
and after the pre-marking pass B does not carry NeedsPaint: no pending paint was found
under the overlay, so `RectNeedsPaint` was not applied. -/
theorem C3_counterexample :
    sampleCleanOverlay.BgLayer.paintClean = true ∧
    FloatLayer.visibleNodes sampleCleanOverlay FloatLayer.Context = [0] ∧
    (Rect 0 0 10 10).Overlaps (Rect 2 2 8 8) = true ∧
    needsPaintBits sampleCleanOverlay.BgLayer.childs = [false] ∧
    needsPaintBits sampleCleanOverlay.markFloatLayers.BgLayer.childs = [false] := by
  decide

/-- C3 (amended): in the pre-marking pass, `BgLayer.RectNeedsPaint(n.Bounds)` is applied for
a visible overlay `n` only when pending paint was found under `n`: if
`intersectingNodeNeedingPaintExists(BgLayer, n.Bounds)` is true the loop body marks `n` and
applies `RectNeedsPaint(n.Bounds)`, and if it is false the body changes nothing. In
particular, when the Background subtree carries no paint mark the whole pre-marking pass
leaves the compositor as it is, whatever the overlays. -/
theorem C3_rectNeedsPaint_only_when_pending (ml : MultiLayer) :
    (∀ (fl : FloatLayer) (n : Nat) (c : Node), (ml.floatLayer fl).childs[n]? = some c →
      (intersectingNodeNeedingPaintExists ml.BgLayer c.Bounds = true →
        MultiLayer.markFloatLayerNodes.body fl ml n =
          BgLayer.RectNeedsPaint (ml.floatChildMarkNeedsPaint fl n) c.Bounds) ∧
      (intersectingNodeNeedingPaintExists ml.BgLayer c.Bounds = false →
        MultiLayer.markFloatLayerNodes.body fl ml n = ml)) ∧
    (ml.BgLayer.paintClean = true → ml.markFloatLayers = ml) := by
  refine ⟨?_, fun h => markFloatLayers_of_unmarked ml (anyPaintMarked_of_paintClean _ h)⟩
  intro fl n c hc
  unfold MultiLayer.markFloatLayerNodes.body
  rw [hc]
  exact ⟨fun h => by simp [h], fun h => by simp [h]⟩

/-- Witness for C3 (amended): the pre-marking pass leaves `sampleCleanOverlay` unchanged. -/
theorem C3_witness : sampleCleanOverlay.markFloatLayers = sampleCleanOverlay :=
  (C3_rectNeedsPaint_only_when_pending sampleCleanOverlay).2 (by decide)

/-! ## Pending paint is monotone in the marks -/

theorem Node.paintGrowsList_mem (cs1 cs2 : List Node) (h : Node.PaintGrowsList cs1 cs2)
    (c : Node) (hc : c ∈ cs1) : ∃ c2 ∈ cs2, Node.PaintGrows c c2 := by
  obtain ⟨i, hi⟩ := List.mem_iff_getElem?.mp hc
  obtain ⟨c2, h2, hg⟩ := Node.paintGrowsList_getElem? cs1 cs2 h i c hi
  exact ⟨c2, List.mem_iff_getElem?.mpr ⟨i, h2⟩, hg⟩

theorem pendingDescendant_mono (r : Rectangle) (n1 : Node) (h : PendingDescendant r n1) :
    ∀ n2, Node.PaintGrows n1 n2 → PendingDescendant r n2 := by
  induction h with
  | direct node d hd hn ho =>
    intro n2 hg
    obtain ⟨d2, hd2, hgd⟩ :=
      Node.paintGrowsList_mem _ _ ((Node.paintGrows_iff node n2).mp hg).2.2 d hd
    have hd3 := (Node.paintGrows_iff d d2).mp hgd
    exact PendingDescendant.direct n2 d2 hd2 (hd3.2.1.1 hn) (by rw [hd3.1]; exact ho)
  | deeper node c hc ho hn _ ih =>
    intro n2 hg
    obtain ⟨c2, hc2, hgc⟩ :=
      Node.paintGrowsList_mem _ _ ((Node.paintGrows_iff node n2).mp hg).2.2 c hc
    have hc3 := (Node.paintGrows_iff c c2).mp hgc
    exact PendingDescendant.deeper n2 c2 hc2 (by rw [hc3.1]; exact ho) (hc3.2.1.2.1 hn)
      (ih c2 hgc)

theorem intersecting_mono (n1 n2 : Node) (r : Rectangle) (hg : Node.PaintGrows n1 n2)
    (h : intersectingNodeNeedingPaintExists n1 r = true) :
    intersectingNodeNeedingPaintExists n2 r = true :=
  (intersecting_iff n2 r).mpr (pendingDescendant_mono r n1 ((intersecting_iff n1 r).mp h) n2 hg)

/-! ## Visible nodes -/

theorem visibleChildNodes_iter_cons (x : Node) (xs : List Node) (k : Nat) :
    visibleChildNodes.iter (x :: xs) k =
      if x.Marks.ForceZeroBounds then visibleChildNodes.iter xs (k + 1)
      else k :: visibleChildNodes.iter xs (k + 1) := by
  rw [visibleChildNodes.iter]
  cases h : x.Marks.ForceZeroBounds <;> simp [h]

theorem visibleChildNodes_iter_mem (cs : List Node) (k i : Nat) :
    i ∈ visibleChildNodes.iter cs k ↔
      ∃ j c, i = k + j ∧ cs[j]? = some c ∧ c.Marks.ForceZeroBounds = false := by
  induction cs generalizing k with
  | nil => simp [visibleChildNodes.iter]
  | cons x xs ih =>
    rw [visibleChildNodes_iter_cons]
    constructor
    · intro h
      have hrest : i ∈ visibleChildNodes.iter xs (k + 1) →
          ∃ j c, i = k + j ∧ (x :: xs)[j]? = some c ∧ c.Marks.ForceZeroBounds = false := by
        intro h
        obtain ⟨j, c, h1, h2, h3⟩ := (ih (k + 1)).mp h
        exact ⟨j + 1, c, by omega, by simpa using h2, h3⟩
      cases hx : x.Marks.ForceZeroBounds
      · rw [hx] at h
        simp only [Bool.false_eq_true, if_false] at h
        rcases List.mem_cons.mp h with h | h
        · exact ⟨0, x, by omega, by simp, hx⟩
        · exact hrest h
      · rw [hx] at h
        exact hrest (by simpa using h)
    · rintro ⟨j, c, h1, h2, h3⟩
      cases j with
      | zero =>
        simp only [List.getElem?_cons_zero, Option.some.injEq] at h2
        subst h2
        simp [h3, h1]
      | succ j =>
        simp only [List.getElem?_cons_succ] at h2
        have : i ∈ visibleChildNodes.iter xs (k + 1) :=
          (ih (k + 1)).mpr ⟨j, c, by omega, h2, h3⟩
        split
        · exact this
        · exact List.mem_cons_of_mem _ this

theorem visibleNodes_mem (ml : MultiLayer) (fl : FloatLayer) (i : Nat) :
    i ∈ FloatLayer.visibleNodes ml fl ↔
      ∃ c, (ml.floatLayer fl).childs[i]? = some c ∧ c.Marks.ForceZeroBounds = false := by
  rw [FloatLayer.visibleNodes, visibleChildNodes, visibleChildNodes_iter_mem]
  constructor
  · rintro ⟨j, c, h1, h2, h3⟩
    exact ⟨c, by rw [h1, Nat.zero_add]; exact h2, h3⟩
  · rintro ⟨c, h2, h3⟩
    exact ⟨i, c, by omega, h2, h3⟩

/-! ## The pre-marking pass marks the overlays over pending paint -/

theorem ml_paintGrows_floatLayer {ml1 ml2 : MultiLayer} (h : MultiLayer.PaintGrows ml1 ml2)
    (fl : FloatLayer) : Node.PaintGrows (ml1.floatLayer fl) (ml2.floatLayer fl) := by
  rw [ml_paintGrows_iff] at h
  cases fl
  · exact h.2.2.2.2.1
  · exact h.2.2.2.2.2

theorem ml_paintGrows_bg {ml1 ml2 : MultiLayer} (h : MultiLayer.PaintGrows ml1 ml2) :
    Node.PaintGrows ml1.BgLayer ml2.BgLayer :=
  ((ml_paintGrows_iff ml1 ml2).mp h).2.2.1

theorem ml_paintGrows_floatChild {ml1 ml2 : MultiLayer} (h : MultiLayer.PaintGrows ml1 ml2)
    (fl : FloatLayer) (i : Nat) (c : Node) (hc : (ml1.floatLayer fl).childs[i]? = some c) :
    ∃ c2, (ml2.floatLayer fl).childs[i]? = some c2 ∧ Node.PaintGrows c c2 :=
  Node.paintGrowsList_getElem? _ _
    ((Node.paintGrows_iff _ _).mp (ml_paintGrows_floatLayer h fl)).2.2 i c hc

theorem floatChildMarked_mono {ml1 ml2 : MultiLayer} (h : MultiLayer.PaintGrows ml1 ml2)
    (fl : FloatLayer) (i : Nat) (hm : FloatChildMarked ml1 fl i) :
    FloatChildMarked ml2 fl i := by
  obtain ⟨c, hc, hnp, hcnp⟩ := hm
  obtain ⟨c2, hc2, hg⟩ := ml_paintGrows_floatChild h fl i c hc
  exact ⟨c2, hc2, ((Node.paintGrows_iff c c2).mp hg).2.1.1 hnp,
    ((Node.paintGrows_iff _ _).mp (ml_paintGrows_floatLayer h fl)).2.1.2.1 hcnp⟩

theorem rectNeedsPaint_floatLayer (ml : MultiLayer) (r : Rectangle) (fl : FloatLayer) :
    (BgLayer.RectNeedsPaint ml r).floatLayer fl = ml.floatLayer fl := by
  cases fl <;> rfl

theorem floatChild_floatLayer (ml : MultiLayer) (fl : FloatLayer) (n : Nat) (c : Node)
    (h : (ml.floatLayer fl).childs[n]? = some c) :
    (ml.floatChildMarkNeedsPaint fl n).floatLayer fl =
      Node.mk (ml.floatLayer fl).Bounds ((ml.floatLayer fl).Marks.Add MarkChildNeedsPaint)
        ((ml.floatLayer fl).childs.set n (c.setMarks (c.Marks.Add MarkNeedsPaint))) := by
  rw [floatChild_some ml fl n c h]
  cases fl <;> rfl

theorem floatChild_marked (ml : MultiLayer) (fl : FloatLayer) (n : Nat) (c : Node)
    (h : (ml.floatLayer fl).childs[n]? = some c) :
    FloatChildMarked (ml.floatChildMarkNeedsPaint fl n) fl n := by
  have hlt : n < (ml.floatLayer fl).childs.length := (List.getElem?_eq_some.mp h).1
  refine ⟨c.setMarks (c.Marks.Add MarkNeedsPaint), ?_, ?_, ?_⟩
  · rw [floatChild_floatLayer ml fl n c h, node_childs_mk, List.getElem?_set_self hlt]
  · rw [(node_setMarks_fields c _).2.1]; simp
  · rw [floatChild_floatLayer ml fl n c h, node_Marks_mk]; simp

theorem markFloatLayerNodes_body_marked (ml : MultiLayer) (fl : FloatLayer) (n : Nat)
    (c : Node) (h : (ml.floatLayer fl).childs[n]? = some c)
    (hp : intersectingNodeNeedingPaintExists ml.BgLayer c.Bounds = true) :
    FloatChildMarked (MultiLayer.markFloatLayerNodes.body fl ml n) fl n := by
  unfold MultiLayer.markFloatLayerNodes.body
  rw [h]
  simp only [hp, if_true]
  exact floatChildMarked_mono (rectNeedsPaint_grows _ _) fl n (floatChild_marked ml fl n c h)

theorem markFloatLayerNodes_foldl_marked (fl : FloatLayer) (i : Nat) (l : List Nat)
    (hi : i ∈ l) (ml : MultiLayer) (c : Node) (h : (ml.floatLayer fl).childs[i]? = some c)
    (hp : intersectingNodeNeedingPaintExists ml.BgLayer c.Bounds = true) :
    FloatChildMarked (l.foldl (MultiLayer.markFloatLayerNodes.body fl) ml) fl i := by
  induction l generalizing ml c with
  | nil => exact absurd hi (List.not_mem_nil _)
  | cons j l ih =>
    rw [List.foldl_cons]
    by_cases hji : i = j
    · subst hji
      exact floatChildMarked_mono
        (foldl_grows _ (markFloatLayerNodes_body_grows fl) l _) fl i
        (markFloatLayerNodes_body_marked ml fl i c h hp)
    · have hil : i ∈ l := by
        rcases List.mem_cons.mp hi with h | h
        · exact absurd h hji
        · exact h
      have hg := markFloatLayerNodes_body_grows fl ml j
      obtain ⟨c2, hc2, hgc⟩ := ml_paintGrows_floatChild hg fl i c h
      have hb : c2.Bounds = c.Bounds := ((Node.paintGrows_iff c c2).mp hgc).1
      exact ih hil _ c2 hc2
        (by rw [hb]; exact intersecting_mono _ _ _ (ml_paintGrows_bg hg) hp)

theorem markFloatLayerNodes_marked (ml : MultiLayer) (fl : FloatLayer) (i : Nat) (c : Node)
    (h : (ml.floatLayer fl).childs[i]? = some c) (hv : c.Marks.ForceZeroBounds = false)
    (hp : intersectingNodeNeedingPaintExists ml.BgLayer c.Bounds = true) :
    FloatChildMarked (ml.markFloatLayerNodes fl) fl i := by
  rw [markFloatLayerNodes_eq]
  exact markFloatLayerNodes_foldl_marked fl i _
    ((visibleNodes_mem ml fl i).mpr ⟨c, h, hv⟩) ml c h hp

theorem markFloatLayers_marked (ml : MultiLayer) (fl : FloatLayer) (i : Nat) (c : Node)
    (h : (ml.floatLayer fl).childs[i]? = some c) (hv : c.Marks.ForceZeroBounds = false)
    (hp : intersectingNodeNeedingPaintExists ml.BgLayer c.Bounds = true) :
    FloatChildMarked ml.markFloatLayers fl i := by
  rw [markFloatLayers_eq]
  cases fl with
  | Context =>
    exact floatChildMarked_mono (markFloatLayerNodes_grows _ _) _ i
      (markFloatLayerNodes_marked ml _ i c h hv hp)
  | Menu =>
    have hg := markFloatLayerNodes_grows ml FloatLayer.Context
    obtain ⟨c2, hc2, hgc⟩ := ml_paintGrows_floatChild hg FloatLayer.Menu i c h
    have hc3 := (Node.paintGrows_iff c c2).mp hgc
    exact markFloatLayerNodes_marked _ _ i c2 hc2
      (by rw [hc3.2.1.2.2.2.2.2]; exact hv)
      (by rw [hc3.1]; exact intersecting_mono _ _ _ (ml_paintGrows_bg hg) hp)

/-! ## The traversal pass -/

theorem paintMarked_mk (b : Rectangle) (m : Marks) (cs : List Node) (path : Path) :
    ENode.PaintMarked (Node.mk b m cs) path =
      if m.HasAny paintMarks then
        (Node.mk b (m.Remove paintMarks) (ENode.PaintMarked.iter cs path 0).1,
          (if m.HasAny MarkNeedsPaint then [path] else []) ++
            (ENode.PaintMarked.iter cs path 0).2.1,
          (if m.HasAny MarkNeedsPaint then b else ZR).Union
            (ENode.PaintMarked.iter cs path 0).2.2)
      else (Node.mk b m cs, [], ZR) := by
  rw [ENode.PaintMarked]

theorem paintMarked_iter_nil (path : Path) (i : Nat) :
    ENode.PaintMarked.iter [] path i = ([], [], ZR) := by
  rw [ENode.PaintMarked.iter]

theorem paintMarked_iter_cons (c : Node) (rest : List Node) (path : Path) (i : Nat) :
    ENode.PaintMarked.iter (c :: rest) path i =
      ((ENode.PaintMarked c (path ++ [i])).1 :: (ENode.PaintMarked.iter rest path (i + 1)).1,
        (ENode.PaintMarked c (path ++ [i])).2.1 ++ (ENode.PaintMarked.iter rest path (i + 1)).2.1,
        (ENode.PaintMarked c (path ++ [i])).2.2.Union
          (ENode.PaintMarked.iter rest path (i + 1)).2.2) := by
  rw [ENode.PaintMarked.iter]

theorem paintMarked_of_needsPaint (n : Node) (path : Path) (h : n.Marks.NeedsPaint = true) :
    path ∈ (ENode.PaintMarked n path).2.1 ∧
      n.Bounds.In (ENode.PaintMarked n path).2.2 = true := by
  cases n with
  | mk b m cs =>
    simp only [node_Marks_mk] at h
    rw [paintMarked_mk]
    simp only [Marks.hasAny_paintMarks, Marks.hasAny_needsPaint, h, Bool.true_or, if_true,
      node_Bounds_mk]
    exact ⟨List.mem_append_left _ (List.mem_singleton_self _),
      Rectangle.in_union_left _ _ _ (Rectangle.in_refl b)⟩

theorem paintMarked_iter_child (cs : List Node) (path : Path) (k i : Nat) (c : Node)
    (hc : cs[i]? = some c) (h : c.Marks.NeedsPaint = true) :
    (path ++ [k + i]) ∈ (ENode.PaintMarked.iter cs path k).2.1 ∧
      c.Bounds.In (ENode.PaintMarked.iter cs path k).2.2 = true := by
  induction cs generalizing k i with
  | nil => simp at hc
  | cons x xs ih =>
    rw [paintMarked_iter_cons]
    cases i with
    | zero =>
      simp only [List.getElem?_cons_zero, Option.some.injEq] at hc
      subst hc
      have := paintMarked_of_needsPaint x (path ++ [k]) h
      exact ⟨List.mem_append_left _ this.1, Rectangle.in_union_left _ _ _ this.2⟩
    | succ j =>
      simp only [List.getElem?_cons_succ] at hc
      have := ih (k + 1) j hc
      rw [show k + 1 + j = k + (j + 1) by omega] at this
      exact ⟨List.mem_append_right _ this.1, Rectangle.in_union_right _ _ _ this.2⟩

theorem paintMarked_child (n : Node) (path : Path) (i : Nat) (c : Node)
    (hn : n.Marks.HasAny paintMarks = true) (hc : n.childs[i]? = some c)
    (h : c.Marks.NeedsPaint = true) :
    (path ++ [i]) ∈ (ENode.PaintMarked n path).2.1 ∧
      c.Bounds.In (ENode.PaintMarked n path).2.2 = true := by
  cases n with
  | mk b m cs =>
    simp only [node_Marks_mk, node_childs_mk] at hn hc
    rw [paintMarked_mk, if_pos hn]
    have := paintMarked_iter_child cs path 0 i c hc h
    rw [Nat.zero_add] at this
    exact ⟨List.mem_append_right _ this.1, Rectangle.in_union_right _ _ _ this.2⟩

theorem enodePaintMarked_floatChild (ml : MultiLayer) (fl : FloatLayer) (i : Nat)
    (hroot : ml.Marks.HasAny paintMarks = true) (hm : FloatChildMarked ml fl i) :
    ∃ c, (ml.floatLayer fl).childs[i]? = some c ∧
      [fl.index, i] ∈ ml.ENodePaintMarked.2.1 ∧ c.Bounds.In ml.ENodePaintMarked.2.2 = true := by
  obtain ⟨c, hc, hnp, hcnp⟩ := hm
  refine ⟨c, hc, ?_⟩
  have hfl : (ml.floatLayer fl).Marks.HasAny paintMarks = true := by
    rw [Marks.hasAny_paintMarks, hcnp, Bool.or_true]
  have := paintMarked_child (ml.floatLayer fl) [fl.index] i c hfl hc hnp
  unfold MultiLayer.ENodePaintMarked
  rw [if_pos hroot]
  cases fl with
  | Context =>
    exact ⟨List.mem_append_right _ (List.mem_append_right _ (List.mem_append_right _
        (List.mem_append_left _ this.1))),
      Rectangle.in_union_right _ _ _ (Rectangle.in_union_right _ _ _
        (Rectangle.in_union_right _ _ _ (Rectangle.in_union_left _ _ _ this.2)))⟩
  | Menu =>
    exact ⟨List.mem_append_right _ (List.mem_append_right _ (List.mem_append_right _
        (List.mem_append_right _ (List.mem_append_left _ this.1)))),
      Rectangle.in_union_right _ _ _ (Rectangle.in_union_right _ _ _
        (Rectangle.in_union_right _ _ _ (Rectangle.in_union_right _ _ _
          (Rectangle.in_union_left _ _ _ this.2))))⟩

/-! ## Closed trees -/

theorem Node.paintClosed_iff (n : Node) :
    n.paintClosed = true ↔
      (anyPaintMarked n.childs = true → n.Marks.ChildNeedsPaint = true) ∧
        Node.paintClosedList n.childs = true := by
  cases n with
  | mk b m cs =>
    rw [Node.paintClosed]
    cases h : anyPaintMarked cs <;> simp [h]

theorem Node.paintClosedList_iff (cs : List Node) :
    Node.paintClosedList cs = true ↔ ∀ c ∈ cs, c.paintClosed = true := by
  induction cs with
  | nil => simp [Node.paintClosedList]
  | cons c cs ih => rw [Node.paintClosedList]; simp [ih]

theorem anyPaintMarked_iff (cs : List Node) :
    anyPaintMarked cs = true ↔
      ∃ c ∈ cs, (c.Marks.NeedsPaint = true ∨ c.Marks.ChildNeedsPaint = true) := by
  simp [anyPaintMarked]

theorem anyPaintMarked_of_intersecting (node : Node) (r : Rectangle)
    (h : intersectingNodeNeedingPaintExists node r = true) :
    anyPaintMarked node.childs = true := by
  rw [intersecting_node, intersecting_iter_iff] at h
  obtain ⟨c, hc, _, h2⟩ := h
  rw [anyPaintMarked_iff]
  exact ⟨c, hc, h2.imp id (fun h => h.1)⟩

theorem root_marked_of_pending (ml : MultiLayer) (r : Rectangle) (hcl : ml.paintClosed = true)
    (h : intersectingNodeNeedingPaintExists ml.BgLayer r = true) :
    ml.Marks.ChildNeedsPaint = true := by
  rw [MultiLayer.paintClosed, Node.paintClosed_iff] at hcl
  have hbg : ml.BgLayer.paintClosed = true :=
    (Node.paintClosedList_iff _).mp hcl.2 ml.BgLayer (by simp [MultiLayer.toNode])
  have h1 := ((Node.paintClosed_iff _).mp hbg).1 (anyPaintMarked_of_intersecting _ r h)
  apply hcl.1
  rw [anyPaintMarked_iff]
  exact ⟨ml.BgLayer, by simp [MultiLayer.toNode], Or.inr h1⟩

/-- C1: let F be a visible child (no ForceZeroBounds) of the context or menu layer, of
index `i`, such that `intersectingNodeNeedingPaintExists(BgLayer, F.Bounds)` is true when
`MultiLayer.PaintMarked` is called. Then F carries NeedsPaint when the traversal pass
starts (after the pre-marking pass), and, in a compositor state whose marks are closed
upward (the paint-mark invariant of the data model), F is drawn and `F.Bounds` lies
inside the returned rectangle. -/
theorem C1_overlay_over_pending_paint_is_drawn (ml : MultiLayer) (fl : FloatLayer) (i : Nat)
    (F : Node) (hF : (ml.floatLayer fl).childs[i]? = some F)
    (hvis : F.Marks.ForceZeroBounds = false)
    (hpend : intersectingNodeNeedingPaintExists ml.BgLayer F.Bounds = true) :
    (∃ F2, (ml.markFloatLayers.floatLayer fl).childs[i]? = some F2 ∧
      F2.Bounds = F.Bounds ∧ F2.Marks.NeedsPaint = true) ∧
    (ml.paintClosed = true →
      [fl.index, i] ∈ ml.PaintMarked.2.1 ∧ F.Bounds.In ml.PaintMarked.2.2 = true) := by
  have hm := markFloatLayers_marked ml fl i F hF hvis hpend
  have hg := markFloatLayers_grows ml
  obtain ⟨F2, hF2, hgF⟩ := ml_paintGrows_floatChild hg fl i F hF
  have hb : F2.Bounds = F.Bounds := ((Node.paintGrows_iff F F2).mp hgF).1
  constructor
  · obtain ⟨c, hc, hnp, _⟩ := hm
    rw [hF2] at hc
    cases hc
    exact ⟨F2, hF2, hb, hnp⟩
  · intro hcl
    have hroot : ml.markFloatLayers.Marks.HasAny paintMarks = true := by
      rw [Marks.hasAny_paintMarks,
        ((ml_paintGrows_iff _ _).mp hg).2.1.2.1 (root_marked_of_pending ml _ hcl hpend),
        Bool.or_true]
    obtain ⟨c, hc, hd, hin⟩ := enodePaintMarked_floatChild ml.markFloatLayers fl i hroot hm
    rw [hF2] at hc
    cases hc
    rw [hb] at hin
    exact ⟨hd, hin⟩

/-- Witness for C1 (the overlay-forcing example of the specification): with A (0,0,10,10)
marked and the visible overlay F (5,5,15,15), A and F are drawn and the returned rectangle
is exactly (0,0,15,15). -/
theorem C1_witness :
    sampleOverlayForcing.paintClosed = true ∧
    [2, 0] ∈ sampleOverlayForcing.PaintMarked.2.1 ∧
    (Rect 5 5 15 15).In sampleOverlayForcing.PaintMarked.2.2 = true ∧
    sampleOverlayForcing.PaintMarked.2.1 = [[0, 0], [2, 0]] ∧
    sampleOverlayForcing.PaintMarked.2.2 = Rect 0 0 15 15 :=
  ⟨by decide,
    ((C1_overlay_over_pending_paint_is_drawn sampleOverlayForcing FloatLayer.Context 0
      (leaf (Rect 5 5 15 15) Marks.none) rfl (by decide) (by decide)).2 (by decide)).1,
    ((C1_overlay_over_pending_paint_is_drawn sampleOverlayForcing FloatLayer.Context 0
      (leaf (Rect 5 5 15 15) Marks.none) rfl (by decide) (by decide)).2 (by decide)).2,
    by decide, by decide⟩

/-- C2 at the failing input `sampleTwoOverlays`: both overlays are visible and the state is
closed upward; when the pre-marking pass has finished, the background node B carries
NeedsPaint (it was marked for the overlay n2) and overlaps the overlay n1, so
`intersectingNodeNeedingPaintExists(BgLayer, n1.Bounds)` is true on the marks at the start
of the traversal, but n1 does not carry NeedsPaint: B is drawn and n1 is not. -/
theorem C2_stale_overlay_at_failing_input :
    sampleTwoOverlays.paintClosed = true ∧
    FloatLayer.visibleNodes sampleTwoOverlays FloatLayer.Context = [0, 1] ∧
    needsPaintBits sampleTwoOverlays.markFloatLayers.BgLayer.childs = [true, true] ∧
    intersectingNodeNeedingPaintExists sampleTwoOverlays.markFloatLayers.BgLayer
      (Rect 20 0 25 5) = true ∧
    needsPaintBits sampleTwoOverlays.markFloatLayers.ContextLayer.childs = [false, true] ∧
    sampleTwoOverlays.PaintMarked.2.1 = [[0, 0], [0, 1], [2, 1]] := by
  decide

/-! ## Closed trees stay closed -/

theorem markIntersecting_marks_chain (node : Node) (parents : List Marks) (r : Rectangle) :
    ((markIntersectingNodesNotNeedingPaint node parents r).1.Marks = node.Marks ∧
      (markIntersectingNodesNotNeedingPaint node parents r).2.1 = parents) ∨
    ((markIntersectingNodesNotNeedingPaint node parents r).1.Marks =
        node.Marks.Add MarkChildNeedsPaint ∧
      (markIntersectingNodesNotNeedingPaint node parents r).2.1 =
        if node.Marks.ChildNeedsPaint then parents else markUp parents) := by
  cases node with
  | mk b m cs =>
    have hc := (markIntersecting_iter_grows r cs (fun c _ => markIntersecting_nodeSpec r c)
      (m :: parents) ZR).2
    rw [markIntersecting_mk]
    rcases hc with hc | hc
    · left; rw [hc]; exact ⟨rfl, rfl⟩
    · right; rw [hc, markUp_cons]; exact ⟨rfl, rfl⟩

theorem markIntersecting_gains_childNeedsPaint (node : Node) (parents : List Marks)
    (r : Rectangle)
    (h1 : (markIntersectingNodesNotNeedingPaint node parents r).1.Marks.ChildNeedsPaint = true)
    (h2 : node.Marks.ChildNeedsPaint = false) :
    (markIntersectingNodesNotNeedingPaint node parents r).2.1 = markUp parents := by
  rcases markIntersecting_marks_chain node parents r with ⟨e1, _⟩ | ⟨_, e2⟩
  · rw [e1, h2] at h1; cases h1
  · rw [e2, h2]; rfl

theorem paintClosed_setMarks_needsPaint (c : Node) (h : c.paintClosed = true) :
    (c.setMarks (c.Marks.Add MarkNeedsPaint)).paintClosed = true := by
  obtain ⟨_, f2, f3⟩ := node_setMarks_fields c (c.Marks.Add MarkNeedsPaint)
  rw [Node.paintClosed_iff] at h ⊢
  rw [f2, f3]
  exact ⟨fun ha => by rw [Marks.add_needsPaint_childNeedsPaint]; exact h.1 ha, h.2⟩

theorem marked_setMarks_needsPaint (c : Node) :
    (c.setMarks (c.Marks.Add MarkNeedsPaint)).Marks.NeedsPaint = true := by
  rw [(node_setMarks_fields c _).2.1]; simp

theorem markIntersecting_callback_closed (r : Rectangle) (c : Node) (ih : MarkClosedSpec r c)
    (chain : List Marks) (u : Rectangle) (hcl : c.paintClosed = true) :
    (markIntersectingNodesNotNeedingPaint.callback c chain r u).1.paintClosed = true ∧
    ((markIntersectingNodesNotNeedingPaint.callback c chain r u).1.Marks.HasAny paintMarks
        = true →
      c.Marks.HasAny paintMarks = true ∨
        (markIntersectingNodesNotNeedingPaint.callback c chain r u).2.1 = markUp chain) := by
  have hsub := ih chain hcl
  have hnp := (markIntersecting_nodeSpec r c chain).2.1
  have hch := (markIntersecting_nodeSpec r c chain).2.2
  rcases markIntersecting_callback_cases c chain r u with
    ⟨_, e⟩ | ⟨_, _, _, _, e⟩ | ⟨_, _, _, _, e⟩ | ⟨_, _, _, e⟩
  · rw [e]; exact ⟨hcl, fun h => Or.inl h⟩
  · rw [e]
    refine ⟨hsub, fun h => ?_⟩
    simp only [Marks.hasAny_paintMarks, Bool.or_eq_true] at h ⊢
    rcases h with h | h
    · left; left; rw [← hnp]; exact h
    · cases h2 : c.Marks.ChildNeedsPaint
      · right; exact markIntersecting_gains_childNeedsPaint c chain r h h2
      · left; right; rfl
  · rw [e]
    refine ⟨paintClosed_setMarks_needsPaint _ hsub, fun _ => Or.inr ?_⟩
    rcases hch with hch | hch <;> simp only [hch, markUp_idem]
  · rw [e]
    exact ⟨paintClosed_setMarks_needsPaint _ hcl, fun _ => Or.inr rfl⟩

theorem markIntersecting_iter_closed (r : Rectangle) (cs : List Node)
    (ih : ∀ c ∈ cs, MarkClosedSpec r c) (chain : List Marks) (u : Rectangle)
    (hcl : Node.paintClosedList cs = true) :
    Node.paintClosedList (markIntersectingNodesNotNeedingPaint.iter cs chain r u).1 = true ∧
    (anyPaintMarked (markIntersectingNodesNotNeedingPaint.iter cs chain r u).1 = true →
      anyPaintMarked cs = true ∨
        (markIntersectingNodesNotNeedingPaint.iter cs chain r u).2.1 = markUp chain) := by
  induction cs generalizing chain u with
  | nil =>
    rw [markIntersecting_iter_nil]
    exact ⟨rfl, fun h => Or.inl h⟩
  | cons c rest ihl =>
    rw [Node.paintClosedList, Bool.and_eq_true] at hcl
    have hspec : ∀ x ∈ c :: rest, MarkNodeSpec r x := fun x _ => markIntersecting_nodeSpec r x
    have hchain := (markIntersecting_iter_grows r (c :: rest) hspec chain u).2
    have hcb1 := (markIntersecting_callback_grows r c (markIntersecting_nodeSpec r c) chain u).2
    have hrest1 := fun ch v => (markIntersecting_iter_grows r rest
      (fun x _ => markIntersecting_nodeSpec r x) ch v).2
    obtain ⟨h1, h2⟩ :=
      markIntersecting_callback_closed r c (ih c (List.mem_cons_self _ _)) chain u hcl.1
    have ihr := fun ch v => ihl (fun x hx => ih x (List.mem_cons_of_mem _ hx)) ch v hcl.2
    rw [markIntersecting_iter_cons] at hchain ⊢
    generalize markIntersectingNodesNotNeedingPaint.callback c chain r u = cb
      at h1 h2 hchain hcb1 ⊢
    obtain ⟨h3, h4⟩ := ihr cb.2.1 cb.2.2
    have hrest := hrest1 cb.2.1 cb.2.2
    generalize markIntersectingNodesNotNeedingPaint.iter rest cb.2.1 r cb.2.2 = res
      at h3 h4 hchain hrest ⊢
    simp only at hchain ⊢
    refine ⟨by rw [Node.paintClosedList, h1, h3]; rfl, fun ha => ?_⟩
    have ha2 : cb.1.Marks.HasAny paintMarks = true ∨ anyPaintMarked res.1 = true := by
      simpa only [anyPaintMarked, List.any_cons, Bool.or_eq_true] using ha
    have hidem : cb.2.1 = markUp chain → res.2.1 = markUp chain := by
      intro hm
      rcases hrest with hr | hr
      · rw [hr, hm]
      · rw [hr, hm, markUp_idem]
    rcases ha2 with ha2 | ha2
    · rcases h2 ha2 with h | h
      · left
        simp only [anyPaintMarked, List.any_cons, Bool.or_eq_true]
        exact Or.inl h
      · right; exact hidem h
    · rcases h4 ha2 with h | h
      · left
        simp only [anyPaintMarked, List.any_cons, Bool.or_eq_true] at h ⊢
        exact Or.inr h
      · right
        rcases hcb1 with hc | hc
        · rw [h, hc]
        · rw [h, hc, markUp_idem]

theorem markIntersecting_closedSpec (r : Rectangle) (node : Node) : MarkClosedSpec r node := by
  induction node using Node.induction with
  | h b m cs ih =>
    intro parents hcl
    rw [Node.paintClosed_iff] at hcl
    simp only [node_childs_mk, node_Marks_mk] at hcl
    obtain ⟨h1, h2⟩ := markIntersecting_iter_closed r cs ih (m :: parents) ZR hcl.2
    have hchain := (markIntersecting_iter_grows r cs
      (fun x _ => markIntersecting_nodeSpec r x) (m :: parents) ZR).2
    rw [markIntersecting_mk, Node.paintClosed_iff]
    simp only [node_childs_mk, node_Marks_mk]
    refine ⟨fun ha => ?_, h1⟩
    rcases h2 ha with h | h
    · have hm := hcl.1 h
      rcases hchain with hc | hc
      · rw [hc]; exact hm
      · rw [hc, markUp_cons]; simp
    · rw [h, markUp_cons]; simp

theorem ml_paintClosed_iff (ml : MultiLayer) :
    ml.paintClosed = true ↔
      ((ml.BgLayer.Marks.HasAny paintMarks = true ∨
          ml.SeparatorLayer.Marks.HasAny paintMarks = true ∨
          ml.ContextLayer.Marks.HasAny paintMarks = true ∨
          ml.MenuLayer.Marks.HasAny paintMarks = true) → ml.Marks.ChildNeedsPaint = true) ∧
      ml.BgLayer.paintClosed = true ∧ ml.SeparatorLayer.paintClosed = true ∧
      ml.ContextLayer.paintClosed = true ∧ ml.MenuLayer.paintClosed = true := by
  rw [MultiLayer.paintClosed, Node.paintClosed_iff]
  simp only [MultiLayer.toNode, node_childs_mk, node_Marks_mk, anyPaintMarked, List.any_cons,
    List.any_nil, Bool.or_false, Bool.or_eq_true, Node.paintClosedList, Bool.and_true,
    Bool.and_eq_true]

theorem rectNeedsPaint_closed (ml : MultiLayer) (r : Rectangle) (h : ml.paintClosed = true) :
    (BgLayer.RectNeedsPaint ml r).paintClosed = true := by
  rw [ml_paintClosed_iff] at h ⊢
  obtain ⟨_, f2, f3, f4, f5, f6⟩ := rectNeedsPaint_fields ml r
  obtain ⟨hroot, hbg, hsep, hctx, hmenu⟩ := h
  have hgrow := ((ml_paintGrows_iff _ _).mp (rectNeedsPaint_grows ml r)).2.1.2.1
  rw [f2, f3, f4, f5]
  refine ⟨fun ha => ?_, markIntersecting_closedSpec r ml.BgLayer [ml.Marks] hbg, hsep, hctx,
    hmenu⟩
  have hnp := (markIntersecting_nodeSpec r ml.BgLayer [ml.Marks]).2.1
  rcases ha with ha | ha
  · simp only [Marks.hasAny_paintMarks, Bool.or_eq_true] at ha hroot
    rcases ha with ha | ha
    · exact hgrow (hroot (Or.inl (Or.inl (by rw [← hnp]; exact ha))))
    · cases hb : ml.BgLayer.Marks.ChildNeedsPaint
      · have := markIntersecting_gains_childNeedsPaint ml.BgLayer [ml.Marks] r ha hb
        simp only [BgLayer.RectNeedsPaint, this, markUp_cons]
        simp
      · exact hgrow (hroot (Or.inl (Or.inr hb)))
  · exact hgrow (hroot (Or.inr ha))

theorem paintClosedList_set (cs : List Node) (n : Nat) (c2 : Node)
    (h : Node.paintClosedList cs = true) (h2 : c2.paintClosed = true) :
    Node.paintClosedList (cs.set n c2) = true := by
  rw [Node.paintClosedList_iff] at h ⊢
  intro x hx
  rcases List.mem_or_eq_of_mem_set hx with hx | hx
  · exact h x hx
  · rw [hx]; exact h2

theorem floatChild_closed (ml : MultiLayer) (fl : FloatLayer) (n : Nat)
    (h : ml.paintClosed = true) : (ml.floatChildMarkNeedsPaint fl n).paintClosed = true := by
  cases hc : (ml.floatLayer fl).childs[n]? with
  | none => rw [floatChild_none ml fl n hc]; exact h
  | some c =>
    have hcl := h
    rw [ml_paintClosed_iff] at h
    obtain ⟨hroot, hbg, hsep, hctx, hmenu⟩ := h
    have hflc : (ml.floatLayer fl).paintClosed = true := by cases fl <;> assumption
    have hcc : c.paintClosed = true :=
      (Node.paintClosedList_iff _).mp ((Node.paintClosed_iff _).mp hflc).2 c
        (List.mem_iff_getElem?.mpr ⟨n, hc⟩)
    have hnew : (Node.mk (ml.floatLayer fl).Bounds
        ((ml.floatLayer fl).Marks.Add MarkChildNeedsPaint)
        ((ml.floatLayer fl).childs.set n (c.setMarks (c.Marks.Add MarkNeedsPaint)))).paintClosed
          = true := by
      rw [Node.paintClosed_iff]
      simp only [node_childs_mk, node_Marks_mk]
      exact ⟨fun _ => by simp, paintClosedList_set _ n _ ((Node.paintClosed_iff _).mp hflc).2
        (paintClosed_setMarks_needsPaint c hcc)⟩
    have hrootnew : (if (ml.floatLayer fl).Marks.ChildNeedsPaint then ml.Marks
        else ml.Marks.Add MarkChildNeedsPaint).ChildNeedsPaint = true := by
      cases hm : (ml.floatLayer fl).Marks.ChildNeedsPaint
      · simp
      · simp only [if_true]
        apply hroot
        have : (ml.floatLayer fl).Marks.HasAny paintMarks = true := by
          rw [Marks.hasAny_paintMarks, hm, Bool.or_true]
        cases fl
        · exact Or.inr (Or.inr (Or.inl this))
        · exact Or.inr (Or.inr (Or.inr this))
    rw [floatChild_some ml fl n c hc, ml_paintClosed_iff]
    cases fl
    · exact ⟨fun _ => hrootnew, hbg, hsep, hnew, hmenu⟩
    · exact ⟨fun _ => hrootnew, hbg, hsep, hctx, hnew⟩

theorem markFloatLayerNodes_body_closed (fl : FloatLayer) (ml : MultiLayer) (n : Nat)
    (h : ml.paintClosed = true) :
    (MultiLayer.markFloatLayerNodes.body fl ml n).paintClosed = true := by
  unfold MultiLayer.markFloatLayerNodes.body
  split
  · exact h
  · split
    · exact rectNeedsPaint_closed _ _ (floatChild_closed ml fl n h)
    · exact h

theorem layout_body_closed (fl : FloatLayer) (ml : MultiLayer) (n : Nat)
    (h : ml.paintClosed = true) : (FloatLayer.Layout.body fl ml n).paintClosed = true := by
  unfold FloatLayer.Layout.body
  split
  · exact h
  · exact rectNeedsPaint_closed _ _ (floatChild_closed ml fl n h)

theorem foldl_closed (f : MultiLayer → Nat → MultiLayer)
    (hf : ∀ ml n, ml.paintClosed = true → (f ml n).paintClosed = true) (l : List Nat)
    (ml : MultiLayer) (h : ml.paintClosed = true) : (l.foldl f ml).paintClosed = true := by
  induction l generalizing ml with
  | nil => exact h
  | cons n l ih => exact ih (f ml n) (hf ml n h)

theorem markFloatLayers_closed (ml : MultiLayer) (h : ml.paintClosed = true) :
    ml.markFloatLayers.paintClosed = true := by
  rw [markFloatLayers_eq, markFloatLayerNodes_eq, markFloatLayerNodes_eq]
  exact foldl_closed _ (markFloatLayerNodes_body_closed _) _ _
    (foldl_closed _ (markFloatLayerNodes_body_closed _) _ _ h)

theorem layout_closed (ml : MultiLayer) (fl : FloatLayer) (h : ml.paintClosed = true) :
    (FloatLayer.Layout ml fl).paintClosed = true :=
  foldl_closed _ (layout_body_closed fl) _ _ h

/-! ## The traversal leaves a closed tree clean -/

theorem paintClean_of_closed_unmarked (n : Node) :
    n.paintClosed = true → n.Marks.HasAny paintMarks = false → n.paintClean = true := by
  induction n using Node.induction with
  | h b m cs ih =>
    intro hcl hm
    rw [Node.paintClosed_iff] at hcl
    simp only [node_childs_mk, node_Marks_mk, Marks.hasAny_paintMarks,
      Bool.or_eq_false_iff] at hcl hm
    have hany : anyPaintMarked cs = false := by
      cases ha : anyPaintMarked cs
      · rfl
      · rw [hcl.1 ha] at hm; exact absurd hm.2 (by simp)
    rw [anyPaintMarked_eq_false_iff] at hany
    rw [Node.paintClean_iff]
    refine ⟨hm.1, hm.2, (Node.paintCleanList_iff _).mpr (fun c hc => ?_)⟩
    refine ih c hc ((Node.paintClosedList_iff _).mp hcl.2 c hc) ?_
    rw [Marks.hasAny_paintMarks, (hany c hc).1, (hany c hc).2]; rfl

theorem marks_remove_paintMarks (m : Marks) :
    (m.Remove paintMarks).NeedsPaint = false ∧ (m.Remove paintMarks).ChildNeedsPaint = false := by
  simp [Marks.Remove, paintMarks, Marks.Add, MarkNeedsPaint, MarkChildNeedsPaint]

theorem paintMarked_iter_clean (cs : List Node)
    (ih : ∀ c ∈ cs, c.paintClosed = true →
      ∀ path, (ENode.PaintMarked c path).1.paintClean = true)
    (hcl : Node.paintClosedList cs = true) (path : Path) (k : Nat) :
    Node.paintCleanList (ENode.PaintMarked.iter cs path k).1 = true := by
  induction cs generalizing k with
  | nil => rw [paintMarked_iter_nil]; rfl
  | cons c rest ihl =>
    rw [Node.paintClosedList, Bool.and_eq_true] at hcl
    rw [paintMarked_iter_cons, Node.paintCleanList,
      ih c (List.mem_cons_self _ _) hcl.1,
      ihl (fun x hx => ih x (List.mem_cons_of_mem _ hx)) hcl.2]
    rfl

theorem paintMarked_clean (n : Node) :
    n.paintClosed = true → ∀ path, (ENode.PaintMarked n path).1.paintClean = true := by
  induction n using Node.induction with
  | h b m cs ih =>
    intro hcl path
    rw [paintMarked_mk]
    by_cases hm : m.HasAny paintMarks = true
    · rw [if_pos hm, Node.paintClean_iff]
      simp only [node_childs_mk, node_Marks_mk]
      exact ⟨(marks_remove_paintMarks m).1, (marks_remove_paintMarks m).2,
        paintMarked_iter_clean cs ih ((Node.paintClosed_iff _).mp hcl).2 path 0⟩
    · rw [if_neg hm]
      exact paintClean_of_closed_unmarked _ hcl (by simpa using hm)

theorem ml_paintClean_iff (ml : MultiLayer) :
    ml.paintClean = true ↔
      ml.Marks.HasAny paintMarks = false ∧ ml.BgLayer.paintClean = true ∧
      ml.SeparatorLayer.paintClean = true ∧ ml.ContextLayer.paintClean = true ∧
      ml.MenuLayer.paintClean = true := by
  rw [MultiLayer.paintClean, Node.paintClean_iff]
  simp only [MultiLayer.toNode, node_childs_mk, node_Marks_mk, Node.paintCleanList,
    Bool.and_true, Bool.and_eq_true, Marks.hasAny_paintMarks, Bool.or_eq_false_iff, and_assoc]

theorem enodePaintMarked_clean (ml : MultiLayer) (h : ml.paintClosed = true) :
    ml.ENodePaintMarked.1.paintClean = true := by
  unfold MultiLayer.ENodePaintMarked
  by_cases hm : ml.Marks.HasAny paintMarks = true
  · rw [if_pos hm, ml_paintClean_iff]
    rw [ml_paintClosed_iff] at h
    simp only [Marks.hasAny_paintMarks, (marks_remove_paintMarks ml.Marks).1,
      (marks_remove_paintMarks ml.Marks).2, Bool.or_self, true_and]
    exact ⟨paintMarked_clean _ h.2.1 _, paintMarked_clean _ h.2.2.1 _,
      paintMarked_clean _ h.2.2.2.1 _, paintMarked_clean _ h.2.2.2.2 _⟩
  · rw [if_neg hm]
    exact paintClean_of_closed_unmarked ml.toNode h (by simpa [MultiLayer.toNode] using hm)

theorem paintMarked_of_clean (ml : MultiLayer) (h : ml.paintClean = true) :
    ml.PaintMarked = (ml, [], ZR) := by
  rw [ml_paintClean_iff] at h
  rw [MultiLayer.PaintMarked,
    markFloatLayers_of_unmarked ml (anyPaintMarked_of_paintClean _ h.2.1)]
  unfold MultiLayer.ENodePaintMarked
  rw [if_neg (by rw [h.1]; simp)]

/-- C4: idempotence of `MultiLayer.PaintMarked`. On a compositor tree in which no node
carries NeedsPaint or ChildNeedsPaint (overlays lying over background nodes included),
`PaintMarked` leaves every node as it is, draws no node and returns the zero (empty)
rectangle. A call of `PaintMarked` on a state whose marks are closed upward (the
paint-mark invariant of the data model) leaves such a tree, so a second call right after
it draws nothing and returns the empty rectangle. -/
theorem C4_paintMarked_idempotent (ml : MultiLayer) :
    (ml.paintClean = true → ml.PaintMarked = (ml, [], ZR)) ∧
    (ml.paintClosed = true →
      ml.PaintMarked.1.paintClean = true ∧
      ml.PaintMarked.1.PaintMarked = (ml.PaintMarked.1, [], ZR)) := by
  refine ⟨paintMarked_of_clean ml, fun h => ?_⟩
  have hc : ml.PaintMarked.1.paintClean = true :=
    enodePaintMarked_clean _ (markFloatLayers_closed ml h)
  exact ⟨hc, paintMarked_of_clean _ hc⟩

/-- Witness for C4: `PaintMarked` on the clean tree `sampleCleanOverlay` (an overlay lying
over a background node) changes nothing, and a second call after the one on
`sampleOverlayForcing` draws nothing. -/
theorem C4_witness :
    sampleCleanOverlay.PaintMarked = (sampleCleanOverlay, [], ZR) ∧
    sampleOverlayForcing.PaintMarked.1.PaintMarked.2 = ([], ZR) :=
  ⟨(C4_paintMarked_idempotent sampleCleanOverlay).1 (by decide),
    by rw [((C4_paintMarked_idempotent sampleOverlayForcing).2 (by decide)).2]⟩

/-! ## `FloatLayer.Layout` -/

theorem layout_body_marked (ml : MultiLayer) (fl : FloatLayer) (n : Nat) (c : Node)
    (h : (ml.floatLayer fl).childs[n]? = some c) :
    FloatChildMarked (FloatLayer.Layout.body fl ml n) fl n := by
  unfold FloatLayer.Layout.body
  rw [h]
  exact floatChildMarked_mono (rectNeedsPaint_grows _ _) fl n (floatChild_marked ml fl n c h)

theorem layout_marked (ml : MultiLayer) (fl : FloatLayer) (i : Nat) (c : Node)
    (h : (ml.floatLayer fl).childs[i]? = some c) (hv : c.Marks.ForceZeroBounds = false) :
    FloatChildMarked (FloatLayer.Layout ml fl) fl i := by
  have hi : i ∈ FloatLayer.visibleNodes ml fl := (visibleNodes_mem ml fl i).mpr ⟨c, h, hv⟩
  unfold FloatLayer.Layout
  generalize FloatLayer.visibleNodes ml fl = l at hi
  induction l generalizing ml c with
  | nil => exact absurd hi (List.not_mem_nil _)
  | cons j l ih =>
    rw [List.foldl_cons]
    by_cases hji : i = j
    · subst hji
      exact floatChildMarked_mono (foldl_grows _ (layout_body_grows fl) l _) fl i
        (layout_body_marked ml fl i c h)
    · have hil : i ∈ l := by
        rcases List.mem_cons.mp hi with h | h
        · exact absurd h hji
        · exact h
      obtain ⟨c2, hc2, hgc⟩ := ml_paintGrows_floatChild (layout_body_grows fl ml j) fl i c h
      exact ih _ c2 hc2
        (by rw [((Node.paintGrows_iff c c2).mp hgc).2.1.2.2.2.2.2]; exact hv) hil

/-! ## A childless child overlapping the rectangle gets marked -/

theorem markIntersecting_leaf (b : Rectangle) (m : Marks) (parents : List Marks)
    (r : Rectangle) :
    markIntersectingNodesNotNeedingPaint (Node.mk b m []) parents r =
      (Node.mk b m [], parents, ZR) := by
  rw [markIntersecting_mk, markIntersecting_iter_nil]
  rfl

theorem markIntersecting_callback_leaf (c : Node) (chain : List Marks) (r u : Rectangle)
    (hleaf : c.childs = []) (hov : c.Bounds.Overlaps r = true) :
    (markIntersectingNodesNotNeedingPaint.callback c chain r u).1.Marks.NeedsPaint = true := by
  cases c with
  | mk b m cs =>
    simp only [node_childs_mk] at hleaf
    subst hleaf
    simp only [node_Bounds_mk] at hov
    have hr : r.Empty = false := Rectangle.overlaps_nonempty_right _ _ hov
    rcases markIntersecting_callback_cases (Node.mk b m []) chain r u with
      ⟨h, e⟩ | ⟨_, _, _, h, _⟩ | ⟨_, _, _, _, e⟩ | ⟨_, _, _, e⟩
    · rw [e]
      rcases h with h | h
      · rw [node_Bounds_mk, hov] at h; cases h
      · exact h
    · rw [markIntersecting_leaf, Rectangle.in_ZR r hr] at h; cases h
    · rw [e]; dsimp only; exact marked_setMarks_needsPaint _
    · rw [e]; dsimp only; exact marked_setMarks_needsPaint _

theorem markIntersecting_iter_leaf_marked (cs : List Node) (chain : List Marks)
    (r u : Rectangle) (j : Nat) (c : Node) (hc : cs[j]? = some c) (hleaf : c.childs = [])
    (hov : c.Bounds.Overlaps r = true) :
    ∃ c2, (markIntersectingNodesNotNeedingPaint.iter cs chain r u).1[j]? = some c2 ∧
      c2.Marks.NeedsPaint = true := by
  induction cs generalizing chain u j with
  | nil => simp at hc
  | cons x xs ih =>
    rw [markIntersecting_iter_cons]
    cases j with
    | zero =>
      simp only [List.getElem?_cons_zero, Option.some.injEq] at hc
      subst hc
      exact ⟨_, by simp, markIntersecting_callback_leaf x chain r u hleaf hov⟩
    | succ j =>
      simp only [List.getElem?_cons_succ] at hc ⊢
      exact ih _ _ j hc

theorem rectNeedsPaint_leaf_marked (ml : MultiLayer) (r : Rectangle) (j : Nat) (c : Node)
    (hc : ml.BgLayer.childs[j]? = some c) (hleaf : c.childs = [])
    (hov : c.Bounds.Overlaps r = true) :
    ∃ c2, (BgLayer.RectNeedsPaint ml r).BgLayer.childs[j]? = some c2 ∧
      c2.Marks.NeedsPaint = true := by
  rw [(rectNeedsPaint_fields ml r).2.1]
  cases hbg : ml.BgLayer with
  | mk b m cs =>
    rw [hbg] at hc
    simp only [node_childs_mk] at hc
    rw [markIntersecting_mk]
    simp only [node_childs_mk]
    exact markIntersecting_iter_leaf_marked cs _ r ZR j c hc hleaf hov

theorem floatChild_bg (ml : MultiLayer) (fl : FloatLayer) (n : Nat) :
    (ml.floatChildMarkNeedsPaint fl n).BgLayer = ml.BgLayer := by
  cases hc : (ml.floatLayer fl).childs[n]? with
  | none => rw [floatChild_none ml fl n hc]
  | some c => rw [floatChild_some ml fl n c hc]; cases fl <;> rfl

theorem ml_paintGrows_bgChild {ml1 ml2 : MultiLayer} (h : MultiLayer.PaintGrows ml1 ml2)
    (j : Nat) (c : Node) (hc : ml1.BgLayer.childs[j]? = some c) :
    ∃ c2, ml2.BgLayer.childs[j]? = some c2 ∧ Node.PaintGrows c c2 :=
  Node.paintGrowsList_getElem? _ _
    ((Node.paintGrows_iff _ _).mp (ml_paintGrows_bg h)).2.2 j c hc

theorem paintGrows_childs_nil (c c2 : Node) (h : Node.PaintGrows c c2) (hleaf : c.childs = []) :
    c2.childs = [] := by
  have := Node.paintGrowsList_length _ _ ((Node.paintGrows_iff c c2).mp h).2.2
  rw [hleaf] at this
  exact List.length_eq_zero.mp this

theorem layout_body_bg_leaf_marked (ml : MultiLayer) (fl : FloatLayer) (i : Nat) (F : Node)
    (j : Nat) (B : Node) (hF : (ml.floatLayer fl).childs[i]? = some F)
    (hB : ml.BgLayer.childs[j]? = some B) (hleaf : B.childs = [])
    (hov : B.Bounds.Overlaps F.Bounds = true) :
    ∃ B2, (FloatLayer.Layout.body fl ml i).BgLayer.childs[j]? = some B2 ∧
      B2.Marks.NeedsPaint = true := by
  unfold FloatLayer.Layout.body
  rw [hF]
  exact rectNeedsPaint_leaf_marked _ _ j B (by rw [floatChild_bg]; exact hB) hleaf hov

theorem layout_bg_leaf_marked (ml : MultiLayer) (fl : FloatLayer) (i : Nat) (F : Node)
    (j : Nat) (B : Node) (hF : (ml.floatLayer fl).childs[i]? = some F)
    (hvis : F.Marks.ForceZeroBounds = false)
    (hB : ml.BgLayer.childs[j]? = some B) (hleaf : B.childs = [])
    (hov : B.Bounds.Overlaps F.Bounds = true) :
    ∃ B2, (FloatLayer.Layout ml fl).BgLayer.childs[j]? = some B2 ∧
      B2.Marks.NeedsPaint = true := by
  have hi : i ∈ FloatLayer.visibleNodes ml fl := (visibleNodes_mem ml fl i).mpr ⟨F, hF, hvis⟩
  unfold FloatLayer.Layout
  generalize FloatLayer.visibleNodes ml fl = l at hi
  induction l generalizing ml F B with
  | nil => exact absurd hi (List.not_mem_nil _)
  | cons k l ih =>
    rw [List.foldl_cons]
    by_cases hki : i = k
    · subst hki
      obtain ⟨B2, hB2, hnp⟩ := layout_body_bg_leaf_marked ml fl i F j B hF hB hleaf hov
      obtain ⟨B3, hB3, hg⟩ :=
        ml_paintGrows_bgChild (foldl_grows _ (layout_body_grows fl) l _) j B2 hB2
      exact ⟨B3, hB3, ((Node.paintGrows_iff B2 B3).mp hg).2.1.1 hnp⟩
    · have hil : i ∈ l := by
        rcases List.mem_cons.mp hi with h | h
        · exact absurd h hki
        · exact h
      have hgrow := layout_body_grows fl ml k
      obtain ⟨F2, hF2, hgF⟩ := ml_paintGrows_floatChild hgrow fl i F hF
      obtain ⟨B2, hB2, hgB⟩ := ml_paintGrows_bgChild hgrow j B hB
      have hF3 := (Node.paintGrows_iff F F2).mp hgF
      have hB3 := (Node.paintGrows_iff B B2).mp hgB
      exact ih _ F2 B2 hF2 (by rw [hF3.2.1.2.2.2.2.2]; exact hvis) hB2
        (paintGrows_childs_nil B B2 hgB hleaf) (by rw [hB3.1, hF3.1]; exact hov) hil

/-! ## What is drawn in a closed state -/

theorem closed_drawn_floatChild (ml : MultiLayer) (hcl : ml.paintClosed = true)
    (fl : FloatLayer) (i : Nat) (c : Node) (hc : (ml.floatLayer fl).childs[i]? = some c)
    (hnp : c.Marks.NeedsPaint = true) :
    [fl.index, i] ∈ ml.ENodePaintMarked.2.1 ∧ c.Bounds.In ml.ENodePaintMarked.2.2 = true := by
  have h := (ml_paintClosed_iff ml).mp hcl
  have hflc : (ml.floatLayer fl).paintClosed = true := by
    cases fl
    · exact h.2.2.2.1
    · exact h.2.2.2.2
  have hfl : (ml.floatLayer fl).Marks.ChildNeedsPaint = true :=
    ((Node.paintClosed_iff _).mp hflc).1
      ((anyPaintMarked_iff _).mpr ⟨c, List.mem_iff_getElem?.mpr ⟨i, hc⟩, Or.inl hnp⟩)
  have hflm : (ml.floatLayer fl).Marks.HasAny paintMarks = true := by
    rw [Marks.hasAny_paintMarks, hfl, Bool.or_true]
  have hroot : ml.Marks.HasAny paintMarks = true := by
    rw [Marks.hasAny_paintMarks, h.1 (by cases fl <;> simp [MultiLayer.floatLayer] at hflm <;> simp [hflm]),
      Bool.or_true]
  obtain ⟨c2, hc2, hd, hin⟩ := enodePaintMarked_floatChild ml fl i hroot ⟨c, hc, hnp, hfl⟩
  rw [hc] at hc2
  cases hc2
  exact ⟨hd, hin⟩

theorem closed_drawn_bgChild (ml : MultiLayer) (hcl : ml.paintClosed = true)
    (j : Nat) (c : Node) (hc : ml.BgLayer.childs[j]? = some c)
    (hnp : c.Marks.NeedsPaint = true) :
    [0, j] ∈ ml.ENodePaintMarked.2.1 ∧ c.Bounds.In ml.ENodePaintMarked.2.2 = true := by
  have h := (ml_paintClosed_iff ml).mp hcl
  have hbg : ml.BgLayer.Marks.ChildNeedsPaint = true :=
    ((Node.paintClosed_iff _).mp h.2.1).1
      ((anyPaintMarked_iff _).mpr ⟨c, List.mem_iff_getElem?.mpr ⟨j, hc⟩, Or.inl hnp⟩)
  have hbgm : ml.BgLayer.Marks.HasAny paintMarks = true := by
    rw [Marks.hasAny_paintMarks, hbg, Bool.or_true]
  have hroot : ml.Marks.HasAny paintMarks = true := by
    rw [Marks.hasAny_paintMarks, h.1 (Or.inl hbgm), Bool.or_true]
  have := paintMarked_child ml.BgLayer [0] j c hbgm hc hnp
  unfold MultiLayer.ENodePaintMarked
  rw [if_pos hroot]
  exact ⟨List.mem_append_right _ (List.mem_append_left _ this.1),
    Rectangle.in_union_right _ _ _ (Rectangle.in_union_left _ _ _ this.2)⟩

/-! ## The exact result in the layout-triggered repaint scenario -/

theorem paintMarked_unmarked (n : Node) (path : Path)
    (h : n.Marks.HasAny paintMarks = false) : ENode.PaintMarked n path = (n, [], ZR) := by
  cases n with
  | mk b m cs =>
    simp only [node_Marks_mk] at h
    rw [paintMarked_mk, h]
    rfl

theorem paintMarked_iter_of_clean (cs : List Node) (path : Path) (k : Nat)
    (h : Node.paintCleanList cs = true) : ENode.PaintMarked.iter cs path k = (cs, [], ZR) := by
  induction cs generalizing k with
  | nil => rw [paintMarked_iter_nil]
  | cons c rest ih =>
    rw [Node.paintCleanList, Bool.and_eq_true] at h
    have hc := (Node.paintClean_iff c).mp h.1
    rw [paintMarked_iter_cons, ih _ h.2,
      paintMarked_unmarked c _ (by rw [Marks.hasAny_paintMarks, hc.1, hc.2.1]; rfl)]
    rfl

theorem marks_add_idem (m u : Marks) : (m.Add u).Add u = m.Add u := by
  cases m; cases u; simp [Marks.Add]

@[simp] theorem marks_add_needsPaint_forceZeroBounds (m : Marks) :
    (m.Add MarkNeedsPaint).ForceZeroBounds = m.ForceZeroBounds := by
  simp [Marks.Add, MarkNeedsPaint]

theorem Rectangle.union_ZR_of_nonempty (r : Rectangle) (h : r.Empty = false) :
    r.Union ZR = r :=
  Rectangle.union_empty_right r ZR h ZR_empty

theorem layout_paintMarked_exact_context (rb : Rectangle) (rm : Marks) (bb : Rectangle)
    (bm : Marks) (Bb : Rectangle) (Bm : Marks) (sep : Node) (cb : Rectangle) (cm : Marks)
    (Fb : Rectangle) (Fm : Marks) (Fcs : List Node) (menu : Node)
    (hrm : rm.NeedsPaint = false ∧ rm.ChildNeedsPaint = false)
    (hbm : bm.NeedsPaint = false ∧ bm.ChildNeedsPaint = false)
    (hBm : Bm.NeedsPaint = false ∧ Bm.ChildNeedsPaint = false)
    (hcm : cm.NeedsPaint = false ∧ cm.ChildNeedsPaint = false)
    (hFcs : Node.paintCleanList Fcs = true)
    (hmm : menu.Marks.HasAny paintMarks = false)
    (hsep : sep.Marks.HasAny paintMarks = false)
    (hmv : visibleChildNodes menu = [])
    (hvis : Fm.ForceZeroBounds = false) (hov : Bb.Overlaps Fb = true) :
    (FloatLayer.Layout ⟨rb, rm, Node.mk bb bm [Node.mk Bb Bm []], sep,
        Node.mk cb cm [Node.mk Fb Fm Fcs], menu⟩ FloatLayer.Context).PaintMarked.2
      = ([[0, 0], [2, 0]], Bb.Union Fb) := by
  have hBne : Bb.Empty = false := Rectangle.overlaps_nonempty_left _ _ hov
  have hFne : Fb.Empty = false := Rectangle.overlaps_nonempty_right _ _ hov
  have hinZ : Fb.In ZR = false := Rectangle.in_ZR Fb hFne
  have h1 : FloatLayer.Layout ⟨rb, rm, Node.mk bb bm [Node.mk Bb Bm []], sep,
        Node.mk cb cm [Node.mk Fb Fm Fcs], menu⟩ FloatLayer.Context =
      ⟨rb, rm.Add MarkChildNeedsPaint,
        Node.mk bb (bm.Add MarkChildNeedsPaint) [Node.mk Bb (Bm.Add MarkNeedsPaint) []], sep,
        Node.mk cb (cm.Add MarkChildNeedsPaint) [Node.mk Fb (Fm.Add MarkNeedsPaint) Fcs],
        menu⟩ := by
    simp [FloatLayer.Layout, FloatLayer.visibleNodes, visibleChildNodes, visibleChildNodes.iter,
      MultiLayer.floatLayer, hvis, FloatLayer.Layout.body, MultiLayer.floatChildMarkNeedsPaint,
      EmbedNode.MarkNeedsPaint, markUp_pair, MultiLayer.setFloatLayer, Node.setMarks,
      BgLayer.RectNeedsPaint, markIntersecting_mk, markIntersecting_iter_cons,
      markIntersecting_iter_nil, markIntersectingNodesNotNeedingPaint.callback, hov, hBm, hcm,
      hinZ, markUp_cons, hbm, markUp, hrm]
  rw [h1]
  have h2 : ∀ s : MultiLayer, s = ⟨rb, rm.Add MarkChildNeedsPaint,
        Node.mk bb (bm.Add MarkChildNeedsPaint) [Node.mk Bb (Bm.Add MarkNeedsPaint) []], sep,
        Node.mk cb (cm.Add MarkChildNeedsPaint) [Node.mk Fb (Fm.Add MarkNeedsPaint) Fcs],
        menu⟩ → s.markFloatLayerNodes FloatLayer.Context = s := by
    intro s hs
    subst hs
    simp [markFloatLayerNodes_eq, FloatLayer.visibleNodes, visibleChildNodes,
      visibleChildNodes.iter, MultiLayer.floatLayer, hvis, MultiLayer.markFloatLayerNodes.body,
      intersecting_node, intersecting_iter_cons, hov, MultiLayer.floatChildMarkNeedsPaint,
      EmbedNode.MarkNeedsPaint, markUp_pair, MultiLayer.setFloatLayer, Node.setMarks,
      BgLayer.RectNeedsPaint, markIntersecting_mk, markIntersecting_iter_cons,
      markIntersecting_iter_nil, markIntersectingNodesNotNeedingPaint.callback, marks_add_idem]
  have h3 : ∀ s : MultiLayer, s = ⟨rb, rm.Add MarkChildNeedsPaint,
        Node.mk bb (bm.Add MarkChildNeedsPaint) [Node.mk Bb (Bm.Add MarkNeedsPaint) []], sep,
        Node.mk cb (cm.Add MarkChildNeedsPaint) [Node.mk Fb (Fm.Add MarkNeedsPaint) Fcs],
        menu⟩ → s.markFloatLayerNodes FloatLayer.Menu = s := by
    intro s hs
    subst hs
    simp [markFloatLayerNodes_eq, FloatLayer.visibleNodes, MultiLayer.floatLayer, hmv]
  rw [MultiLayer.PaintMarked, markFloatLayers_eq, h2 _ rfl, h3 _ rfl]
  simp [MultiLayer.ENodePaintMarked, paintMarked_mk, paintMarked_iter_cons, paintMarked_iter_nil,
    paintMarked_unmarked sep [1] hsep, paintMarked_unmarked menu [3] hmm,
    paintMarked_iter_of_clean Fcs _ _ hFcs, hrm, hbm, hcm, hBne, hFne,
    Rectangle.union_ZR_of_nonempty, Rectangle.union_nonempty_left]

theorem layout_paintMarked_exact_menu (rb : Rectangle) (rm : Marks) (bb : Rectangle)
    (bm : Marks) (Bb : Rectangle) (Bm : Marks) (sep : Node) (cb : Rectangle) (cm : Marks)
    (Fb : Rectangle) (Fm : Marks) (Fcs : List Node) (ctx : Node)
    (hrm : rm.NeedsPaint = false ∧ rm.ChildNeedsPaint = false)
    (hbm : bm.NeedsPaint = false ∧ bm.ChildNeedsPaint = false)
    (hBm : Bm.NeedsPaint = false ∧ Bm.ChildNeedsPaint = false)
    (hcm : cm.NeedsPaint = false ∧ cm.ChildNeedsPaint = false)
    (hFcs : Node.paintCleanList Fcs = true)
    (hmm : ctx.Marks.HasAny paintMarks = false)
    (hsep : sep.Marks.HasAny paintMarks = false)
    (hmv : visibleChildNodes ctx = [])
    (hvis : Fm.ForceZeroBounds = false) (hov : Bb.Overlaps Fb = true) :
    (FloatLayer.Layout ⟨rb, rm, Node.mk bb bm [Node.mk Bb Bm []], sep, ctx,
        Node.mk cb cm [Node.mk Fb Fm Fcs]⟩ FloatLayer.Menu).PaintMarked.2
      = ([[0, 0], [3, 0]], Bb.Union Fb) := by
  have hBne : Bb.Empty = false := Rectangle.overlaps_nonempty_left _ _ hov
  have hFne : Fb.Empty = false := Rectangle.overlaps_nonempty_right _ _ hov
  have hinZ : Fb.In ZR = false := Rectangle.in_ZR Fb hFne
  have h1 : FloatLayer.Layout ⟨rb, rm, Node.mk bb bm [Node.mk Bb Bm []], sep, ctx,
        Node.mk cb cm [Node.mk Fb Fm Fcs]⟩ FloatLayer.Menu =
      ⟨rb, rm.Add MarkChildNeedsPaint,
        Node.mk bb (bm.Add MarkChildNeedsPaint) [Node.mk Bb (Bm.Add MarkNeedsPaint) []], sep,
        ctx,
        Node.mk cb (cm.Add MarkChildNeedsPaint) [Node.mk Fb (Fm.Add MarkNeedsPaint) Fcs]⟩ := by
    simp [FloatLayer.Layout, FloatLayer.visibleNodes, visibleChildNodes, visibleChildNodes.iter,
      MultiLayer.floatLayer, hvis, FloatLayer.Layout.body, MultiLayer.floatChildMarkNeedsPaint,
      EmbedNode.MarkNeedsPaint, markUp_pair, MultiLayer.setFloatLayer, Node.setMarks,
      BgLayer.RectNeedsPaint, markIntersecting_mk, markIntersecting_iter_cons,
      markIntersecting_iter_nil, markIntersectingNodesNotNeedingPaint.callback, hov, hBm, hcm,
      hinZ, markUp_cons, hbm, markUp, hrm]
  rw [h1]
  have h2 : ∀ s : MultiLayer, s = ⟨rb, rm.Add MarkChildNeedsPaint,
        Node.mk bb (bm.Add MarkChildNeedsPaint) [Node.mk Bb (Bm.Add MarkNeedsPaint) []], sep,
        ctx,
        Node.mk cb (cm.Add MarkChildNeedsPaint) [Node.mk Fb (Fm.Add MarkNeedsPaint) Fcs]⟩ →
        s.markFloatLayerNodes FloatLayer.Menu = s := by
    intro s hs
    subst hs
    simp [markFloatLayerNodes_eq, FloatLayer.visibleNodes, visibleChildNodes,
      visibleChildNodes.iter, MultiLayer.floatLayer, hvis, MultiLayer.markFloatLayerNodes.body,
      intersecting_node, intersecting_iter_cons, hov, MultiLayer.floatChildMarkNeedsPaint,
      EmbedNode.MarkNeedsPaint, markUp_pair, MultiLayer.setFloatLayer, Node.setMarks,
      BgLayer.RectNeedsPaint, markIntersecting_mk, markIntersecting_iter_cons,
      markIntersecting_iter_nil, markIntersectingNodesNotNeedingPaint.callback, marks_add_idem]
  have h3 : ∀ s : MultiLayer, s = ⟨rb, rm.Add MarkChildNeedsPaint,
        Node.mk bb (bm.Add MarkChildNeedsPaint) [Node.mk Bb (Bm.Add MarkNeedsPaint) []], sep,
        ctx,
        Node.mk cb (cm.Add MarkChildNeedsPaint) [Node.mk Fb (Fm.Add MarkNeedsPaint) Fcs]⟩ →
        s.markFloatLayerNodes FloatLayer.Context = s := by
    intro s hs
    subst hs
    simp [markFloatLayerNodes_eq, FloatLayer.visibleNodes, MultiLayer.floatLayer, hmv]
  rw [MultiLayer.PaintMarked, markFloatLayers_eq, h3 _ rfl, h2 _ rfl]
  simp [MultiLayer.ENodePaintMarked, paintMarked_mk, paintMarked_iter_cons, paintMarked_iter_nil,
    paintMarked_unmarked sep [1] hsep, paintMarked_unmarked ctx [2] hmm,
    paintMarked_iter_of_clean Fcs _ _ hFcs, hrm, hbm, hcm, hBne, hFne,
    Rectangle.union_ZR_of_nonempty, Rectangle.union_nonempty_left]

theorem paintClean_marks (n : Node) (h : n.paintClean = true) :
    (n.Marks.NeedsPaint = false ∧ n.Marks.ChildNeedsPaint = false) ∧
      n.Marks.HasAny paintMarks = false := by
  have := (Node.paintClean_iff n).mp h
  exact ⟨⟨this.1, this.2.1⟩, by rw [Marks.hasAny_paintMarks, this.1, this.2.1]; rfl⟩

theorem layout_paintMarked_exact (ml : MultiLayer) (fl : FloatLayer) (F B : Node)
    (hclean : ml.paintClean = true) (hbg : ml.BgLayer.childs = [B]) (hleaf : B.childs = [])
    (hfl : (ml.floatLayer fl).childs = [F])
    (hother : ∀ fl2, fl2 ≠ fl → FloatLayer.visibleNodes ml fl2 = [])
    (hvis : F.Marks.ForceZeroBounds = false) (hov : B.Bounds.Overlaps F.Bounds = true) :
    (FloatLayer.Layout ml fl).PaintMarked.2 = ([[0, 0], [fl.index, 0]], B.Bounds.Union F.Bounds) := by
  obtain ⟨rb, rm, bg, sep, ctx, menu⟩ := ml
  rw [ml_paintClean_iff] at hclean
  obtain ⟨hrm, hbgc, hsepc, hctxc, hmenuc⟩ := hclean
  simp only [Marks.hasAny_paintMarks, Bool.or_eq_false_iff] at hrm
  cases bg with
  | mk bb bm bcs =>
    simp only [node_childs_mk] at hbg
    subst hbg
    cases B with
    | mk Bb Bm Bcs =>
      simp only [node_childs_mk] at hleaf
      subst hleaf
      have hbgm := (paintClean_marks _ hbgc).1
      have hBc : (Node.mk Bb Bm []).paintClean = true :=
        (Node.paintCleanList_iff _).mp ((Node.paintClean_iff _).mp hbgc).2.2 _
          (List.mem_singleton_self _)
      have hBm := (paintClean_marks _ hBc).1
      simp only [node_Marks_mk, node_Bounds_mk] at hbgm hBm hov
      cases F with
      | mk Fb Fm Fcs =>
        simp only [node_Marks_mk, node_Bounds_mk] at hvis hov
        cases fl with
        | Context =>
          cases ctx with
          | mk cb cm ccs =>
            simp only [MultiLayer.floatLayer, node_childs_mk] at hfl
            subst hfl
            have hcm := (paintClean_marks _ hctxc).1
            have hFc : (Node.mk Fb Fm Fcs).paintClean = true :=
              (Node.paintCleanList_iff _).mp ((Node.paintClean_iff _).mp hctxc).2.2 _
                (List.mem_singleton_self _)
            have hFcs := ((Node.paintClean_iff _).mp hFc).2.2
            simp only [node_Marks_mk, node_childs_mk] at hcm hFcs
            exact layout_paintMarked_exact_context rb rm bb bm Bb Bm sep cb cm Fb Fm Fcs menu
              hrm hbgm hBm hcm hFcs (paintClean_marks _ hmenuc).2 (paintClean_marks _ hsepc).2
              (hother FloatLayer.Menu (by decide)) hvis hov
        | Menu =>
          cases menu with
          | mk cb cm ccs =>
            simp only [MultiLayer.floatLayer, node_childs_mk] at hfl
            subst hfl
            have hcm := (paintClean_marks _ hmenuc).1
            have hFc : (Node.mk Fb Fm Fcs).paintClean = true :=
              (Node.paintCleanList_iff _).mp ((Node.paintClean_iff _).mp hmenuc).2.2 _
                (List.mem_singleton_self _)
            have hFcs := ((Node.paintClean_iff _).mp hFc).2.2
            simp only [node_Marks_mk, node_childs_mk] at hcm hFcs
            exact layout_paintMarked_exact_menu rb rm bb bm Bb Bm sep cb cm Fb Fm Fcs ctx
              hrm hbgm hBm hcm hFcs (paintClean_marks _ hctxc).2 (paintClean_marks _ hsepc).2
              (hother FloatLayer.Context (by decide)) hvis hov

/-- C7: `FloatLayer.Layout` is the loop over the visible children of the layer whose body
marks the child NeedsPaint and applies `BgLayer.RectNeedsPaint` to the bounds of the child;
after it every visible child of the layer carries NeedsPaint. If F is a visible child of
the layer and B a childless direct child of the background whose bounds overlap those of
F, then B carries NeedsPaint after `Layout`, and, in a compositor state whose marks are
closed upward (the paint-mark invariant of the data model), `Layout` followed by
`MultiLayer.PaintMarked` draws both F and B and returns a rectangle that contains the
bounds of both. When moreover the compositor carries no paint mark before `Layout`, B is
the only child of the background, F the only child of the layer and the other float layer
has no visible child, exactly B and F are drawn and the returned rectangle is the union of
their bounds. -/
theorem C7_layout_then_paintMarked_draws_overlay_and_background (ml : MultiLayer)
    (fl : FloatLayer) (i : Nat) (F : Node) (j : Nat) (B : Node)
    (hF : (ml.floatLayer fl).childs[i]? = some F) (hvis : F.Marks.ForceZeroBounds = false)
    (hB : ml.BgLayer.childs[j]? = some B) (hleaf : B.childs = [])
    (hov : B.Bounds.Overlaps F.Bounds = true) :
    (FloatLayer.Layout ml fl =
        (FloatLayer.visibleNodes ml fl).foldl (FloatLayer.Layout.body fl) ml ∧
      ∀ (s : MultiLayer) (n : Nat) (c : Node), (s.floatLayer fl).childs[n]? = some c →
        FloatLayer.Layout.body fl s n =
          BgLayer.RectNeedsPaint (s.floatChildMarkNeedsPaint fl n) c.Bounds) ∧
    (∀ (n : Nat) (c : Node), (ml.floatLayer fl).childs[n]? = some c →
      c.Marks.ForceZeroBounds = false →
      ∃ c2, ((FloatLayer.Layout ml fl).floatLayer fl).childs[n]? = some c2 ∧
        c2.Marks.NeedsPaint = true) ∧
    (∃ B2, (FloatLayer.Layout ml fl).BgLayer.childs[j]? = some B2 ∧
      B2.Marks.NeedsPaint = true) ∧
    (ml.paintClosed = true →
      [fl.index, i] ∈ (FloatLayer.Layout ml fl).PaintMarked.2.1 ∧
      [0, j] ∈ (FloatLayer.Layout ml fl).PaintMarked.2.1 ∧
      F.Bounds.In (FloatLayer.Layout ml fl).PaintMarked.2.2 = true ∧
      B.Bounds.In (FloatLayer.Layout ml fl).PaintMarked.2.2 = true) ∧
    (ml.paintClean = true → ml.BgLayer.childs = [B] → (ml.floatLayer fl).childs = [F] →
      (∀ fl2, fl2 ≠ fl → FloatLayer.visibleNodes ml fl2 = []) →
      (FloatLayer.Layout ml fl).PaintMarked.2.1 = [[0, 0], [fl.index, 0]] ∧
      (FloatLayer.Layout ml fl).PaintMarked.2.2 = B.Bounds.Union F.Bounds) := by
  refine ⟨⟨rfl, ?_⟩, ?_, layout_bg_leaf_marked ml fl i F j B hF hvis hB hleaf hov, ?_, ?_⟩
  · intro s n c hc
    unfold FloatLayer.Layout.body
    rw [hc]
  · intro n c hc hv
    obtain ⟨c2, hc2, hnp, _⟩ := layout_marked ml fl n c hc hv
    exact ⟨c2, hc2, hnp⟩
  · intro hcl
    have hcl2 : (FloatLayer.Layout ml fl).markFloatLayers.paintClosed = true :=
      markFloatLayers_closed _ (layout_closed ml fl hcl)
    have hg := ml_paintGrows_trans (layout_grows ml fl)
      (markFloatLayers_grows (FloatLayer.Layout ml fl))
    -- the overlay
    obtain ⟨F1, hF1, hF1np, _⟩ := layout_marked ml fl i F hF hvis
    obtain ⟨F2, hF2, hgF⟩ :=
      ml_paintGrows_floatChild (markFloatLayers_grows (FloatLayer.Layout ml fl)) fl i F1 hF1
    obtain ⟨F3, hF3, hgF3⟩ := ml_paintGrows_floatChild hg fl i F hF
    rw [hF2] at hF3
    cases hF3
    have hFb : F2.Bounds = F.Bounds := ((Node.paintGrows_iff F F2).mp hgF3).1
    have hdF := closed_drawn_floatChild _ hcl2 fl i F2 hF2
      (((Node.paintGrows_iff F1 F2).mp hgF).2.1.1 hF1np)
    -- the background node
    obtain ⟨B1, hB1, hB1np⟩ := layout_bg_leaf_marked ml fl i F j B hF hvis hB hleaf hov
    obtain ⟨B2, hB2, hgB⟩ :=
      ml_paintGrows_bgChild (markFloatLayers_grows (FloatLayer.Layout ml fl)) j B1 hB1
    obtain ⟨B3, hB3, hgB3⟩ := ml_paintGrows_bgChild hg j B hB
    rw [hB2] at hB3
    cases hB3
    have hBb : B2.Bounds = B.Bounds := ((Node.paintGrows_iff B B2).mp hgB3).1
    have hdB := closed_drawn_bgChild _ hcl2 j B2 hB2
      (((Node.paintGrows_iff B1 B2).mp hgB).2.1.1 hB1np)
    rw [hFb] at hdF
    rw [hBb] at hdB
    exact ⟨hdF.1, hdB.1, hdF.2, hdB.2⟩
  · intro hclean hbg hfl hother
    have h := layout_paintMarked_exact ml fl F B hclean hbg hleaf hfl hother hvis hov
    exact ⟨congrArg Prod.fst h, congrArg Prod.snd h⟩

/-- Witness for C7 (the layout-triggered repaint example of the specification): F shown at
(2,2,8,8) over the clean background with B at (0,0,10,10): after `Layout` and
`PaintMarked` exactly B and F are drawn and the returned rectangle is (0,0,10,10), the
union of their bounds. -/
theorem C7_witness :
    [2, 0] ∈ (FloatLayer.Layout sampleCleanOverlay FloatLayer.Context).PaintMarked.2.1 ∧
    [0, 0] ∈ (FloatLayer.Layout sampleCleanOverlay FloatLayer.Context).PaintMarked.2.1 ∧
    (FloatLayer.Layout sampleCleanOverlay FloatLayer.Context).PaintMarked.2.1 =
      [[0, 0], [2, 0]] ∧
    (FloatLayer.Layout sampleCleanOverlay FloatLayer.Context).PaintMarked.2.2 =
      Rect 0 0 10 10 ∧
    (Rect 0 0 10 10).Union (Rect 2 2 8 8) = Rect 0 0 10 10 :=
  ⟨((C7_layout_then_paintMarked_draws_overlay_and_background sampleCleanOverlay
      FloatLayer.Context 0 (leaf (Rect 2 2 8 8) Marks.none) 0
      (leaf (Rect 0 0 10 10) Marks.none) rfl (by decide) rfl rfl (by decide)).2.2.2.1
      (by decide)).1,
    ((C7_layout_then_paintMarked_draws_overlay_and_background sampleCleanOverlay
      FloatLayer.Context 0 (leaf (Rect 2 2 8 8) Marks.none) 0
      (leaf (Rect 0 0 10 10) Marks.none) rfl (by decide) rfl rfl (by decide)).2.2.2.1
      (by decide)).2.1,
    by decide, by decide, by decide⟩

/-! ## Hidden children of a float layer -/

theorem insertAt_length (k : Nat) (h : Node) (cs : List Node) :
    (insertAt k h cs).length = cs.length + 1 := by
  induction k generalizing cs with
  | zero => simp [insertAt]
  | succ k ih =>
    cases cs with
    | nil => simp [insertAt]
    | cons x xs => simp [insertAt, ih]

theorem insertAt_getElem?_shift (k : Nat) (h : Node) (cs : List Node) (hk : k ≤ cs.length)
    (i : Nat) : (insertAt k h cs)[shiftIndex k i]? = cs[i]? := by
  induction k generalizing cs i with
  | zero => simp [insertAt, shiftIndex]
  | succ k ih =>
    cases cs with
    | nil => simp at hk
    | cons x xs =>
      simp only [List.length_cons, Nat.add_le_add_iff_right] at hk
      cases i with
      | zero => simp [insertAt, shiftIndex]
      | succ j =>
        have := ih xs hk j
        simp only [insertAt, shiftIndex, Nat.add_lt_add_iff_right] at this ⊢
        split
        · rename_i hlt
          rw [if_pos hlt] at this
          simpa using this
        · rename_i hlt
          rw [if_neg hlt] at this
          simpa using this

theorem insertAt_set_shift (k : Nat) (h : Node) (cs : List Node) (hk : k ≤ cs.length)
    (i : Nat) (c : Node) :
    (insertAt k h cs).set (shiftIndex k i) c = insertAt k h (cs.set i c) := by
  induction k generalizing cs i with
  | zero => simp [insertAt, shiftIndex]
  | succ k ih =>
    cases cs with
    | nil => simp at hk
    | cons x xs =>
      simp only [List.length_cons, Nat.add_le_add_iff_right] at hk
      cases i with
      | zero => simp [insertAt, shiftIndex]
      | succ j =>
        have := ih xs hk j
        simp only [insertAt, shiftIndex, Nat.add_lt_add_iff_right] at this ⊢
        split
        · rename_i hlt
          rw [if_pos hlt] at this
          simp [this]
        · rename_i hlt
          rw [if_neg hlt] at this
          simp [this]

theorem insertAt_eraseIdx (k : Nat) (h : Node) (cs : List Node) (hk : cs[k]? = some h) :
    insertAt k h (cs.eraseIdx k) = cs := by
  induction k generalizing cs with
  | zero =>
    cases cs with
    | nil => simp at hk
    | cons x xs =>
      simp only [List.getElem?_cons_zero, Option.some.injEq] at hk
      simp [insertAt, hk]
  | succ k ih =>
    cases cs with
    | nil => simp at hk
    | cons x xs =>
      simp only [List.getElem?_cons_succ] at hk
      simp [insertAt, ih xs hk]

theorem visibleChildNodes_iter_succ (cs : List Node) (off : Nat) :
    visibleChildNodes.iter cs (off + 1) = (visibleChildNodes.iter cs off).map (· + 1) := by
  induction cs generalizing off with
  | nil => simp [visibleChildNodes.iter]
  | cons x xs ih =>
    rw [visibleChildNodes_iter_cons, visibleChildNodes_iter_cons, ih (off + 1)]
    split <;> simp

theorem visibleChildNodes_iter_ge (cs : List Node) (off i : Nat)
    (h : i ∈ visibleChildNodes.iter cs off) : off ≤ i := by
  obtain ⟨j, _, h1, _⟩ := (visibleChildNodes_iter_mem cs off i).mp h
  omega

theorem visibleChildNodes_iter_insertAt (k : Nat) (h : Node) (cs : List Node)
    (hk : k ≤ cs.length) (hz : h.Marks.ForceZeroBounds = true) (off : Nat) :
    visibleChildNodes.iter (insertAt k h cs) off =
      (visibleChildNodes.iter cs off).map (fun i => if i < off + k then i else i + 1) := by
  induction k generalizing cs off with
  | zero =>
    rw [insertAt, visibleChildNodes_iter_cons, hz, if_pos rfl, visibleChildNodes_iter_succ]
    apply List.map_congr_left
    intro i hi
    have := visibleChildNodes_iter_ge cs off i hi
    simp only [Nat.add_zero]
    rw [if_neg (by omega)]
  | succ k ih =>
    cases cs with
    | nil => simp at hk
    | cons x xs =>
      simp only [List.length_cons, Nat.add_le_add_iff_right] at hk
      rw [insertAt, visibleChildNodes_iter_cons, visibleChildNodes_iter_cons, ih xs hk (off + 1)]
      have hfun : (fun i => if i < off + 1 + k then i else i + 1) =
          (fun i => if i < off + (k + 1) then i else i + 1) := by
        funext i
        rw [show off + 1 + k = off + (k + 1) by omega]
      rw [hfun]
      split
      · rfl
      · rw [List.map_cons, if_pos (by omega)]

theorem insertFloatChild_floatLayer_self (s : MultiLayer) (fl : FloatLayer) (k : Nat)
    (h : Node) :
    (s.insertFloatChild fl k h).floatLayer fl =
      Node.mk (s.floatLayer fl).Bounds (s.floatLayer fl).Marks
        (insertAt k h (s.floatLayer fl).childs) := by
  cases fl <;> rfl

theorem insertFloatChild_floatLayer_other (s : MultiLayer) (fl fl2 : FloatLayer) (k : Nat)
    (h : Node) (hne : fl2 ≠ fl) :
    (s.insertFloatChild fl k h).floatLayer fl2 = s.floatLayer fl2 := by
  cases fl <;> cases fl2 <;> first | rfl | exact absurd rfl hne

theorem insertFloatChild_getElem? (s : MultiLayer) (fl fl2 : FloatLayer) (k : Nat) (h : Node)
    (hk : k ≤ (s.floatLayer fl).childs.length) (i : Nat) :
    ((s.insertFloatChild fl k h).floatLayer fl2).childs[if fl2 = fl then shiftIndex k i else i]?
      = (s.floatLayer fl2).childs[i]? := by
  by_cases hfl : fl2 = fl
  · subst hfl
    rw [if_pos rfl, insertFloatChild_floatLayer_self, node_childs_mk,
      insertAt_getElem?_shift k h _ hk]
  · rw [if_neg hfl, insertFloatChild_floatLayer_other s fl fl2 k h hfl]

theorem insertFloatChild_visibleNodes (s : MultiLayer) (fl fl2 : FloatLayer) (k : Nat)
    (h : Node) (hk : k ≤ (s.floatLayer fl).childs.length)
    (hz : h.Marks.ForceZeroBounds = true) :
    FloatLayer.visibleNodes (s.insertFloatChild fl k h) fl2 =
      (FloatLayer.visibleNodes s fl2).map (fun i => if fl2 = fl then shiftIndex k i else i) := by
  by_cases hfl : fl2 = fl
  · subst hfl
    simp only [FloatLayer.visibleNodes, visibleChildNodes, insertFloatChild_floatLayer_self,
      node_childs_mk, if_true]
    rw [visibleChildNodes_iter_insertAt k h _ hk hz 0]
    apply List.map_congr_left
    intro i _
    simp [shiftIndex]
  · simp only [FloatLayer.visibleNodes, insertFloatChild_floatLayer_other s fl fl2 k h hfl,
      if_neg hfl, List.map_id']

theorem insertFloatChild_rectNeedsPaint (s : MultiLayer) (fl : FloatLayer) (k : Nat) (h : Node)
    (r : Rectangle) :
    BgLayer.RectNeedsPaint (s.insertFloatChild fl k h) r =
      (BgLayer.RectNeedsPaint s r).insertFloatChild fl k h := by
  cases fl <;> rfl

theorem insertFloatChild_floatChild (s : MultiLayer) (fl fl2 : FloatLayer) (k : Nat) (h : Node)
    (hk : k ≤ (s.floatLayer fl).childs.length) (i : Nat) :
    (s.insertFloatChild fl k h).floatChildMarkNeedsPaint fl2
        (if fl2 = fl then shiftIndex k i else i) =
      (s.floatChildMarkNeedsPaint fl2 i).insertFloatChild fl k h := by
  have hget := insertFloatChild_getElem? s fl fl2 k h hk i
  cases hc : (s.floatLayer fl2).childs[i]? with
  | none =>
    rw [hc] at hget
    rw [floatChild_none _ _ _ hget, floatChild_none _ _ _ hc]
  | some c =>
    rw [hc] at hget
    rw [floatChild_some _ _ _ c hget, floatChild_some _ _ _ c hc]
    by_cases hfl : fl2 = fl
    · subst hfl
      simp only [if_true, insertFloatChild_floatLayer_self, node_childs_mk, node_Bounds_mk,
        node_Marks_mk, insertAt_set_shift k h _ hk]
      cases fl2 <;> rfl
    · simp only [if_neg hfl, insertFloatChild_floatLayer_other s fl fl2 k h hfl]
      cases fl <;> cases fl2 <;> first | rfl | exact absurd rfl hfl

theorem insertFloatChild_bg (s : MultiLayer) (fl : FloatLayer) (k : Nat) (h : Node) :
    (s.insertFloatChild fl k h).BgLayer = s.BgLayer := by
  cases fl <;> rfl

theorem insertFloatChild_markBody (s : MultiLayer) (fl fl2 : FloatLayer) (k : Nat) (h : Node)
    (hk : k ≤ (s.floatLayer fl).childs.length) (i : Nat) :
    MultiLayer.markFloatLayerNodes.body fl2 (s.insertFloatChild fl k h)
        (if fl2 = fl then shiftIndex k i else i) =
      (MultiLayer.markFloatLayerNodes.body fl2 s i).insertFloatChild fl k h := by
  unfold MultiLayer.markFloatLayerNodes.body
  rw [insertFloatChild_getElem? s fl fl2 k h hk i, insertFloatChild_bg]
  cases hc : (s.floatLayer fl2).childs[i]? with
  | none => rfl
  | some c =>
    simp only
    split
    · rw [insertFloatChild_floatChild s fl fl2 k h hk i, insertFloatChild_rectNeedsPaint]
    · rfl

theorem insertFloatChild_layoutBody (s : MultiLayer) (fl fl2 : FloatLayer) (k : Nat) (h : Node)
    (hk : k ≤ (s.floatLayer fl).childs.length) (i : Nat) :
    FloatLayer.Layout.body fl2 (s.insertFloatChild fl k h)
        (if fl2 = fl then shiftIndex k i else i) =
      (FloatLayer.Layout.body fl2 s i).insertFloatChild fl k h := by
  unfold FloatLayer.Layout.body
  rw [insertFloatChild_getElem? s fl fl2 k h hk i]
  cases hc : (s.floatLayer fl2).childs[i]? with
  | none => rfl
  | some c =>
    simp only
    rw [insertFloatChild_floatChild s fl fl2 k h hk i, insertFloatChild_rectNeedsPaint]

theorem ml_paintGrows_floatLayer_length {s1 s2 : MultiLayer} (hg : MultiLayer.PaintGrows s1 s2)
    (fl : FloatLayer) :
    (s2.floatLayer fl).childs.length = (s1.floatLayer fl).childs.length :=
  Node.paintGrowsList_length _ _
    ((Node.paintGrows_iff _ _).mp (ml_paintGrows_floatLayer hg fl)).2.2

theorem insertFloatChild_foldl (f : MultiLayer → Nat → MultiLayer) (fl fl2 : FloatLayer)
    (k : Nat) (h : Node)
    (hgrow : ∀ s n, MultiLayer.PaintGrows s (f s n))
    (hf : ∀ s i, k ≤ (s.floatLayer fl).childs.length →
      f (s.insertFloatChild fl k h) (if fl2 = fl then shiftIndex k i else i) =
        (f s i).insertFloatChild fl k h)
    (l : List Nat) (s : MultiLayer) (hk : k ≤ (s.floatLayer fl).childs.length) :
    (l.map (fun i => if fl2 = fl then shiftIndex k i else i)).foldl f
        (s.insertFloatChild fl k h) =
      (l.foldl f s).insertFloatChild fl k h := by
  induction l generalizing s with
  | nil => rfl
  | cons i l ih =>
    rw [List.map_cons, List.foldl_cons, List.foldl_cons, hf s i hk]
    exact ih (f s i) (by rw [ml_paintGrows_floatLayer_length (hgrow s i) fl]; exact hk)

theorem insertFloatChild_markFloatLayerNodes (s : MultiLayer) (fl fl2 : FloatLayer) (k : Nat)
    (h : Node) (hk : k ≤ (s.floatLayer fl).childs.length)
    (hz : h.Marks.ForceZeroBounds = true) :
    (s.insertFloatChild fl k h).markFloatLayerNodes fl2 =
      (s.markFloatLayerNodes fl2).insertFloatChild fl k h := by
  rw [markFloatLayerNodes_eq, markFloatLayerNodes_eq,
    insertFloatChild_visibleNodes s fl fl2 k h hk hz]
  exact insertFloatChild_foldl _ fl fl2 k h (markFloatLayerNodes_body_grows fl2)
    (fun s i hk => insertFloatChild_markBody s fl fl2 k h hk i) _ s hk

theorem insertFloatChild_markFloatLayers (s : MultiLayer) (fl : FloatLayer) (k : Nat)
    (h : Node) (hk : k ≤ (s.floatLayer fl).childs.length)
    (hz : h.Marks.ForceZeroBounds = true) :
    (s.insertFloatChild fl k h).markFloatLayers =
      s.markFloatLayers.insertFloatChild fl k h := by
  rw [markFloatLayers_eq, markFloatLayers_eq,
    insertFloatChild_markFloatLayerNodes s fl _ k h hk hz,
    insertFloatChild_markFloatLayerNodes _ fl _ k h
      (by rw [ml_paintGrows_floatLayer_length (markFloatLayerNodes_grows s _) fl]; exact hk) hz]

theorem insertFloatChild_layout (s : MultiLayer) (fl fl2 : FloatLayer) (k : Nat)
    (h : Node) (hk : k ≤ (s.floatLayer fl).childs.length)
    (hz : h.Marks.ForceZeroBounds = true) :
    FloatLayer.Layout (s.insertFloatChild fl k h) fl2 =
      (FloatLayer.Layout s fl2).insertFloatChild fl k h := by
  unfold FloatLayer.Layout
  rw [insertFloatChild_visibleNodes s fl fl2 k h hk hz]
  exact insertFloatChild_foldl _ fl fl2 k h (layout_body_grows fl2)
    (fun s i hk => insertFloatChild_layoutBody s fl fl2 k h hk i) _ s hk

theorem insert_removeFloatChild (ml : MultiLayer) (fl : FloatLayer) (k : Nat) (h : Node)
    (hh : (ml.floatLayer fl).childs[k]? = some h) :
    (ml.removeFloatChild fl k).insertFloatChild fl k h = ml ∧
      k ≤ ((ml.removeFloatChild fl k).floatLayer fl).childs.length := by
  have hlt : k < (ml.floatLayer fl).childs.length := (List.getElem?_eq_some.mp hh).1
  have he := insertAt_eraseIdx k h _ hh
  constructor
  · cases fl
    · simp only [MultiLayer.insertFloatChild, MultiLayer.removeFloatChild,
        MultiLayer.setFloatLayer, MultiLayer.floatLayer, node_childs_mk, node_Bounds_mk,
        node_Marks_mk] at he ⊢
      rw [he, node_eta]
    · simp only [MultiLayer.insertFloatChild, MultiLayer.removeFloatChild,
        MultiLayer.setFloatLayer, MultiLayer.floatLayer, node_childs_mk, node_Bounds_mk,
        node_Marks_mk] at he ⊢
      rw [he, node_eta]
  · have : ((ml.removeFloatChild fl k).floatLayer fl).childs =
        (ml.floatLayer fl).childs.eraseIdx k := by
      cases fl <;> rfl
    rw [this, List.length_eraseIdx]
    simp only [hlt, if_true]
    omega

/-- C6: hidden overlays are excluded. Let `h` be the child of index `k` of a float layer
`fl`, carrying ForceZeroBounds (whatever its bounds and other marks). The compositor after
the pre-marking pass of `MultiLayer.PaintMarked`, and after `FloatLayer.Layout` of either
float layer, is the compositor obtained by the same operation on the tree with `h` removed,
with `h` put back unchanged at its place: `h` is not marked, and the marks of every other
node are those obtained without `h` (so `RectNeedsPaint` is not applied for `h`). -/
theorem C6_hidden_overlay_excluded (ml : MultiLayer) (fl : FloatLayer) (k : Nat) (h : Node)
    (hh : (ml.floatLayer fl).childs[k]? = some h) (hz : h.Marks.ForceZeroBounds = true) :
    ml.markFloatLayers =
      (ml.removeFloatChild fl k).markFloatLayers.insertFloatChild fl k h ∧
    (∀ fl2, FloatLayer.Layout ml fl2 =
      (FloatLayer.Layout (ml.removeFloatChild fl k) fl2).insertFloatChild fl k h) ∧
    ((ml.markFloatLayers.floatLayer fl).childs[k]? = some h ∧
      ∀ fl2, ((FloatLayer.Layout ml fl2).floatLayer fl).childs[k]? = some h) := by
  obtain ⟨he, hk⟩ := insert_removeFloatChild ml fl k h hh
  have h1 := insertFloatChild_markFloatLayers (ml.removeFloatChild fl k) fl k h hk hz
  have h2 := fun fl2 => insertFloatChild_layout (ml.removeFloatChild fl k) fl fl2 k h hk hz
  rw [he] at h1
  simp only [he] at h2
  have hins : ∀ s : MultiLayer, k ≤ (s.floatLayer fl).childs.length →
      ((s.insertFloatChild fl k h).floatLayer fl).childs[k]? = some h := by
    intro s hs
    rw [insertFloatChild_floatLayer_self, node_childs_mk]
    generalize (s.floatLayer fl).childs = cs at hs
    clear h1 h2 he hk hh
    induction k generalizing cs with
    | zero => simp [insertAt]
    | succ k ih =>
      cases cs with
      | nil => simp at hs
      | cons x xs =>
        simp only [List.length_cons, Nat.add_le_add_iff_right] at hs
        simpa [insertAt] using ih xs hs
  refine ⟨h1, h2, ?_, fun fl2 => ?_⟩
  · rw [h1]
    exact hins _ (by
      rw [ml_paintGrows_floatLayer_length (markFloatLayers_grows _) fl]; exact hk)
  · rw [h2 fl2]
    exact hins _ (by
      rw [ml_paintGrows_floatLayer_length (layout_grows _ fl2) fl]; exact hk)

/-- Witness for C6: in `sampleHiddenOverlay` the hidden overlay lies over the marked
background node A; after the pre-marking pass it is still unmarked and only A is drawn. -/
theorem C6_witness :
    (sampleHiddenOverlay.markFloatLayers.floatLayer FloatLayer.Context).childs[0]? =
      some (leaf (Rect 5 5 15 15) MarkForceZeroBounds) ∧
    sampleHiddenOverlay.PaintMarked.2.1 = [[0, 0]] :=
  ⟨(C6_hidden_overlay_excluded sampleHiddenOverlay FloatLayer.Context 0
      (leaf (Rect 5 5 15 15) MarkForceZeroBounds) rfl (by decide)).2.2.1, by decide⟩

/-- Witness for C9: on a node whose only child already carries NeedsPaint the call marks
nothing and returns the zero rectangle. -/
theorem C9_witness :
    (markIntersectingNodesNotNeedingPaint
      (Node.mk screen MarkChildNeedsPaint [leaf (Rect 0 0 10 10) MarkNeedsPaint])
      [MarkChildNeedsPaint] (Rect 2 2 8 8)).2.2 = ZR :=
  (C9_returned_rectangle_is_union_of_newly_marked
    (Node.mk screen MarkChildNeedsPaint [leaf (Rect 0 0 10 10) MarkNeedsPaint])
    [MarkChildNeedsPaint] (Rect 2 2 8 8)).2 (by decide)

/-- Witness for C10: in `sampleCleanOverlay` the background child B, reached by the path
`[0, 0]`, keeps its bounds and its marks only grow under `RectNeedsPaint` of (2,2,8,8). -/
theorem C10_witness :
    ∃ n2, (BgLayer.RectNeedsPaint sampleCleanOverlay (Rect 2 2 8 8)).toNode.descend [0, 0] =
        some n2 ∧
      n2.Bounds = (leaf (Rect 0 0 10 10) Marks.none).Bounds ∧
      ((leaf (Rect 0 0 10 10) Marks.none).Marks.NeedsPaint = true →
        n2.Marks.NeedsPaint = true) ∧
      ((leaf (Rect 0 0 10 10) Marks.none).Marks.ChildNeedsPaint = true →
        n2.Marks.ChildNeedsPaint = true) ∧
      n2.Marks.NeedsLayout = (leaf (Rect 0 0 10 10) Marks.none).Marks.NeedsLayout ∧
      n2.Marks.ChildNeedsLayout = (leaf (Rect 0 0 10 10) Marks.none).Marks.ChildNeedsLayout ∧
      n2.Marks.NotDraggable = (leaf (Rect 0 0 10 10) Marks.none).Marks.NotDraggable ∧
      n2.Marks.ForceZeroBounds = (leaf (Rect 0 0 10 10) Marks.none).Marks.ForceZeroBounds :=
  (C10_rectNeedsPaint_only_adds_marks sampleCleanOverlay (Rect 2 2 8 8)).2 [0, 0]
    (leaf (Rect 0 0 10 10) Marks.none) rfl

/-- The traversal from the root written out in `MultiLayer.ENodePaintMarked` is the generic
traversal `ENode.PaintMarked` applied to the root node with the empty path. -/
theorem enodePaintMarked_eq_paintMarked_toNode (ml : MultiLayer) :
    (ENode.PaintMarked ml.toNode []).1 = ml.ENodePaintMarked.1.toNode ∧
      (ENode.PaintMarked ml.toNode []).2 = ml.ENodePaintMarked.2 := by
  unfold MultiLayer.ENodePaintMarked
  rw [MultiLayer.toNode, paintMarked_mk]
  by_cases h : ml.Marks.HasAny paintMarks = true
  · rw [if_pos h, if_pos h]
    simp [paintMarked_iter_cons, paintMarked_iter_nil, MultiLayer.toNode]
  · rw [if_neg h, if_neg h]
    exact ⟨rfl, rfl⟩

/-- The marked states used in the examples are reached by the mark operation: on a tree
without paint marks, `MarkNeedsPaint` on a background child sets NeedsPaint on the child
and ChildNeedsPaint on the background layer and on the root. -/
theorem markNeedsPaint_on_clean_background_child (b : Rectangle) :
    EmbedNode.MarkNeedsPaint (leaf b Marks.none) [Marks.none, Marks.none] =
      (leaf b MarkNeedsPaint, [MarkChildNeedsPaint, MarkChildNeedsPaint]) := by
  rfl

/-! ## Insertion at the root and construction -/

/-- C11: `MultiLayer.InsertBefore(col, next)` fails for every compositor, every node `col`
and every `next` (nil included): the result is the panic, never a compositor state, so
`col` is not attached; the child list of the root of any compositor is its four layers.
(The panic message directs insertions to the layers themselves.) -/
theorem C11_insertBefore_at_root_always_fails (ml : MultiLayer) (col : Node)
    (next : Option Path) :
    ml.InsertBefore col next =
      Except.error "nodes should be inserted into one of the layers directly" ∧
    ml.InsertBefore col Option.none =
      Except.error "nodes should be inserted into one of the layers directly" ∧
    (∀ ml2 : MultiLayer, ml.InsertBefore col next ≠ Except.ok ml2) ∧
    ml.toNode.childs = [ml.BgLayer, ml.SeparatorLayer, ml.ContextLayer, ml.MenuLayer] := by
  refine ⟨rfl, rfl, ?_, rfl⟩
  intro ml2 h
  simp [MultiLayer.InsertBefore] at h

/-- C12: for a compositor allocated at any address `self`, `NewMultiLayer` leaves the root
with exactly four children, in this order from first (bottom) to last (top): BgLayer,
SeparatorLayer, ContextLayer, MenuLayer; `layers` holds the same four entries in the same
order; none of the four named fields is nil; the background layer and both float layers
refer back to `self`; and each of the four layers carries MarkNotDraggable (and no other
mark). The compositor value built has these four layers as the children of its root. -/
theorem C12_newMultiLayer_four_layers_in_order (self : Nat) :
    (NewMultiLayer self).rootChilds =
      [Layer.Bg, Layer.Separator, Layer.Float FloatLayer.Context,
        Layer.Float FloatLayer.Menu] ∧
    (NewMultiLayer self).layers = (NewMultiLayer self).rootChilds ∧
    (NewMultiLayer self).layers = MultiLayer.layers ∧
    (NewMultiLayer self).BgLayer = some ⟨Node.mk ZR MarkNotDraggable [], some self⟩ ∧
    (NewMultiLayer self).SeparatorLayer =
      some ⟨Node.mk ZR MarkNotDraggable [], Option.none⟩ ∧
    (NewMultiLayer self).ContextLayer = some ⟨Node.mk ZR MarkNotDraggable [], some self⟩ ∧
    (NewMultiLayer self).MenuLayer = some ⟨Node.mk ZR MarkNotDraggable [], some self⟩ ∧
    (∀ u ∈ (NewMultiLayer self).layers, ∃ o, (NewMultiLayer self).get u = some o ∧
      o.ENode.Marks.HasAny MarkNotDraggable = true) ∧
    (∃ ml, (NewMultiLayer self).toMultiLayer = some ml ∧
      ml.toNode.childs = [Node.mk ZR MarkNotDraggable [], Node.mk ZR MarkNotDraggable [],
        Node.mk ZR MarkNotDraggable [], Node.mk ZR MarkNotDraggable []]) := by
  refine ⟨rfl, rfl, rfl, rfl, rfl, rfl, rfl, ?_, ⟨_, rfl, rfl⟩⟩
  intro u hu
  have hl : (NewMultiLayer self).layers =
      [Layer.Bg, Layer.Separator, Layer.Float FloatLayer.Context,
        Layer.Float FloatLayer.Menu] := rfl
  rw [hl] at hu
  simp only [List.mem_cons, List.mem_singleton, List.not_mem_nil, or_false] at hu
  rcases hu with rfl | rfl | rfl | rfl
  · exact ⟨_, rfl, rfl⟩
  · exact ⟨_, rfl, rfl⟩
  · exact ⟨_, rfl, rfl⟩
  · exact ⟨_, rfl, rfl⟩

/-! ## The layout hook -/

theorem marks_hasAny_layout (m : Marks) :
    m.HasAny (MarkNeedsLayout.Add MarkChildNeedsLayout) =
      (m.NeedsLayout || m.ChildNeedsLayout) := by
  simp [Marks.HasAny, Marks.Add, MarkNeedsLayout, MarkChildNeedsLayout]

theorem floatLayer_markNeedsLayout_fields (ml : MultiLayer) (fl : FloatLayer) :
    ((FloatLayer.MarkNeedsLayout ml fl).floatLayer fl).Marks =
      (ml.floatLayer fl).Marks.Add MarkNeedsLayout ∧
    ((FloatLayer.MarkNeedsLayout ml fl).floatLayer fl).Bounds = (ml.floatLayer fl).Bounds ∧
    ((FloatLayer.MarkNeedsLayout ml fl).floatLayer fl).childs = (ml.floatLayer fl).childs ∧
    (FloatLayer.MarkNeedsLayout ml fl).Marks = ml.Marks.Add MarkChildNeedsLayout ∧
    (FloatLayer.MarkNeedsLayout ml fl).Bounds = ml.Bounds ∧
    (FloatLayer.MarkNeedsLayout ml fl).BgLayer = ml.BgLayer ∧
    (FloatLayer.MarkNeedsLayout ml fl).SeparatorLayer = ml.SeparatorLayer ∧
    (∀ fl2, fl2 ≠ fl → (FloatLayer.MarkNeedsLayout ml fl).floatLayer fl2 = ml.floatLayer fl2) := by
  have hroot : (markUpLayout [ml.Marks]).getD 0 ml.Marks = ml.Marks.Add MarkChildNeedsLayout := by
    rw [markUpLayout]
    by_cases h : ml.Marks.HasAny MarkChildNeedsLayout = true
    · rw [if_pos h]
      have h2 : ml.Marks.ChildNeedsLayout = true := by
        simpa [Marks.HasAny, MarkChildNeedsLayout] using h
      cases hm : ml.Marks
      rw [hm] at h2
      simp_all [Marks.Add, MarkChildNeedsLayout]
    · rw [if_neg h]; rfl
  obtain ⟨f1, f2, f3⟩ := node_setMarks_fields (ml.floatLayer fl)
    ((ml.floatLayer fl).Marks.Add MarkNeedsLayout)
  cases fl
  · refine ⟨f2, f1, f3, hroot, rfl, rfl, rfl, ?_⟩
    intro fl2 hne
    cases fl2
    · exact absurd rfl hne
    · rfl
  · refine ⟨f2, f1, f3, hroot, rfl, rfl, rfl, ?_⟩
    intro fl2 hne
    cases fl2
    · rfl
    · exact absurd rfl hne

/-- C19: `FloatLayer.OnChildMarked(child, newMarks)` calls `MarkNeedsLayout` on the float
layer exactly when `newMarks` contains NeedsLayout or ChildNeedsLayout: then the layer
carries NeedsLayout and its parent, the root, carries ChildNeedsLayout (no other mark of
any node changes); when `newMarks` contains neither, whatever other marks it contains, the
compositor is left as it is. -/
theorem C19_onChildMarked_bubbles_layout_only (ml : MultiLayer) (fl : FloatLayer)
    (child : Nat) (newMarks : Marks) :
    ((newMarks.NeedsLayout = true ∨ newMarks.ChildNeedsLayout = true) →
      FloatLayer.OnChildMarked ml fl child newMarks = FloatLayer.MarkNeedsLayout ml fl ∧
      ((FloatLayer.OnChildMarked ml fl child newMarks).floatLayer fl).Marks =
        (ml.floatLayer fl).Marks.Add MarkNeedsLayout ∧
      ((FloatLayer.OnChildMarked ml fl child newMarks).floatLayer fl).Marks.NeedsLayout = true ∧
      (FloatLayer.OnChildMarked ml fl child newMarks).Marks =
        ml.Marks.Add MarkChildNeedsLayout ∧
      (FloatLayer.OnChildMarked ml fl child newMarks).Marks.ChildNeedsLayout = true ∧
      ((FloatLayer.OnChildMarked ml fl child newMarks).floatLayer fl).childs =
        (ml.floatLayer fl).childs ∧
      (FloatLayer.OnChildMarked ml fl child newMarks).BgLayer = ml.BgLayer ∧
      (FloatLayer.OnChildMarked ml fl child newMarks).SeparatorLayer = ml.SeparatorLayer ∧
      (∀ fl2, fl2 ≠ fl →
        (FloatLayer.OnChildMarked ml fl child newMarks).floatLayer fl2 = ml.floatLayer fl2)) ∧
    ((newMarks.NeedsLayout = false ∧ newMarks.ChildNeedsLayout = false) →
      FloatLayer.OnChildMarked ml fl child newMarks = ml) := by
  constructor
  · intro h
    have he : FloatLayer.OnChildMarked ml fl child newMarks = FloatLayer.MarkNeedsLayout ml fl := by
      unfold FloatLayer.OnChildMarked
      rw [marks_hasAny_layout, if_pos (by simpa using h)]
    obtain ⟨g1, _, g3, g4, _, g6, g7, g8⟩ := floatLayer_markNeedsLayout_fields ml fl
    rw [he]
    refine ⟨rfl, g1, ?_, g4, ?_, g3, g6, g7, g8⟩
    · rw [g1]; simp [Marks.Add, MarkNeedsLayout]
    · rw [g4]; simp [Marks.Add, MarkChildNeedsLayout]
  · intro h
    unfold FloatLayer.OnChildMarked
    rw [marks_hasAny_layout, h.1, h.2]
    rfl

/-- Witness for C19: a child of the context layer of `sampleCleanOverlay` signalling
NeedsLayout makes the layer carry NeedsLayout, and signalling only paint marks changes
nothing. -/
theorem C19_witness :
    ((FloatLayer.OnChildMarked sampleCleanOverlay FloatLayer.Context 0
        MarkNeedsLayout).floatLayer FloatLayer.Context).Marks.NeedsLayout = true ∧
    FloatLayer.OnChildMarked sampleCleanOverlay FloatLayer.Context 0
        (MarkNeedsPaint.Add MarkChildNeedsPaint) = sampleCleanOverlay :=
  ⟨((C19_onChildMarked_bubbles_layout_only sampleCleanOverlay FloatLayer.Context 0
      MarkNeedsLayout).1 (Or.inl rfl)).2.2.1,
    (C19_onChildMarked_bubbles_layout_only sampleCleanOverlay FloatLayer.Context 0
      (MarkNeedsPaint.Add MarkChildNeedsPaint)).2 ⟨rfl, rfl⟩⟩

/-! ## The visible nodes are the children without ForceZeroBounds -/

theorem visibleChildNodes_iter_pairwise (cs : List Node) (off : Nat) :
    List.Pairwise (· < ·) (visibleChildNodes.iter cs off) := by
  induction cs generalizing off with
  | nil => simp [visibleChildNodes.iter]
  | cons x xs ih =>
    rw [visibleChildNodes_iter_cons]
    split
    · exact ih (off + 1)
    · rw [List.pairwise_cons]
      refine ⟨fun i hi => ?_, ih (off + 1)⟩
      have := visibleChildNodes_iter_ge xs (off + 1) i hi
      omega

theorem visibleChildNodes_iter_filterMap (cs : List Node) (off : Nat) :
    (visibleChildNodes.iter cs off).filterMap (fun i => cs[i - off]?) =
      cs.filter (fun c => !c.Marks.ForceZeroBounds) := by
  induction cs generalizing off with
  | nil => simp [visibleChildNodes.iter]
  | cons x xs ih =>
    have hrest : (visibleChildNodes.iter xs (off + 1)).filterMap
        (fun i => (x :: xs)[i - off]?) = xs.filter (fun c => !c.Marks.ForceZeroBounds) := by
      rw [← ih (off + 1)]
      apply List.filterMap_congr
      intro i hi
      have := visibleChildNodes_iter_ge xs (off + 1) i hi
      rw [show i - off = (i - (off + 1)) + 1 by omega, List.getElem?_cons_succ]
    rw [visibleChildNodes_iter_cons]
    cases hx : x.Marks.ForceZeroBounds
    · simp only [Bool.false_eq_true, if_false, List.filterMap_cons, Nat.sub_self,
        List.getElem?_cons_zero, hrest]
      rw [List.filter_cons, hx]
      rfl
    · simp only [if_true, hrest]
      rw [List.filter_cons, hx]
      rfl

/-- C13: `FloatLayer.visibleNodes` returns references (indices) to exactly the children of
the layer that do not carry ForceZeroBounds: an index is in the result if and only if the
child at that index lacks ForceZeroBounds (its bounds and other marks play no part), the
indices are strictly increasing (each child once, in child order), and the nodes referred
to are the children filtered by the absence of ForceZeroBounds. The function only reads
the children and returns the list: it changes no node. -/
theorem C13_visibleNodes_are_children_without_forceZeroBounds (ml : MultiLayer)
    (fl : FloatLayer) :
    (∀ i, i ∈ FloatLayer.visibleNodes ml fl ↔
      ∃ c, (ml.floatLayer fl).childs[i]? = some c ∧ c.Marks.ForceZeroBounds = false) ∧
    List.Pairwise (· < ·) (FloatLayer.visibleNodes ml fl) ∧
    (FloatLayer.visibleNodes ml fl).filterMap (fun i => (ml.floatLayer fl).childs[i]?) =
      (ml.floatLayer fl).childs.filter (fun c => !c.Marks.ForceZeroBounds) ∧
    FloatLayer.visibleNodes ml fl = visibleChildNodes (ml.floatLayer fl) := by
  refine ⟨visibleNodes_mem ml fl, visibleChildNodes_iter_pairwise _ 0, ?_, rfl⟩
  exact visibleChildNodes_iter_filterMap (ml.floatLayer fl).childs 0

/-- Witness for C13: the hidden overlay of `sampleHiddenOverlay` is not among the visible
nodes of its layer. -/
theorem C13_witness :
    ¬ (0 ∈ FloatLayer.visibleNodes sampleHiddenOverlay FloatLayer.Context) := by
  intro h
  obtain ⟨c, hc, hz⟩ :=
    ((C13_visibleNodes_are_children_without_forceZeroBounds sampleHiddenOverlay
      FloatLayer.Context).1 0).mp h
  cases hc
  exact absurd hz (by decide)

/-! ## The precision rule -/

/-- C17: for a child `c` that does not carry NeedsPaint and whose bounds contain the
non-empty rectangle `r`, the callback first runs the routine inside `c` (the child after
the callback has the children produced by the recursive call, whose rectangle is `w`),
and `c` is marked NeedsPaint if and only if `r` is not contained in `w`. In particular `c`
is marked when it has no children, and when every child of `c` that overlaps `r` already
carried NeedsPaint before the call. -/
theorem C17_child_marked_iff_rect_not_covered (c : Node) (chain : List Marks) (r u : Rectangle)
    (hnp : c.Marks.NeedsPaint = false) (hin : r.In c.Bounds = true) (hr : r.Empty = false) :
    (markIntersectingNodesNotNeedingPaint.callback c chain r u).1.childs =
      (markIntersectingNodesNotNeedingPaint c chain r).1.childs ∧
    ((markIntersectingNodesNotNeedingPaint.callback c chain r u).1.Marks.NeedsPaint = true ↔
      r.In (markIntersectingNodesNotNeedingPaint c chain r).2.2 = false) ∧
    (c.childs = [] →
      (markIntersectingNodesNotNeedingPaint.callback c chain r u).1.Marks.NeedsPaint = true) ∧
    ((∀ d ∈ c.childs, d.Bounds.Overlaps r = true → d.Marks.NeedsPaint = true) →
      (markIntersectingNodesNotNeedingPaint c chain r).2.2 = ZR ∧
      (markIntersectingNodesNotNeedingPaint.callback c chain r u).1.Marks.NeedsPaint = true) := by
  have hsubnp := (markIntersecting_nodeSpec r c chain).2.1
  have hcne : c.Bounds.Empty = false := by
    have h1 := (Rectangle.in_iff r c.Bounds hr).mp hin
    have h2 := (Rectangle.empty_false_iff r).mp hr
    rw [Rectangle.empty_false_iff]
    omega
  have hov : c.Bounds.Overlaps r = true := by
    have h1 := (Rectangle.in_iff r c.Bounds hr).mp hin
    have h2 := (Rectangle.empty_false_iff r).mp hr
    have h3 := (Rectangle.empty_false_iff c.Bounds).mp hcne
    simp only [Rectangle.Overlaps, hcne, hr, Bool.not_false, Bool.and_true, Bool.true_and,
      Bool.and_eq_true, decide_eq_true_eq]
    omega
  have hmain : (markIntersectingNodesNotNeedingPaint.callback c chain r u).1.childs =
        (markIntersectingNodesNotNeedingPaint c chain r).1.childs ∧
      ((markIntersectingNodesNotNeedingPaint.callback c chain r u).1.Marks.NeedsPaint = true ↔
        r.In (markIntersectingNodesNotNeedingPaint c chain r).2.2 = false) := by
    rcases markIntersecting_callback_cases c chain r u with
      ⟨h, _⟩ | ⟨_, _, _, h, e⟩ | ⟨_, _, _, h, e⟩ | ⟨_, _, h, _⟩
    · rcases h with h | h
      · rw [hov] at h; cases h
      · rw [hnp] at h; cases h
    · rw [e]
      dsimp only
      refine ⟨rfl, ?_⟩
      rw [hsubnp, hnp, h]
      simp
    · rw [e]
      dsimp only
      obtain ⟨_, f2, f3⟩ := node_setMarks_fields (markIntersectingNodesNotNeedingPaint c chain r).1
        ((markIntersectingNodesNotNeedingPaint c chain r).1.Marks.Add MarkNeedsPaint)
      refine ⟨f3, ?_⟩
      rw [f2, h]
      simp
    · rw [hin] at h; cases h
  have hunmarked : (markIntersectingNodesNotNeedingPaint c chain r).2.2 = ZR →
      (markIntersectingNodesNotNeedingPaint.callback c chain r u).1.Marks.NeedsPaint = true := by
    intro hz
    rw [hmain.2, hz]
    exact Rectangle.in_ZR r hr
  refine ⟨hmain.1, hmain.2, ?_, ?_⟩
  · intro hleaf
    apply hunmarked
    cases c with
    | mk b m cs =>
      simp only [node_childs_mk] at hleaf
      subst hleaf
      rw [markIntersecting_leaf]
  · intro hall
    have hz : (markIntersectingNodesNotNeedingPaint c chain r).2.2 = ZR := by
      cases c with
      | mk b m cs =>
        simp only [node_childs_mk] at hall
        rw [markIntersecting_mk]
        dsimp only
        generalize (m :: chain) = ch
        clear hmain hunmarked hsubnp hov hcne hin hnp
        induction cs generalizing ch with
        | nil => rw [markIntersecting_iter_nil]
        | cons d ds ih =>
          rw [markIntersecting_iter_cons]
          have hd : markIntersectingNodesNotNeedingPaint.callback d ch r ZR = (d, ch, ZR) := by
            rcases markIntersecting_callback_cases d ch r ZR with
              ⟨_, e⟩ | ⟨h1, h2, _⟩ | ⟨h1, h2, _⟩ | ⟨h1, h2, _⟩
            · exact e
            · rw [hall d (List.mem_cons_self _ _) h1] at h2; cases h2
            · rw [hall d (List.mem_cons_self _ _) h1] at h2; cases h2
            · rw [hall d (List.mem_cons_self _ _) h1] at h2; cases h2
          rw [hd]
          exact ih (fun x hx => hall x (List.mem_cons_of_mem _ hx)) ch
    exact ⟨hz, hunmarked hz⟩

/-- Witness for C17: the child (0,0,10,10) whose only child (0,0,10,10) already carries
NeedsPaint is marked for `r` = (2,2,8,8). -/
theorem C17_witness :
    (markIntersectingNodesNotNeedingPaint.callback
      (Node.mk (Rect 0 0 10 10) MarkChildNeedsPaint [leaf (Rect 0 0 10 10) MarkNeedsPaint])
      [Marks.none] (Rect 2 2 8 8) ZR).1.Marks.NeedsPaint = true :=
  ((C17_child_marked_iff_rect_not_covered
    (Node.mk (Rect 0 0 10 10) MarkChildNeedsPaint [leaf (Rect 0 0 10 10) MarkNeedsPaint])
    [Marks.none] (Rect 2 2 8 8) ZR (by decide) (by decide) (by decide)).2.2.2
    (by decide)).2

/-! ## Nothing is scheduled outside the rectangle -/

theorem markIntersecting_iter_getElem? (cs : List Node) (chain : List Marks) (r u : Rectangle)
    (i : Nat) (c : Node) (hc : cs[i]? = some c) :
    ∃ ch v, (markIntersectingNodesNotNeedingPaint.iter cs chain r u).1[i]? =
      some (markIntersectingNodesNotNeedingPaint.callback c ch r v).1 := by
  induction cs generalizing chain u i with
  | nil => simp at hc
  | cons x xs ih =>
    rw [markIntersecting_iter_cons]
    cases i with
    | zero =>
      simp only [List.getElem?_cons_zero, Option.some.injEq] at hc
      subst hc
      exact ⟨chain, u, by simp⟩
    | succ j =>
      simp only [List.getElem?_cons_succ] at hc ⊢
      exact ih _ _ j hc

theorem descend_cons (n : Node) (i : Nat) (p : Path) :
    n.descend (i :: p) = (n.childs[i]?).bind (fun c => c.descend p) := by
  rw [Node.descend]
  cases n.childs[i]? <;> rfl

theorem descend_setMarks (n : Node) (m : Marks) (p : Path) (hp : p ≠ []) :
    (n.setMarks m).descend p = n.descend p := by
  cases p with
  | nil => exact absurd rfl hp
  | cons i p => rw [descend_cons, descend_cons, (node_setMarks_fields n m).2.2]

theorem markIntersecting_withinSpec (r : Rectangle) (node : Node) : MarkWithinSpec r node := by
  induction node using Node.induction with
  | h b m cs ih =>
    intro parents p d d2 hp hd hd2 hnp hnp2
    cases p with
    | nil => exact absurd rfl hp
    | cons i rest =>
      rw [markIntersecting_mk] at hd2
      rw [descend_cons] at hd hd2
      simp only [node_childs_mk] at hd hd2
      cases hc : cs[i]? with
      | none => rw [hc] at hd; cases hd
      | some c =>
        rw [hc] at hd
        simp only [Option.some_bind] at hd
        obtain ⟨ch, v, hget⟩ := markIntersecting_iter_getElem? cs (m :: parents) r ZR i c hc
        rw [hget] at hd2
        simp only [Option.some_bind] at hd2
        have hcmem : c ∈ cs := List.mem_iff_getElem?.mpr ⟨i, hc⟩
        have hsubnp := (markIntersecting_nodeSpec r c ch).2.1
        -- the part about the nodes in between, given that the recursion was entered
        have hbetween : r.In c.Bounds = true →
            (rest ≠ [] → ∀ (q t : Path) (x : Node), q ≠ [] → t ≠ [] → rest = q ++ t →
              c.descend q = some x → r.In x.Bounds = true) →
            ∀ (q t : Path) (x : Node), q ≠ [] → t ≠ [] → i :: rest = q ++ t →
              (Node.mk b m cs).descend q = some x → r.In x.Bounds = true := by
          intro hcin hrec q t x hq ht hqt hx
          cases q with
          | nil => exact absurd rfl hq
          | cons j q2 =>
            simp only [List.cons_append, List.cons.injEq] at hqt
            obtain ⟨hij, hrest⟩ := hqt
            subst hij
            rw [descend_cons] at hx
            simp only [node_childs_mk, hc, Option.some_bind] at hx
            cases q2 with
            | nil =>
              simp only [Node.descend, Option.some.injEq] at hx
              rw [← hx]; exact hcin
            | cons k q3 =>
              have hrne : rest ≠ [] := by rw [hrest]; simp
              exact hrec hrne (k :: q3) t x (by simp) ht hrest hx
        have hnone : ∀ (q t : Path) (x : Node), q ≠ [] → t ≠ [] → i :: ([] : Path) = q ++ t →
            (Node.mk b m cs).descend q = some x → r.In x.Bounds = true := by
          intro q t x hq ht hqt _
          cases q with
          | nil => exact absurd rfl hq
          | cons j q2 =>
            simp only [List.cons_append, List.cons.injEq] at hqt
            have h0 := hqt.2
            cases t with
            | nil => exact absurd rfl ht
            | cons a t2 => cases q2 <;> cases h0
        rcases markIntersecting_callback_cases c ch r v with
          ⟨_, e⟩ | ⟨_, h2, h3, _, e⟩ | ⟨h1, h2, h3, _, e⟩ | ⟨h1, h2, _, e⟩
        · rw [e] at hd2
          dsimp only at hd2
          rw [hd] at hd2
          cases hd2
          rw [hnp] at hnp2; cases hnp2
        · rw [e] at hd2
          dsimp only at hd2
          cases rest with
          | nil =>
            simp only [Node.descend, Option.some.injEq] at hd hd2
            rw [← hd2, hsubnp, hd, hnp] at hnp2
            cases hnp2
          | cons k rest2 =>
            have := ih c hcmem ch (k :: rest2) d d2 (by simp) hd hd2 hnp hnp2
            exact ⟨this.1, hbetween h3 (fun _ => this.2)⟩
        · rw [e] at hd2
          dsimp only at hd2
          cases rest with
          | nil =>
            simp only [Node.descend, Option.some.injEq] at hd
            rw [← hd]
            exact ⟨h1, hnone⟩
          | cons k rest2 =>
            rw [descend_setMarks _ _ _ (by simp)] at hd2
            have := ih c hcmem ch (k :: rest2) d d2 (by simp) hd hd2 hnp hnp2
            exact ⟨this.1, hbetween h3 (fun _ => this.2)⟩
        · rw [e] at hd2
          dsimp only at hd2
          cases rest with
          | nil =>
            simp only [Node.descend, Option.some.injEq] at hd
            rw [← hd]
            exact ⟨h1, hnone⟩
          | cons k rest2 =>
            rw [descend_setMarks _ _ _ (by simp), hd] at hd2
            cases hd2
            rw [hnp] at hnp2; cases hnp2

/-- C15: `markIntersectingNodesNotNeedingPaint(node, r)` schedules nothing outside the
rectangle. Every node that gains NeedsPaint through the call is a strict descendant of
`node` (reached by a non-empty path; `node` itself keeps its NeedsPaint bit), did not carry
NeedsPaint before, and has bounds overlapping `r`; every node strictly between `node` and
it contains `r` entirely (`r.In(bounds)`). A child whose bounds do not overlap `r` is
left as it is, with its whole subtree. -/
theorem C15_marks_only_within_rectangle (node : Node) (parents : List Marks) (r : Rectangle) :
    (∀ (p : Path) (d d2 : Node), p ≠ [] → node.descend p = some d →
      (markIntersectingNodesNotNeedingPaint node parents r).1.descend p = some d2 →
      d.Marks.NeedsPaint = false → d2.Marks.NeedsPaint = true →
      d.Bounds.Overlaps r = true ∧
      ∀ (q t : Path) (x : Node), q ≠ [] → t ≠ [] → p = q ++ t → node.descend q = some x →
        r.In x.Bounds = true) ∧
    (markIntersectingNodesNotNeedingPaint node parents r).1.Marks.NeedsPaint =
      node.Marks.NeedsPaint ∧
    (∀ (i : Nat) (c : Node), node.childs[i]? = some c → c.Bounds.Overlaps r = false →
      (markIntersectingNodesNotNeedingPaint node parents r).1.childs[i]? = some c) := by
  refine ⟨markIntersecting_withinSpec r node parents,
    (markIntersecting_nodeSpec r node parents).2.1, ?_⟩
  intro i c hc hov
  cases node with
  | mk b m cs =>
    simp only [node_childs_mk] at hc
    rw [markIntersecting_mk]
    simp only [node_childs_mk]
    obtain ⟨ch, v, hget⟩ := markIntersecting_iter_getElem? cs (m :: parents) r ZR i c hc
    rw [hget]
    rcases markIntersecting_callback_cases c ch r v with
      ⟨_, e⟩ | ⟨h1, _⟩ | ⟨h1, _⟩ | ⟨h1, _⟩
    · rw [e]
    · rw [hov] at h1; cases h1
    · rw [hov] at h1; cases h1
    · rw [hov] at h1; cases h1

/-- Witness for C15: under the rectangle (2,2,8,8) the child (20,20,30,30), which does not
overlap it, keeps its unmarked child, although that child overlaps the rectangle. -/
theorem C15_witness :
    (markIntersectingNodesNotNeedingPaint
      (Node.mk screen Marks.none
        [Node.mk (Rect 20 20 30 30) Marks.none [leaf (Rect 0 0 10 10) Marks.none],
          leaf (Rect 0 0 10 10) Marks.none]) [Marks.none] (Rect 2 2 8 8)).1.childs[0]? =
      some (Node.mk (Rect 20 20 30 30) Marks.none [leaf (Rect 0 0 10 10) Marks.none]) :=
  (C15_marks_only_within_rectangle
    (Node.mk screen Marks.none
      [Node.mk (Rect 20 20 30 30) Marks.none [leaf (Rect 0 0 10 10) Marks.none],
        leaf (Rect 0 0 10 10) Marks.none]) [Marks.none] (Rect 2 2 8 8)).2.2 0 _ rfl
    (by decide)

/-! ## Every overlapping child of the background is scheduled -/

theorem newlyMarkedList_cons (c1 : Node) (cs1 : List Node) (c2 : Node) (cs2 : List Node) :
    newlyMarkedList (c1 :: cs1) (c2 :: cs2) = newlyMarked c1 c2 ++ newlyMarkedList cs1 cs2 := by
  rw [newlyMarkedList]

theorem newlyMarkedList_nil_right (cs : List Node) : newlyMarkedList cs [] = [] := by
  cases cs <;> rw [newlyMarkedList]

theorem marked_of_newlyMarked (c1 : Node) :
    ∀ c2 : Node, newlyMarked c1 c2 ≠ [] → c2.paintClosed = true →
      c2.Marks.HasAny paintMarks = true := by
  induction c1 using Node.induction with
  | h b m cs ih =>
    have hlist : ∀ (l : List Node), (∀ c ∈ l, c ∈ cs) → ∀ l2 : List Node,
        newlyMarkedList l l2 ≠ [] → Node.paintClosedList l2 = true →
        anyPaintMarked l2 = true := by
      intro l
      induction l with
      | nil => intro _ l2 h; rw [newlyMarkedList] at h; exact absurd rfl h
      | cons x xs ihl =>
        intro hsub l2 h hcl
        cases l2 with
        | nil => rw [newlyMarkedList_nil_right] at h; exact absurd rfl h
        | cons y ys =>
          rw [newlyMarkedList_cons] at h
          rw [Node.paintClosedList, Bool.and_eq_true] at hcl
          simp only [anyPaintMarked, List.any_cons, Bool.or_eq_true]
          by_cases hx : newlyMarked x y = []
          · rw [hx, List.nil_append] at h
            exact Or.inr (ihl (fun c hc => hsub c (List.mem_cons_of_mem _ hc)) ys h hcl.2)
          · exact Or.inl (ih x (hsub x (List.mem_cons_self _ _)) y hx hcl.1)
    intro c2 h hcl
    rw [newlyMarked_eq] at h
    simp only [node_childs_mk, node_Marks_mk, node_Bounds_mk] at h
    rw [Marks.hasAny_paintMarks, Bool.or_eq_true]
    by_cases hl : newlyMarkedList cs c2.childs = []
    · rw [hl, List.nil_append] at h
      left
      by_contra hn
      simp [hn] at h
    · right
      exact ((Node.paintClosed_iff c2).mp hcl).1
        (hlist cs (fun c hc => hc) c2.childs hl ((Node.paintClosed_iff c2).mp hcl).2)

theorem childNeedsPaint_of_newlyMarked (c c2 : Node)
    (h : newlyMarkedList c.childs c2.childs ≠ []) (hcl : c2.paintClosed = true) :
    c2.Marks.ChildNeedsPaint = true := by
  have hne : newlyMarked c (Node.mk c2.Bounds (c2.Marks.Remove MarkNeedsPaint) c2.childs) ≠ [] := by
    rw [newlyMarked_eq]
    simp only [node_childs_mk]
    intro h2
    exact h (List.append_eq_nil.mp h2).1
  have hcl2 : (Node.mk c2.Bounds (c2.Marks.Remove MarkNeedsPaint) c2.childs).paintClosed = true := by
    rw [Node.paintClosed_iff] at hcl ⊢
    simp only [node_childs_mk, node_Marks_mk]
    refine ⟨fun ha => ?_, hcl.2⟩
    have := hcl.1 ha
    simp [Marks.Remove, MarkNeedsPaint, this]
  have := marked_of_newlyMarked c _ hne hcl2
  simpa [Marks.Remove, MarkNeedsPaint] using this

/-- C16: in a compositor state whose marks are closed upward (the paint-mark invariant of
the data model), after `BgLayer.RectNeedsPaint(r)` every direct child of the background
whose bounds overlap `r` is scheduled: it carries NeedsPaint, or it carries
ChildNeedsPaint and at least one node below it was newly marked NeedsPaint by the call,
every such node overlapping `r`. No overlapping direct child is left without a paint
mark. -/
theorem C16_overlapping_background_children_scheduled (ml : MultiLayer) (r : Rectangle)
    (j : Nat) (c : Node) (hcl : ml.paintClosed = true)
    (hc : ml.BgLayer.childs[j]? = some c) (hov : c.Bounds.Overlaps r = true) :
    ∃ c2, (BgLayer.RectNeedsPaint ml r).BgLayer.childs[j]? = some c2 ∧
      (c2.Marks.NeedsPaint = true ∨
        (c2.Marks.ChildNeedsPaint = true ∧ newlyMarkedList c.childs c2.childs ≠ [] ∧
          ∀ x ∈ newlyMarkedList c.childs c2.childs, x.Overlaps r = true)) ∧
      c2.Marks.HasAny paintMarks = true := by
  have hccl : c.paintClosed = true := by
    have hbg := ((ml_paintClosed_iff ml).mp hcl).2.1
    exact (Node.paintClosedList_iff _).mp ((Node.paintClosed_iff _).mp hbg).2 c
      (List.mem_iff_getElem?.mpr ⟨j, hc⟩)
  have hr : r.Empty = false := Rectangle.overlaps_nonempty_right _ _ hov
  have key : ∀ (ch : List Marks) (v : Rectangle),
      ((markIntersectingNodesNotNeedingPaint.callback c ch r v).1.Marks.NeedsPaint = true ∨
        ((markIntersectingNodesNotNeedingPaint.callback c ch r v).1.Marks.ChildNeedsPaint = true ∧
          newlyMarkedList c.childs
            (markIntersectingNodesNotNeedingPaint.callback c ch r v).1.childs ≠ [] ∧
          ∀ x ∈ newlyMarkedList c.childs
            (markIntersectingNodesNotNeedingPaint.callback c ch r v).1.childs,
            x.Overlaps r = true)) := by
    intro ch v
    rcases markIntersecting_callback_cases c ch r v with
      ⟨h, e⟩ | ⟨_, _, _, h4, e⟩ | ⟨_, _, _, _, e⟩ | ⟨_, _, _, e⟩
    · rw [e]
      rcases h with h | h
      · rw [hov] at h; cases h
      · exact Or.inl h
    · rw [e]
      dsimp only
      right
      obtain ⟨hw, hall⟩ := markIntersecting_unionSpec r c ch
      have hne : newlyMarkedList c.childs
          (markIntersectingNodesNotNeedingPaint c ch r).1.childs ≠ [] := by
        intro hnil
        rw [hw, hnil, unionAll_nil, Rectangle.in_ZR r hr] at h4
        cases h4
      exact ⟨childNeedsPaint_of_newlyMarked c _ hne (markIntersecting_closedSpec r c ch hccl),
        hne, hall⟩
    · rw [e]; dsimp only; exact Or.inl (marked_setMarks_needsPaint _)
    · rw [e]; dsimp only; exact Or.inl (marked_setMarks_needsPaint _)
  rw [(rectNeedsPaint_fields ml r).2.1]
  cases hbg : ml.BgLayer with
  | mk b m cs =>
    rw [hbg] at hc
    simp only [node_childs_mk] at hc
    rw [markIntersecting_mk]
    simp only [node_childs_mk]
    obtain ⟨ch, v, hget⟩ := markIntersecting_iter_getElem? cs (m :: [ml.Marks]) r ZR j c hc
    refine ⟨_, hget, key ch v, ?_⟩
    rw [Marks.hasAny_paintMarks, Bool.or_eq_true]
    exact (key ch v).imp id (fun h => h.1)

/-- Witness for C16: in `sampleCleanOverlay` the background child B (0,0,10,10) overlaps
(2,2,8,8) and carries a paint mark after `RectNeedsPaint`. -/
theorem C16_witness :
    ∃ c2, (BgLayer.RectNeedsPaint sampleCleanOverlay (Rect 2 2 8 8)).BgLayer.childs[0]? =
        some c2 ∧ c2.Marks.HasAny paintMarks = true :=
  (C16_overlapping_background_children_scheduled sampleCleanOverlay (Rect 2 2 8 8) 0
    (leaf (Rect 0 0 10 10) Marks.none) (by decide) rfl (by decide)).imp
    (fun _ h => ⟨h.1, h.2.2⟩)

/-! ## The paint-mark invariant -/

theorem Node.paintSupported_iff (n : Node) :
    n.paintSupported = true ↔
      (n.Marks.ChildNeedsPaint = true → anyPaintMarked n.childs = true) ∧
        Node.paintSupportedList n.childs = true := by
  cases n with
  | mk b m cs =>
    rw [Node.paintSupported]
    cases h : m.ChildNeedsPaint <;> simp [h]

theorem Node.paintSupportedList_iff (cs : List Node) :
    Node.paintSupportedList cs = true ↔ ∀ c ∈ cs, c.paintSupported = true := by
  induction cs with
  | nil => simp [Node.paintSupportedList]
  | cons c cs ih => rw [Node.paintSupportedList]; simp [ih]

theorem Node.paintInvariant_iff (n : Node) :
    n.paintInvariant = true ↔
      n.Marks.ChildNeedsPaint = Node.anyDescendantMarkedList n.childs ∧
        Node.paintInvariantList n.childs = true := by
  cases n with
  | mk b m cs =>
    rw [Node.paintInvariant]
    simp

theorem Node.paintInvariantList_iff (cs : List Node) :
    Node.paintInvariantList cs = true ↔ ∀ c ∈ cs, c.paintInvariant = true := by
  induction cs with
  | nil => simp [Node.paintInvariantList]
  | cons c cs ih => rw [Node.paintInvariantList]; simp [ih]

theorem anyDescendantMarked_eq (n : Node) :
    n.anyDescendantMarked = Node.anyDescendantMarkedList n.childs := by
  cases n; rw [Node.anyDescendantMarked]; rfl

theorem anyDescendantMarkedList_of_invariant (cs : List Node)
    (h : ∀ c ∈ cs, c.paintInvariant = true) :
    Node.anyDescendantMarkedList cs = anyPaintMarked cs := by
  induction cs with
  | nil => rfl
  | cons c cs ih =>
    have hc := (Node.paintInvariant_iff c).mp (h c (List.mem_cons_self _ _))
    rw [Node.anyDescendantMarkedList, ih (fun x hx => h x (List.mem_cons_of_mem _ hx)),
      anyDescendantMarked_eq, ← hc.1]
    simp only [anyPaintMarked, List.any_cons, Marks.hasAny_paintMarks]
    cases c.Marks.NeedsPaint <;> cases c.Marks.ChildNeedsPaint <;> simp

theorem paintInvariant_iff_closed_supported (n : Node) :
    n.paintInvariant = true ↔ (n.paintClosed = true ∧ n.paintSupported = true) := by
  induction n using Node.induction with
  | h b m cs ih =>
    rw [Node.paintInvariant_iff, Node.paintClosed_iff, Node.paintSupported_iff,
      Node.paintInvariantList_iff, Node.paintClosedList_iff, Node.paintSupportedList_iff]
    simp only [node_childs_mk, node_Marks_mk]
    constructor
    · rintro ⟨h1, h2⟩
      rw [anyDescendantMarkedList_of_invariant cs h2] at h1
      exact ⟨⟨fun ha => by rw [h1, ha], fun c hc => ((ih c hc).mp (h2 c hc)).1⟩,
        ⟨fun hm => by rw [← h1, hm], fun c hc => ((ih c hc).mp (h2 c hc)).2⟩⟩
    · rintro ⟨⟨h1, h2⟩, ⟨h3, h4⟩⟩
      have hinv : ∀ c ∈ cs, c.paintInvariant = true :=
        fun c hc => (ih c hc).mpr ⟨h2 c hc, h4 c hc⟩
      refine ⟨?_, hinv⟩
      rw [anyDescendantMarkedList_of_invariant cs hinv]
      cases hm : m.ChildNeedsPaint
      · cases ha : anyPaintMarked cs
        · rfl
        · rw [h1 ha] at hm; cases hm
      · rw [h3 hm]

theorem ml_paintInvariant_iff (ml : MultiLayer) :
    ml.paintInvariant = true ↔ (ml.paintClosed = true ∧ ml.paintSupported = true) :=
  paintInvariant_iff_closed_supported ml.toNode

/-! ## Supported trees stay supported -/

theorem anyPaintMarked_mono (cs1 cs2 : List Node) (hg : Node.PaintGrowsList cs1 cs2)
    (h : anyPaintMarked cs1 = true) : anyPaintMarked cs2 = true := by
  rw [anyPaintMarked_iff] at h ⊢
  obtain ⟨c, hc, hm⟩ := h
  obtain ⟨c2, hc2, hgc⟩ := Node.paintGrowsList_mem cs1 cs2 hg c hc
  have h3 := ((Node.paintGrows_iff c c2).mp hgc).2.1
  exact ⟨c2, hc2, hm.imp h3.1 h3.2.1⟩

theorem paintSupported_setMarks_needsPaint (c : Node) (h : c.paintSupported = true) :
    (c.setMarks (c.Marks.Add MarkNeedsPaint)).paintSupported = true := by
  obtain ⟨_, f2, f3⟩ := node_setMarks_fields c (c.Marks.Add MarkNeedsPaint)
  rw [Node.paintSupported_iff] at h ⊢
  rw [f2, f3]
  exact ⟨fun ha => h.1 (by rw [Marks.add_needsPaint_childNeedsPaint] at ha; exact ha), h.2⟩

theorem markIntersecting_callback_supported (r : Rectangle) (c : Node)
    (ih : MarkSupportedSpec r c) (chain : List Marks) (u : Rectangle)
    (hs : c.paintSupported = true) :
    (markIntersectingNodesNotNeedingPaint.callback c chain r u).1.paintSupported = true ∧
    ((markIntersectingNodesNotNeedingPaint.callback c chain r u).2.1 = chain ∨
      (markIntersectingNodesNotNeedingPaint.callback c chain r u).1.Marks.HasAny paintMarks
        = true) := by
  rcases markIntersecting_callback_cases c chain r u with
    ⟨_, e⟩ | ⟨_, _, _, _, e⟩ | ⟨_, _, _, _, e⟩ | ⟨_, _, _, e⟩
  · rw [e]; exact ⟨hs, Or.inl rfl⟩
  · rw [e]
    dsimp only
    refine ⟨ih chain hs, ?_⟩
    rcases markIntersecting_marks_chain c chain r with ⟨_, e2⟩ | ⟨e1, _⟩
    · exact Or.inl e2
    · right; rw [e1]; simp
  · rw [e]
    dsimp only
    exact ⟨paintSupported_setMarks_needsPaint _ (ih chain hs),
      Or.inr (by rw [Marks.hasAny_paintMarks, marked_setMarks_needsPaint]; rfl)⟩
  · rw [e]
    dsimp only
    exact ⟨paintSupported_setMarks_needsPaint _ hs,
      Or.inr (by rw [Marks.hasAny_paintMarks, marked_setMarks_needsPaint]; rfl)⟩

theorem markIntersecting_iter_supported (r : Rectangle) (cs : List Node)
    (ih : ∀ c ∈ cs, MarkSupportedSpec r c) (chain : List Marks) (u : Rectangle)
    (hs : Node.paintSupportedList cs = true) :
    Node.paintSupportedList (markIntersectingNodesNotNeedingPaint.iter cs chain r u).1 = true ∧
    ((markIntersectingNodesNotNeedingPaint.iter cs chain r u).2.1 = chain ∨
      anyPaintMarked (markIntersectingNodesNotNeedingPaint.iter cs chain r u).1 = true) := by
  induction cs generalizing chain u with
  | nil =>
    rw [markIntersecting_iter_nil]
    exact ⟨rfl, Or.inl rfl⟩
  | cons c rest ihl =>
    rw [Node.paintSupportedList, Bool.and_eq_true] at hs
    obtain ⟨h1, h2⟩ :=
      markIntersecting_callback_supported r c (ih c (List.mem_cons_self _ _)) chain u hs.1
    have ihr := fun ch v => ihl (fun x hx => ih x (List.mem_cons_of_mem _ hx)) ch v hs.2
    rw [markIntersecting_iter_cons]
    generalize markIntersectingNodesNotNeedingPaint.callback c chain r u = cb at h1 h2 ⊢
    obtain ⟨h3, h4⟩ := ihr cb.2.1 cb.2.2
    generalize markIntersectingNodesNotNeedingPaint.iter rest cb.2.1 r cb.2.2 = res at h3 h4 ⊢
    dsimp only
    refine ⟨by rw [Node.paintSupportedList, h1, h3]; rfl, ?_⟩
    simp only [anyPaintMarked, List.any_cons, Bool.or_eq_true] at h4 ⊢
    rcases h2 with h2 | h2
    · rcases h4 with h4 | h4
      · left; rw [h4, h2]
      · right; right; exact h4
    · right; left; exact h2

theorem markIntersecting_supportedSpec (r : Rectangle) (node : Node) :
    MarkSupportedSpec r node := by
  induction node using Node.induction with
  | h b m cs ih =>
    intro parents hs
    rw [Node.paintSupported_iff] at hs
    simp only [node_childs_mk, node_Marks_mk] at hs
    obtain ⟨h1, h2⟩ := markIntersecting_iter_supported r cs ih (m :: parents) ZR hs.2
    obtain ⟨hg, hchain⟩ := markIntersecting_iter_grows r cs
      (fun x _ => markIntersecting_nodeSpec r x) (m :: parents) ZR
    rw [markIntersecting_mk, Node.paintSupported_iff]
    simp only [node_childs_mk, node_Marks_mk]
    refine ⟨fun hm => ?_, h1⟩
    rcases h2 with h2 | h2
    · rw [h2] at hm
      exact anyPaintMarked_mono _ _ hg (hs.1 hm)
    · exact h2

theorem ml_paintSupported_iff (ml : MultiLayer) :
    ml.paintSupported = true ↔
      (ml.Marks.ChildNeedsPaint = true →
        (ml.BgLayer.Marks.HasAny paintMarks = true ∨
          ml.SeparatorLayer.Marks.HasAny paintMarks = true ∨
          ml.ContextLayer.Marks.HasAny paintMarks = true ∨
          ml.MenuLayer.Marks.HasAny paintMarks = true)) ∧
      ml.BgLayer.paintSupported = true ∧ ml.SeparatorLayer.paintSupported = true ∧
      ml.ContextLayer.paintSupported = true ∧ ml.MenuLayer.paintSupported = true := by
  rw [MultiLayer.paintSupported, Node.paintSupported_iff]
  simp only [MultiLayer.toNode, node_childs_mk, node_Marks_mk, anyPaintMarked, List.any_cons,
    List.any_nil, Bool.or_false, Bool.or_eq_true, Node.paintSupportedList, Bool.and_true,
    Bool.and_eq_true]

theorem rectNeedsPaint_supported (ml : MultiLayer) (r : Rectangle)
    (h : ml.paintSupported = true) : (BgLayer.RectNeedsPaint ml r).paintSupported = true := by
  rw [ml_paintSupported_iff] at h ⊢
  obtain ⟨_, f2, f3, f4, f5, _⟩ := rectNeedsPaint_fields ml r
  obtain ⟨hroot, hbg, hsep, hctx, hmenu⟩ := h
  have hgbg := (markIntersecting_nodeSpec r ml.BgLayer [ml.Marks]).1
  rw [f2, f3, f4, f5]
  refine ⟨fun hm => ?_, markIntersecting_supportedSpec r ml.BgLayer [ml.Marks] hbg, hsep, hctx,
    hmenu⟩
  rcases markIntersecting_marks_chain ml.BgLayer [ml.Marks] r with ⟨_, e2⟩ | ⟨e1, _⟩
  · have hm2 : ml.Marks.ChildNeedsPaint = true := by
      simpa only [BgLayer.RectNeedsPaint, e2] using hm
    rcases hroot hm2 with hb | hb
    · left
      have h3 := ((Node.paintGrows_iff _ _).mp hgbg).2.1
      simp only [Marks.hasAny_paintMarks, Bool.or_eq_true] at hb ⊢
      exact hb.imp h3.1 h3.2.1
    · exact Or.inr hb
  · left; rw [e1]; simp

theorem paintSupportedList_set (cs : List Node) (n : Nat) (c2 : Node)
    (h : Node.paintSupportedList cs = true) (h2 : c2.paintSupported = true) :
    Node.paintSupportedList (cs.set n c2) = true := by
  rw [Node.paintSupportedList_iff] at h ⊢
  intro x hx
  rcases List.mem_or_eq_of_mem_set hx with hx | hx
  · exact h x hx
  · rw [hx]; exact h2

theorem floatChild_supported (ml : MultiLayer) (fl : FloatLayer) (n : Nat)
    (h : ml.paintSupported = true) :
    (ml.floatChildMarkNeedsPaint fl n).paintSupported = true := by
  cases hc : (ml.floatLayer fl).childs[n]? with
  | none => rw [floatChild_none ml fl n hc]; exact h
  | some c =>
    rw [ml_paintSupported_iff] at h
    obtain ⟨hroot, hbg, hsep, hctx, hmenu⟩ := h
    have hlt : n < (ml.floatLayer fl).childs.length := (List.getElem?_eq_some.mp hc).1
    have hfls : (ml.floatLayer fl).paintSupported = true := by cases fl <;> assumption
    have hcs : c.paintSupported = true :=
      (Node.paintSupportedList_iff _).mp ((Node.paintSupported_iff _).mp hfls).2 c
        (List.mem_iff_getElem?.mpr ⟨n, hc⟩)
    have hnew : (Node.mk (ml.floatLayer fl).Bounds
        ((ml.floatLayer fl).Marks.Add MarkChildNeedsPaint)
        ((ml.floatLayer fl).childs.set n (c.setMarks (c.Marks.Add MarkNeedsPaint)))).paintSupported
          = true := by
      rw [Node.paintSupported_iff]
      simp only [node_childs_mk, node_Marks_mk]
      refine ⟨fun _ => ?_, paintSupportedList_set _ n _ ((Node.paintSupported_iff _).mp hfls).2
        (paintSupported_setMarks_needsPaint c hcs)⟩
      rw [anyPaintMarked_iff]
      exact ⟨_, List.mem_iff_getElem?.mpr ⟨n, List.getElem?_set_self hlt⟩,
        Or.inl (marked_setMarks_needsPaint c)⟩
    have hnewm : (Node.mk (ml.floatLayer fl).Bounds
        ((ml.floatLayer fl).Marks.Add MarkChildNeedsPaint)
        ((ml.floatLayer fl).childs.set n
          (c.setMarks (c.Marks.Add MarkNeedsPaint)))).Marks.HasAny paintMarks = true := by
      simp
    rw [floatChild_some ml fl n c hc, ml_paintSupported_iff]
    cases fl
    · exact ⟨fun _ => Or.inr (Or.inr (Or.inl hnewm)), hbg, hsep, hnew, hmenu⟩
    · exact ⟨fun _ => Or.inr (Or.inr (Or.inr hnewm)), hbg, hsep, hctx, hnew⟩

theorem markFloatLayerNodes_body_supported (fl : FloatLayer) (ml : MultiLayer) (n : Nat)
    (h : ml.paintSupported = true) :
    (MultiLayer.markFloatLayerNodes.body fl ml n).paintSupported = true := by
  unfold MultiLayer.markFloatLayerNodes.body
  split
  · exact h
  · split
    · exact rectNeedsPaint_supported _ _ (floatChild_supported ml fl n h)
    · exact h

theorem layout_body_supported (fl : FloatLayer) (ml : MultiLayer) (n : Nat)
    (h : ml.paintSupported = true) : (FloatLayer.Layout.body fl ml n).paintSupported = true := by
  unfold FloatLayer.Layout.body
  split
  · exact h
  · exact rectNeedsPaint_supported _ _ (floatChild_supported ml fl n h)

theorem foldl_supported (f : MultiLayer → Nat → MultiLayer)
    (hf : ∀ ml n, ml.paintSupported = true → (f ml n).paintSupported = true) (l : List Nat)
    (ml : MultiLayer) (h : ml.paintSupported = true) :
    (l.foldl f ml).paintSupported = true := by
  induction l generalizing ml with
  | nil => exact h
  | cons n l ih => exact ih (f ml n) (hf ml n h)

theorem markFloatLayers_supported (ml : MultiLayer) (h : ml.paintSupported = true) :
    ml.markFloatLayers.paintSupported = true := by
  rw [markFloatLayers_eq, markFloatLayerNodes_eq, markFloatLayerNodes_eq]
  exact foldl_supported _ (markFloatLayerNodes_body_supported _) _ _
    (foldl_supported _ (markFloatLayerNodes_body_supported _) _ _ h)

theorem layout_supported (ml : MultiLayer) (fl : FloatLayer) (h : ml.paintSupported = true) :
    (FloatLayer.Layout ml fl).paintSupported = true :=
  foldl_supported _ (layout_body_supported fl) _ _ h

/-- C14: the paint-mark invariant (a node carries ChildNeedsPaint if and only if at least
one strict descendant carries NeedsPaint or ChildNeedsPaint) is preserved by the marking
operations of the compositor: if it holds on the whole compositor tree, it holds on the
whole tree after the pre-marking pass of `MultiLayer.PaintMarked`, after
`BgLayer.RectNeedsPaint(r)` and after `FloatLayer.Layout` of either float layer. -/
theorem C14_paint_invariant_preserved (ml : MultiLayer) (h : ml.paintInvariant = true) :
    ml.markFloatLayers.paintInvariant = true ∧
    (∀ r, (BgLayer.RectNeedsPaint ml r).paintInvariant = true) ∧
    (∀ fl, (FloatLayer.Layout ml fl).paintInvariant = true) := by
  obtain ⟨hc, hs⟩ := (ml_paintInvariant_iff ml).mp h
  exact ⟨(ml_paintInvariant_iff _).mpr ⟨markFloatLayers_closed ml hc,
      markFloatLayers_supported ml hs⟩,
    fun r => (ml_paintInvariant_iff _).mpr ⟨rectNeedsPaint_closed ml r hc,
      rectNeedsPaint_supported ml r hs⟩,
    fun fl => (ml_paintInvariant_iff _).mpr ⟨layout_closed ml fl hc,
      layout_supported ml fl hs⟩⟩

/-- Witness for C14: `sampleOverlayForcing` satisfies the invariant, and so does the state
after its pre-marking pass. -/
theorem C14_witness :
    sampleOverlayForcing.paintInvariant = true ∧
    sampleOverlayForcing.markFloatLayers.paintInvariant = true :=
  ⟨by decide, (C14_paint_invariant_preserved sampleOverlayForcing (by decide)).1⟩

/-! ## The order of the pre-marking pass -/

theorem visibleChildNodes_iter_grows (cs1 cs2 : List Node) (k : Nat)
    (h : Node.PaintGrowsList cs1 cs2) :
    visibleChildNodes.iter cs2 k = visibleChildNodes.iter cs1 k := by
  induction cs1 generalizing cs2 k with
  | nil =>
    cases cs2 with
    | nil => rfl
    | cons _ _ => exact absurd h (by simp [Node.PaintGrowsList])
  | cons c1 cs1 ih =>
    cases cs2 with
    | nil => exact absurd h (by simp [Node.PaintGrowsList])
    | cons c2 cs2 =>
      rw [Node.PaintGrowsList] at h
      have hf := ((Node.paintGrows_iff c1 c2).mp h.1).2.1.2.2.2.2.2
      rw [visibleChildNodes_iter_cons, visibleChildNodes_iter_cons, hf, ih cs2 (k + 1) h.2]

theorem visibleNodes_grows {s1 s2 : MultiLayer} (h : MultiLayer.PaintGrows s1 s2)
    (fl : FloatLayer) : FloatLayer.visibleNodes s2 fl = FloatLayer.visibleNodes s1 fl := by
  rw [FloatLayer.visibleNodes, FloatLayer.visibleNodes, visibleChildNodes, visibleChildNodes]
  exact visibleChildNodes_iter_grows _ _ 0
    ((Node.paintGrows_iff _ _).mp (ml_paintGrows_floatLayer h fl)).2.2

theorem floatChild_separator (ml : MultiLayer) (fl : FloatLayer) (n : Nat) :
    (ml.floatChildMarkNeedsPaint fl n).SeparatorLayer = ml.SeparatorLayer := by
  cases hc : (ml.floatLayer fl).childs[n]? with
  | none => rw [floatChild_none ml fl n hc]
  | some c => rw [floatChild_some ml fl n c hc]; cases fl <;> rfl

theorem markFloatLayerNodes_body_separator (fl : FloatLayer) (ml : MultiLayer) (n : Nat) :
    (MultiLayer.markFloatLayerNodes.body fl ml n).SeparatorLayer = ml.SeparatorLayer := by
  unfold MultiLayer.markFloatLayerNodes.body
  split
  · rfl
  · split
    · rw [(rectNeedsPaint_fields _ _).2.2.1, floatChild_separator]
    · rfl

theorem foldl_separator (f : MultiLayer → Nat → MultiLayer)
    (hf : ∀ ml n, (f ml n).SeparatorLayer = ml.SeparatorLayer) (l : List Nat)
    (ml : MultiLayer) : (l.foldl f ml).SeparatorLayer = ml.SeparatorLayer := by
  induction l generalizing ml with
  | nil => rfl
  | cons n l ih => rw [List.foldl_cons, ih, hf]

theorem markFloatLayers_separator (ml : MultiLayer) :
    ml.markFloatLayers.SeparatorLayer = ml.SeparatorLayer := by
  rw [markFloatLayers_eq, markFloatLayerNodes_eq, markFloatLayerNodes_eq,
    foldl_separator _ (markFloatLayerNodes_body_separator _),
    foldl_separator _ (markFloatLayerNodes_body_separator _)]

theorem markFloatLayers_foldl (ml : MultiLayer) :
    ml.markFloatLayers =
      (FloatLayer.visibleNodes ml FloatLayer.Menu).foldl
        (MultiLayer.markFloatLayerNodes.body FloatLayer.Menu)
        ((FloatLayer.visibleNodes ml FloatLayer.Context).foldl
          (MultiLayer.markFloatLayerNodes.body FloatLayer.Context) ml) := by
  rw [markFloatLayers_eq, markFloatLayerNodes_eq, markFloatLayerNodes_eq,
    visibleNodes_grows (foldl_grows _ (markFloatLayerNodes_body_grows FloatLayer.Context) _ ml)]

theorem menu_marked_after_context (ml : MultiLayer) (i : Nat) (G : Node)
    (hG : ml.MenuLayer.childs[i]? = some G) (hvis : G.Marks.ForceZeroBounds = false)
    (hp : intersectingNodeNeedingPaintExists
      (ml.markFloatLayerNodes FloatLayer.Context).BgLayer G.Bounds = true) :
    ∃ G2, ml.markFloatLayers.MenuLayer.childs[i]? = some G2 ∧ G2.Bounds = G.Bounds ∧
      G2.Marks.NeedsPaint = true := by
  have hg := markFloatLayerNodes_grows ml FloatLayer.Context
  obtain ⟨c1, hc1, hg1⟩ := ml_paintGrows_floatChild hg FloatLayer.Menu i G hG
  have h1 := (Node.paintGrows_iff G c1).mp hg1
  have hm := markFloatLayerNodes_marked (ml.markFloatLayerNodes FloatLayer.Context)
    FloatLayer.Menu i c1 hc1 (by rw [h1.2.1.2.2.2.2.2]; exact hvis) (by rw [h1.1]; exact hp)
  obtain ⟨G2, hG2, hnp, _⟩ := hm
  obtain ⟨c2, hc2, hg2⟩ := ml_paintGrows_floatChild (markFloatLayerNodes_grows
    (ml.markFloatLayerNodes FloatLayer.Context) FloatLayer.Menu) FloatLayer.Menu i c1 hc1
  rw [← markFloatLayers_eq] at hG2 hc2
  rw [hG2] at hc2
  cases hc2
  exact ⟨G2, hG2, by rw [((Node.paintGrows_iff c1 G2).mp hg2).1, h1.1], hnp⟩

/-- C18: the call `MultiLayer.PaintMarked` equals processing (the loop body of
`markFloatLayerNodes`) the visible nodes of ContextLayer in child order, then the visible
nodes of MenuLayer in child order, followed by the traversal `ENode.PaintMarked` from the
root. Background and Separator children are not treated as overlays: the pass leaves the
Separator layer as it was, and when neither float layer has a visible node it changes
nothing at all. Marks added for the Context overlays are seen by the Menu overlays: a
visible Menu overlay G for which the pending-paint test succeeds on the Background as it is
after the Context overlays were processed, in particular one whose bounds overlap a direct
child of the Background root carrying NeedsPaint at that moment, carries NeedsPaint when
the pre-marking pass has finished. -/
theorem C18_premarking_pass_context_then_menu (ml : MultiLayer) :
    ml.PaintMarked =
      ((FloatLayer.visibleNodes ml FloatLayer.Menu).foldl
        (MultiLayer.markFloatLayerNodes.body FloatLayer.Menu)
        ((FloatLayer.visibleNodes ml FloatLayer.Context).foldl
          (MultiLayer.markFloatLayerNodes.body FloatLayer.Context) ml)).ENodePaintMarked ∧
    ml.markFloatLayers.SeparatorLayer = ml.SeparatorLayer ∧
    (FloatLayer.visibleNodes ml FloatLayer.Context = [] →
      FloatLayer.visibleNodes ml FloatLayer.Menu = [] → ml.markFloatLayers = ml) ∧
    (∀ (i : Nat) (G : Node), ml.MenuLayer.childs[i]? = some G →
      G.Marks.ForceZeroBounds = false →
      intersectingNodeNeedingPaintExists
        (ml.markFloatLayerNodes FloatLayer.Context).BgLayer G.Bounds = true →
      ∃ G2, ml.markFloatLayers.MenuLayer.childs[i]? = some G2 ∧ G2.Bounds = G.Bounds ∧
        G2.Marks.NeedsPaint = true) ∧
    (∀ (i : Nat) (G : Node) (j : Nat) (d : Node), ml.MenuLayer.childs[i]? = some G →
      G.Marks.ForceZeroBounds = false →
      (ml.markFloatLayerNodes FloatLayer.Context).BgLayer.childs[j]? = some d →
      d.Marks.NeedsPaint = true → d.Bounds.Overlaps G.Bounds = true →
      ∃ G2, ml.markFloatLayers.MenuLayer.childs[i]? = some G2 ∧ G2.Bounds = G.Bounds ∧
        G2.Marks.NeedsPaint = true) := by
  refine ⟨?_, markFloatLayers_separator ml, ?_, menu_marked_after_context ml, ?_⟩
  · rw [MultiLayer.PaintMarked, markFloatLayers_foldl]
  · intro h1 h2
    rw [markFloatLayers_foldl, h1, h2]
    rfl
  · intro i G j d hG hvis hd hnp hov
    exact menu_marked_after_context ml i G hG hvis
      ((intersecting_iff _ _).mpr
        (PendingDescendant.direct _ d (List.mem_iff_getElem?.mpr ⟨j, hd⟩) hnp hov))

/-- Witness for C18 (`sampleOverlayChain`): before the call no pending paint lies under the
menu overlay g (20,0,25,5); processing the context overlay n (5,0,15,5), which lies over the
marked A, marks the background child B (10,0,30,10); g overlaps B and so carries NeedsPaint
when the pre-marking pass has finished. A, B, n and g are drawn. -/
theorem C18_witness :
    intersectingNodeNeedingPaintExists sampleOverlayChain.BgLayer (Rect 20 0 25 5) = false ∧
    needsPaintBits
      (sampleOverlayChain.markFloatLayerNodes FloatLayer.Context).BgLayer.childs
        = [true, true] ∧
    (∃ G2, sampleOverlayChain.markFloatLayers.MenuLayer.childs[0]? = some G2 ∧
      G2.Bounds = (leaf (Rect 20 0 25 5) Marks.none).Bounds ∧ G2.Marks.NeedsPaint = true) ∧
    sampleOverlayChain.PaintMarked.2.1 = [[0, 0], [0, 1], [2, 0], [3, 0]] :=
  ⟨by decide, by decide,
    (C18_premarking_pass_context_then_menu sampleOverlayChain).2.2.2.2 0
      (leaf (Rect 20 0 25 5) Marks.none) 1 (leaf (Rect 10 0 30 10) MarkNeedsPaint)
      rfl (by decide) rfl (by decide) (by decide),
    by decide⟩

end Widget
